import Mathlib

/-!
# The sync command of the block watcher

A shallow embedding of `src/cmd/sync.go` (the control loop of the `sync`
command and the background task `backFillAllBlocks`), of the gap filler and
the window validator of package `history` it drives, and the properties the
specification states about them.

The control loop is a `for { select { ... } }` over two channels.  It is
embedded as a step function on an explicit state: the state holds the
goroutines started with `go backFillAllBlocks(...)` that are still alive, and
an event says which communication happens next.
-/

namespace Cmd

/-- The constant `pollingInterval` of sync.go, in seconds (`7 * time.Second`). -/
def pollingInterval : Nat := 7

/-- The constant `validationWindow` of sync.go. -/
def validationWindow : Int := 15

/-- The functions of other packages that `sync` and `backFillAllBlocks` call,
taken as parameters.  `World` is the state behind the handles `blockchain` and
`blockRepository` (the node and the database), which every call shares. -/
structure Deps (World Validator Window : Type) where
  /-- The head the node reports: `blockchain.LastBlock().Int64()`. -/
  LastBlock : World → Int
  /-- The call `history.NewBlockValidator(blockchain, blockRepository, windowSize)`. -/
  NewBlockValidator : Int → Validator
  /-- The call `validator.ValidateBlocks()`. -/
  ValidateBlocks : Validator → World → Window × World
  /-- The call `history.PopulateMissingBlocks(blockchain, blockRepository, startingBlockNumber)`. -/
  PopulateMissingBlocks : World → Int → Int × World

/-- A goroutine started by `go backFillAllBlocks(..., startingBlockNumber)`:
it is either inside `history.PopulateMissingBlocks`, or that call has returned
`count` and the goroutine is blocked on `missingBlocksPopulated <- count`
(the channel is unbuffered). After the send it returns and is gone. -/
inductive Task where
  | running (startingBlockNumber : Int)
  | sending (count : Int)
deriving DecidableEq, Repr

/-- What the goroutine of `sync` itself does, in program order. -/
inductive Effect (Window : Type) where
  /-- The call `time.NewTicker(pollingInterval)`. -/
  | newTicker (seconds : Nat)
  /-- The call `history.NewBlockValidator(..., windowSize)`. -/
  | newBlockValidator (windowSize : Int)
  /-- The statement `go backFillAllBlocks(..., startingBlockNumber)`. -/
  | goBackFill (startingBlockNumber : Int)
  /-- The call `validator.ValidateBlocks()` and the window it returned. -/
  | validateBlocks (returned : Window)
  /-- The call `window.Log(os.Stdout)`. -/
  | logWindow (window : Window)
  /-- The receive `<-missingBlocksPopulated` and the value taken off the channel. -/
  | received (count : Int)
deriving DecidableEq, Repr

/-- The state of the process while `sync` is in its `for` loop. -/
structure SyncState (World Validator Window : Type) where
  /-- The package variable `startingBlockNumber` (set from the flag). -/
  startingBlockNumber : Int
  /-- The local `validator`. -/
  validator : Validator
  /-- The node and the database. -/
  world : World
  /-- The live `backFillAllBlocks` goroutines. -/
  tasks : List Task
  /-- What the goroutine of `sync` has done so far. -/
  trace : List (Effect Window)
  /-- What has been written to `os.Stdout` by `window.Log`. -/
  output : List Window

/-- How the part of `sync` before the loop ends: `log.Fatal` exits the process,
otherwise the loop is entered. Both carry what had been done until then. -/
inductive Startup (World Validator Window : Type) where
  | fatal (message : String) (trace : List (Effect Window)) (tasks : List Task)
  | looping (state : SyncState World Validator Window)

/-- Lines 73 to 89 of `sync`: the ticker, the two checks on the head, the
validator, the channel and the first `go backFillAllBlocks`. -/
def syncStart {World Validator Window : Type} (d : Deps World Validator Window)
    (startingBlockNumber : Int) (world : World) : Startup World Validator Window :=
  let trace : List (Effect Window) := [Effect.newTicker pollingInterval]
  let lastBlock := d.LastBlock world
  if lastBlock = 0 then
    Startup.fatal "geth initial: state sync not finished" trace []
  else if startingBlockNumber > lastBlock then
    Startup.fatal "starting block number > current block number" trace []
  else
    let validator := d.NewBlockValidator validationWindow
    Startup.looping
      { startingBlockNumber := startingBlockNumber
        validator := validator
        world := world
        tasks := [Task.running startingBlockNumber]
        trace := trace ++ [Effect.newBlockValidator validationWindow,
                           Effect.goBackFill startingBlockNumber]
        output := [] }

/-- The body of `backFillAllBlocks` up to the send: the call to
`history.PopulateMissingBlocks` returns and its result is the value the
goroutine offers on `missingBlocksPopulated`. -/
def backFillAllBlocks {World Validator Window : Type} (d : Deps World Validator Window)
    (world : World) (startingBlockNumber : Int) : Task × World :=
  let r := d.PopulateMissingBlocks world startingBlockNumber
  (Task.sending r.1, r.2)

/-- What can happen next while `sync` waits in `select`. -/
inductive Event where
  /-- The ticker fires and the case `<-ticker.C` is taken. -/
  | tick
  /-- The call to `PopulateMissingBlocks` of the goroutine at index `i` returns;
  what the pass did to the database is applied in this one step. -/
  | passReturns (i : Nat)
  /-- The case `<-missingBlocksPopulated` is taken, the goroutine at index `i`
  being the sender. -/
  | completion (i : Nat)
deriving DecidableEq, Repr

/-- One step of the process in the loop of `sync` (lines 91 to 99).  `none`
when the event cannot happen in this state. -/
def syncStep {World Validator Window : Type} (d : Deps World Validator Window)
    (s : SyncState World Validator Window) : Event → Option (SyncState World Validator Window)
  | Event.tick =>
    let r := d.ValidateBlocks s.validator s.world
    some { s with
      world := r.2
      trace := s.trace ++ [Effect.validateBlocks r.1, Effect.logWindow r.1]
      output := s.output ++ [r.1] }
  | Event.passReturns i =>
    match s.tasks.get? i with
    | some (Task.running start) =>
      let r := backFillAllBlocks d s.world start
      some { s with world := r.2, tasks := s.tasks.set i r.1 }
    | _ => none
  | Event.completion i =>
    match s.tasks.get? i with
    | some (Task.sending count) =>
      some { s with
        tasks := s.tasks.eraseIdx i ++ [Task.running s.startingBlockNumber]
        trace := s.trace ++ [Effect.received count, Effect.goBackFill s.startingBlockNumber] }
    | _ => none

/-- The loop of `sync` over a finite sequence of events. -/
def syncRun {World Validator Window : Type} (d : Deps World Validator Window)
    (s : SyncState World Validator Window) : List Event → Option (SyncState World Validator Window)
  | [] => some s
  | e :: es =>
    match syncStep d s e with
    | some s1 => syncRun d s1 es
    | none => none

/-- The number of `go backFillAllBlocks` statements in a trace. -/
def launches {Window : Type} (trace : List (Effect Window)) : Nat :=
  (trace.filter (fun e => match e with | Effect.goBackFill _ => true | _ => false)).length

/-- The number of calls of `ValidateBlocks` in a trace. -/
def validations {Window : Type} (trace : List (Effect Window)) : Nat :=
  (trace.filter (fun e => match e with | Effect.validateBlocks _ => true | _ => false)).length

/-- The number of values taken off `missingBlocksPopulated` in a trace. -/
def receptions {Window : Type} (trace : List (Effect Window)) : Nat :=
  (trace.filter (fun e => match e with | Effect.received _ => true | _ => false)).length

/-- What holds of every state of the loop of a `sync` started with the
starting block number `start`: the configuration is the one of the start, one
`backFillAllBlocks` goroutine is alive, started with `start`, and every launch
but the first answers a value taken off the channel. -/
def LoopInv {World Validator Window : Type} (d : Deps World Validator Window) (start : Int)
    (s : SyncState World Validator Window) : Prop :=
  s.startingBlockNumber = start ∧
  s.validator = d.NewBlockValidator validationWindow ∧
  (s.tasks = [Task.running start] ∨ ∃ count, s.tasks = [Task.sending count]) ∧
  launches s.trace = receptions s.trace + 1

end Cmd

namespace History

/-- Modelled from the spec: the Block of the data model (the type `core.Block`
is not among the sources). Transactions and receipts are kept as opaque
payloads. -/
structure Block where
  number : Int
  hash : String
  parentHash : String
  transactions : List String
  receipts : List String
deriving DecidableEq, Repr

/-- Modelled from the spec: the persisted BlockRecord, one row holding the
Block payload and the internal row id. -/
structure BlockRecord where
  id : Nat
  block : Block
deriving DecidableEq, Repr

/-- Modelled from the spec: the ChainSource collaborator (`core.Blockchain`,
not among the sources), with `LastBlockNumber()` and `BlockByNumber(n)`;
`none` is a failed fetch. -/
structure ChainSource where
  lastBlockNumber : Int
  blockByNumber : Int → Option Block

/-- Modelled from the spec: the BlockStore collaborator
(`datastore.BlockRepository`, not among the sources): the rows, the next free
row id, and the writes the store turns down with an error. -/
structure BlockStore where
  records : List BlockRecord
  nextId : Nat
  rejects : Block → Bool

/-- Modelled from the spec: `Exists(n)` of the BlockStore. -/
def BlockStore.Exists (store : BlockStore) (n : Int) : Bool :=
  store.records.any (fun r => r.block.number == n)

/-- Modelled from the spec: `Get(n)` of the BlockStore, the stored block for a
number if there is one. -/
def BlockStore.Get (store : BlockStore) (n : Int) : Option Block :=
  (store.records.find? (fun r => r.block.number == n)).map (fun r => r.block)

/-- The number of rows a store holds for a block number. -/
def BlockStore.rowsFor (store : BlockStore) (n : Int) : Nat :=
  store.records.countP (fun r => r.block.number == n)

/-- Modelled from the spec: `CreateOrUpdate(b)` of the BlockStore. A write the
store turns down leaves it as it was; otherwise the content of the row with
the number of `b` is replaced when there is one, and a new row is inserted
when there is none. The result is the row id. -/
def BlockStore.CreateOrUpdate (store : BlockStore) (b : Block) : Except String (Nat × BlockStore) :=
  if store.rejects b then
    Except.error "write failed"
  else
    match store.records.find? (fun r => r.block.number == b.number) with
    | some row =>
      Except.ok (row.id,
        { store with
          records := store.records.map
            (fun r => if r.block.number == b.number then { r with block := b } else r) })
    | none =>
      Except.ok (store.nextId,
        { store with
          records := store.records ++ [{ id := store.nextId, block := b }]
          nextId := store.nextId + 1 })

/-- The block numbers from `lo` to `hi`, both included, in ascending order;
empty when `hi < lo`. -/
def blockRange (lo hi : Int) : List Int :=
  (List.range (hi + 1 - lo).toNat).map (fun (i : Nat) => lo + (i : Int))

/-- Modelled from the spec: the MissingBlockSet, the numbers of
`[start, head]` without a record in the store, ascending. -/
def missingBlockNumbers (store : BlockStore) (start head : Int) : List Int :=
  (blockRange start head).filter (fun n => !store.Exists n)

/-- Modelled from the spec: what the GapFiller does for one missing number:
fetch the block and write it with create-or-update; a failed fetch or write
skips the number; a success is counted. -/
def fillBlock (source : ChainSource) (acc : Nat × BlockStore) (n : Int) : Nat × BlockStore :=
  match source.blockByNumber n with
  | none => acc
  | some b =>
    match acc.2.CreateOrUpdate b with
    | Except.error _ => acc
    | Except.ok r => (acc.1 + 1, r.2)

/-- Modelled from the spec: the GapFiller, `history.PopulateMissingBlocks`
(package history is not among the sources). It returns the count and the
store after the pass. -/
def PopulateMissingBlocks (source : ChainSource) (store : BlockStore) (start : Int) :
    Nat × BlockStore :=
  let currentHead := source.lastBlockNumber
  let missing := missingBlockNumbers store start currentHead
  missing.foldl (fillBlock source) (0, store)

/-- Modelled from the spec: the outcome of re-checking one number. -/
inductive Outcome where
  | Validated
  | Invalid
  | FetchError
deriving DecidableEq, Repr

/-- Modelled from the spec: the ValidationWindow, the ordered sequence of
(blockNumber, outcome) pairs of one tick. -/
abbrev ValidationWindow := List (Int × Outcome)

/-- Modelled from the spec: the WindowValidator, `history.BlockValidator`
(package history is not among the sources): it is constructed with a fixed
window size, and its window is clamped at the configured starting bound. -/
structure BlockValidator where
  windowSize : Int
  startingBound : Int
deriving DecidableEq, Repr

/-- Modelled from the spec: the constructor of the WindowValidator,
`history.NewBlockValidator`, for a process configured with the starting bound
`startingBound`, called with the window size. -/
def NewBlockValidator (startingBound : Int) (windowSize : Int) : BlockValidator :=
  { windowSize := windowSize, startingBound := startingBound }

/-- Modelled from the spec: the numbers of the validation window for a head:
`[head - W + 1, head]`, clamped at the configured starting bound. -/
def windowNumbers (validator : BlockValidator) (head : Int) : List Int :=
  blockRange (max validator.startingBound (head - validator.windowSize + 1)) head

/-- Modelled from the spec: the write-back of the WindowValidator: overwrite
storage with the freshly fetched block and report Invalid; a failed write is
reported like a failed fetch. -/
def overwriteBlock (acc : ValidationWindow × BlockStore) (n : Int) (b : Block) :
    ValidationWindow × BlockStore :=
  match acc.2.CreateOrUpdate b with
  | Except.error _ => (acc.1 ++ [(n, Outcome.FetchError)], acc.2)
  | Except.ok r => (acc.1 ++ [(n, Outcome.Invalid)], r.2)

/-- Modelled from the spec: steps 1 to 5 of the WindowValidator for one
number. -/
def validateBlock (source : ChainSource) (acc : ValidationWindow × BlockStore) (n : Int) :
    ValidationWindow × BlockStore :=
  match source.blockByNumber n with
  | none => (acc.1 ++ [(n, Outcome.FetchError)], acc.2)
  | some b =>
    match acc.2.Get n with
    | none => overwriteBlock acc n b
    | some stored =>
      if stored.hash = b.hash then (acc.1 ++ [(n, Outcome.Validated)], acc.2)
      else overwriteBlock acc n b

/-- Modelled from the spec: `ValidateBlocks()` of the WindowValidator. It
returns the window and the store after the pass. -/
def ValidateBlocks (validator : BlockValidator) (source : ChainSource) (store : BlockStore) :
    ValidationWindow × BlockStore :=
  let head := source.lastBlockNumber
  (windowNumbers validator head).foldl (validateBlock source) ([], store)

/-- The block numbers a window reports on: the numbers `ValidateBlocks`
probed, in the order it probed them. -/
def probed (window : ValidationWindow) : List Int :=
  window.map (fun p => p.1)

/-- A source that answers a fetch for `n` with a block numbered `n`. -/
def ChainSource.Consistent (source : ChainSource) : Prop :=
  ∀ n b, source.blockByNumber n = some b → b.number = n

/-- The fetch of `n` from the source and the write of the fetched block to the
store both succeed. -/
def succeeds (source : ChainSource) (store : BlockStore) (n : Int) : Bool :=
  match source.blockByNumber n with
  | none => false
  | some b => !store.rejects b

/-- The node and the database that `sync` works on. -/
structure World where
  source : ChainSource
  store : BlockStore

/-- The functions of package history and of the node that `sync` calls, over
the modelled source and store, in a process configured with the starting
block number `startingBlockNumber`. -/
def deps (startingBlockNumber : Int) : Cmd.Deps World BlockValidator ValidationWindow where
  LastBlock := fun w => w.source.lastBlockNumber
  NewBlockValidator := NewBlockValidator startingBlockNumber
  ValidateBlocks := fun v w =>
    let r := ValidateBlocks v w.source w.store
    (r.1, { w with store := r.2 })
  PopulateMissingBlocks := fun w start =>
    let r := PopulateMissingBlocks w.source w.store start
    ((r.1 : Int), { w with store := r.2 })

/-- A block with a number and a hash and nothing else. -/
def mkBlock (number : Int) (hash : String) : Block :=
  { number := number, hash := hash, parentHash := "", transactions := [], receipts := [] }

/-- A source with head `head` that answers every fetch with the block
`mkBlock n "h"`. -/
def plainSource (head : Int) : ChainSource :=
  { lastBlockNumber := head, blockByNumber := fun n => some (mkBlock n "h") }

/-- A source with head `head` whose fetch of `k` fails and that answers every
other fetch with the block `mkBlock n "h"`. -/
def gappySource (head k : Int) : ChainSource :=
  { lastBlockNumber := head
    blockByNumber := fun n => if n = k then none else some (mkBlock n "h") }

/-- A store without rows that accepts every write. -/
def emptyStore : BlockStore :=
  { records := [], nextId := 0, rejects := fun _ => false }

/-- A store whose one row holds block 90 with the hash "old", and that accepts
every write. -/
def staleStore : BlockStore :=
  { records := [{ id := 0, block := mkBlock 90 "old" }], nextId := 1, rejects := fun _ => false }

/-- A node with head `head` next to an empty database. -/
def startWorld (head : Int) : World :=
  { source := plainSource head, store := emptyStore }

end History

namespace Cmd

/-- The value of the package variable `startingBlockNumber` when `sync` runs:
`init` registers the flag `--starting-block-number` with
`Int64VarP(&startingBlockNumber, "starting-block-number", "s", 0, ...)`, so the
variable holds the value given on the command line, and the default 0 when the
flag is not given. -/
def startingBlockNumberFlag (given : Option Int) : Int :=
  match given with
  | some value => value
  | none => 0

/-- The `Run` of `syncCmd`: `sync()` with the starting block number the flag
left in the package variable. -/
def syncCmd {World Validator Window : Type} (d : Deps World Validator Window)
    (flag : Option Int) (world : World) : Startup World Validator Window :=
  syncStart d (startingBlockNumberFlag flag) world

/-- The two cases of the `select` of `sync`: what wakes the loop. -/
inductive Wake where
  /-- The case `<-ticker.C`. -/
  | tick
  /-- The case `<-missingBlocksPopulated`. -/
  | completion
deriving DecidableEq, Repr

/-- The events behind a sequence of wakes: a tick is the tick; for a
completion signal the pass of the live goroutine returns and the loop takes its
count off the channel. -/
def wakeEvents : List Wake → List Event
  | [] => []
  | Wake.tick :: ws => Event.tick :: wakeEvents ws
  | Wake.completion :: ws => Event.passReturns 0 :: Event.completion 0 :: wakeEvents ws

end Cmd

namespace EveryBlock

/-- The type `common.Address` of go-ethereum, known here by the text its
method `String()` gives. -/
structure Address where
  hex : String
deriving DecidableEq, Repr

/-- The method `String()` of an address. -/
def Address.String (a : Address) : String := a.hex

/-- The fields of `generic.ContractConfig` that `Execute` reads. -/
structure ContractConfig where
  Address : String
  Abi : String
  FirstBlock : Int
  LastBlock : Int
deriving DecidableEq, Repr

/-- The model `TokenSupply` as `createTokenSupplyModel` fills it. -/
structure TokenSupply where
  Value : String
  TokenAddress : String
  BlockNumber : Int
deriving DecidableEq, Repr

/-- The model `TokenBalance` as `createTokenBalanceModel` fills it. -/
structure TokenBalance where
  Value : String
  TokenAddress : String
  BlockNumber : Int
  TokenHolderAddress : String
deriving DecidableEq, Repr

/-- The model `TokenAllowance` as `createTokenAllowanceModel` fills it. -/
structure TokenAllowance where
  Value : String
  TokenAddress : String
  BlockNumber : Int
  TokenHolderAddress : String
  TokenSpenderAddress : String
deriving DecidableEq, Repr

def FetchingBlocksError : String :=
  "Error fetching missing blocks starting at block number %d: %s"

def FetchingSupplyError : String := "Error fetching supply for block %d: %s"

def CreateSupplyError : String := "Error inserting token_supply for block %d: %s"

def FetchingTokenAddressesError : String :=
  "Error fetching token holder addresses at block %d: %s"

def FetchingBalanceError : String := "Error fetching balance at block %d: %s"

def CreateBalanceError : String := "Error inserting token_balance at block %d: %s"

def FetchingAllowanceError : String := "Error fetching allowance at block %d: %s"

def CreateAllowanceError : String := "Error inserting allowance at block %d: %s"

/-- An operand of `fmt.Sprintf`. -/
inductive Arg where
  | int (v : Int)
  | str (s : String)
deriving DecidableEq, Repr

/-- The verbs of `fmt.Sprintf` that the message constants use: `%d` takes the
next operand, an integer, and writes it in decimal; `%s` takes the next
operand, a string, and writes it; every other character is copied. -/
def sprintfChars : List Char → List Arg → List Char
  | '%' :: 'd' :: rest, Arg.int v :: args => (toString v).toList ++ sprintfChars rest args
  | '%' :: 's' :: rest, Arg.str s :: args => s.toList ++ sprintfChars rest args
  | c :: rest, args => c :: sprintfChars rest args
  | [], _ => []

/-- The call `fmt.Sprintf(format, args...)`. -/
def Sprintf (format : String) (args : List Arg) : String :=
  String.mk (sprintfChars format.toList args)

/-- The type `transformerError`. -/
structure transformerError where
  err : String
  blockNumber : Int
  msg : String
deriving DecidableEq, Repr

/-- The method `Error()` of `transformerError`. -/
def transformerError.Error (te : transformerError) : String :=
  Sprintf te.msg [Arg.int te.blockNumber, Arg.str te.err]

/-- The function `newTransformerError`; `err` is the text `err.Error()` of the
underlying error. -/
def newTransformerError (err : String) (blockNumber : Int) (msg : String) : transformerError :=
  { err := err, blockNumber := blockNumber, msg := msg }

/-- The method `String()` of `big.Int`: the number in decimal. -/
def bigIntString (v : Int) : String := toString v

def createTokenSupplyModel (totalSupply : Int) (address : String) (blockNumber : Int) :
    TokenSupply :=
  { Value := bigIntString totalSupply, TokenAddress := address, BlockNumber := blockNumber }

def createTokenBalanceModel (tokenBalance : Int) (tokenAddress : String) (blockNumber : Int)
    (tokenHolderAddress : String) : TokenBalance :=
  { Value := bigIntString tokenBalance
    TokenAddress := tokenAddress
    BlockNumber := blockNumber
    TokenHolderAddress := tokenHolderAddress }

def createTokenAllowanceModel (tokenBalance : Int) (tokenAddress : String) (blockNumber : Int)
    (tokenHolderAddress tokenSpenderAddress : String) : TokenAllowance :=
  { Value := bigIntString tokenBalance
    TokenAddress := tokenAddress
    BlockNumber := blockNumber
    TokenHolderAddress := tokenHolderAddress
    TokenSpenderAddress := tokenSpenderAddress }

/-- The interface `ERC20GetterInterface`, over the state `σ` of the node and
the database: each call returns its result (an error is the text of the error)
and the state after it. -/
structure ERC20GetterInterface (σ : Type) where
  /-- The head: `GetBlockChain().LastBlock().Int64()`. -/
  LastBlock : σ → Int
  GetTotalSupply : String → String → Int → σ → Except String Int × σ
  GetBalance : String → String → Int → List Address → σ → Except String Int × σ
  GetAllowance : String → String → Int → List Address → σ → Except String Int × σ

/-- The interface `ERC20TokenDatastore`; a `Create` call returns the error, if
there is one. -/
structure ERC20TokenDatastore (σ : Type) where
  MissingSupplyBlocks : Int → Int → String → σ → Except String (List Int) × σ
  CreateSupply : TokenSupply → σ → Option String × σ
  MissingBalanceBlocks : Int → Int → String → String → σ → Except String (List Int) × σ
  CreateBalance : TokenBalance → σ → Option String × σ
  MissingAllowanceBlocks :
    Int → Int → String → String → String → σ → Except String (List Int) × σ
  CreateAllowance : TokenAllowance → σ → Option String × σ

/-- The interface `generic.TokenHolderRetriever`: the call returns a map keyed
by address, given here by its keys. -/
structure TokenHolderRetriever (σ : Type) where
  RetrieveTokenHolderAddresses : σ → Except String (List Address) × σ

/-- The type `ERC20Transformer`. -/
structure ERC20Transformer (σ : Type) where
  Getter : ERC20GetterInterface σ
  Repository : ERC20TokenDatastore σ
  Retriever : TokenHolderRetriever σ
  Config : ContractConfig

/-- The order in which `range` walks the keys of the map of token holders: Go
leaves it open, and it may differ between the outer loop and each run of the
inner loop. -/
structure MapOrder where
  outer : List Address → List Address
  inner : Address → List Address → List Address

end EveryBlock

namespace EveryBlock

/-- A loop `for _, x := range xs { ... }` over the state `σ` whose body
returns from `Execute` when a call fails: the result is the error returned, if
any, and the state. -/
def rangeLoop {α σ : Type} (body : α → σ → Option transformerError × σ) :
    List α → σ → Option transformerError × σ
  | [], w => (none, w)
  | x :: xs, w =>
    match body x w with
    | (some e, w1) => (some e, w1)
    | (none, w1) => rangeLoop body xs w1

/-- The body of the loop over the blocks missing a total supply (lines 110 to
124). -/
def supplyBody {σ : Type} (t : ERC20Transformer σ) (blockNumber : Int) (w : σ) :
    Option transformerError × σ :=
  match t.Getter.GetTotalSupply t.Config.Abi t.Config.Address blockNumber w with
  | (Except.error err, w1) => (some (newTransformerError err blockNumber FetchingSupplyError), w1)
  | (Except.ok totalSupply, w1) =>
    let model := createTokenSupplyModel totalSupply t.Config.Address blockNumber
    match t.Repository.CreateSupply model w1 with
    | (some err, w2) => (some (newTransformerError err blockNumber CreateSupplyError), w2)
    | (none, w2) => (none, w2)

/-- The body of the loop over the blocks missing a balance of a holder (lines
149 to 170). -/
def balanceBody {σ : Type} (t : ERC20Transformer σ) (holderAddr : Address) (blockNumber : Int)
    (w : σ) : Option transformerError × σ :=
  let balanceOfArgs := [holderAddr]
  match t.Getter.GetBalance t.Config.Abi t.Config.Address blockNumber balanceOfArgs w with
  | (Except.error err, w1) =>
    (some (newTransformerError err blockNumber FetchingBalanceError), w1)
  | (Except.ok totalSupply, w1) =>
    let model := createTokenBalanceModel totalSupply t.Config.Address blockNumber
      holderAddr.String
    match t.Repository.CreateBalance model w1 with
    | (some err, w2) => (some (newTransformerError err blockNumber CreateBalanceError), w2)
    | (none, w2) => (none, w2)

/-- The body of the loop over the blocks missing an allowance of a holder and
a spender (lines 185 to 207). -/
def allowanceBody {σ : Type} (t : ERC20Transformer σ) (holderAddr spenderAddr : Address)
    (blockNumber : Int) (w : σ) : Option transformerError × σ :=
  let allowanceArgs := [holderAddr, spenderAddr]
  match t.Getter.GetAllowance t.Config.Abi t.Config.Address blockNumber allowanceArgs w with
  | (Except.error err, w1) =>
    (some (newTransformerError err blockNumber FetchingAllowanceError), w1)
  | (Except.ok totalSupply, w1) =>
    let model := createTokenAllowanceModel totalSupply t.Config.Address blockNumber
      holderAddr.String spenderAddr.String
    match t.Repository.CreateAllowance model w1 with
    | (some err, w2) => (some (newTransformerError err blockNumber CreateAllowanceError), w2)
    | (none, w2) => (none, w2)

/-- The body of the loop over the spenders (lines 174 to 209). -/
def spenderBody {σ : Type} (t : ERC20Transformer σ) (upperBoundBlock : Int)
    (holderAddr spenderAddr : Address) (w : σ) : Option transformerError × σ :=
  match t.Repository.MissingAllowanceBlocks t.Config.FirstBlock upperBoundBlock
      t.Config.Address holderAddr.String spenderAddr.String w with
  | (Except.error err, w1) =>
    (some (newTransformerError err t.Config.FirstBlock FetchingBlocksError), w1)
  | (Except.ok blocks, w1) => rangeLoop (allowanceBody t holderAddr spenderAddr) blocks w1

/-- The body of the loop over the holders (lines 136 to 211); `spenders` is
the order in which the inner `range` walks the map. -/
def holderBody {σ : Type} (t : ERC20Transformer σ) (upperBoundBlock : Int)
    (spenders : Address → List Address) (holderAddr : Address) (w : σ) :
    Option transformerError × σ :=
  match t.Repository.MissingBalanceBlocks t.Config.FirstBlock upperBoundBlock
      t.Config.Address holderAddr.String w with
  | (Except.error err, w1) =>
    (some (newTransformerError err t.Config.FirstBlock FetchingBlocksError), w1)
  | (Except.ok blocks, w1) =>
    match rangeLoop (balanceBody t holderAddr) blocks w1 with
    | (some e, w2) => (some e, w2)
    | (none, w2) =>
      rangeLoop (spenderBody t upperBoundBlock holderAddr) (spenders holderAddr) w2

/-- The upper bound of the blocks `Execute` looks at (lines 89 to 95). -/
def upperBoundBlock {σ : Type} (t : ERC20Transformer σ) (world : σ) : Int :=
  let lastBlock := t.Getter.LastBlock world
  if t.Config.LastBlock = -1 then lastBlock else t.Config.LastBlock

/-- The method `Execute` of `ERC20Transformer`: the error it returns, if any,
and the state of the node and the database after it. -/
def Execute {σ : Type} (t : ERC20Transformer σ) (order : MapOrder) (world : σ) :
    Option transformerError × σ :=
  let upper := upperBoundBlock t world
  match t.Repository.MissingSupplyBlocks t.Config.FirstBlock upper t.Config.Address world with
  | (Except.error err, w1) =>
    (some (newTransformerError err t.Config.FirstBlock FetchingBlocksError), w1)
  | (Except.ok blocks, w1) =>
    match rangeLoop (supplyBody t) blocks w1 with
    | (some e, w2) => (some e, w2)
    | (none, w2) =>
      match t.Retriever.RetrieveTokenHolderAddresses w2 with
      | (Except.error err, w3) =>
        (some (newTransformerError err t.Config.FirstBlock FetchingTokenAddressesError), w3)
      | (Except.ok tokenHolderAddresses, w3) =>
        rangeLoop (holderBody t upper (fun h => order.inner h tokenHolderAddresses))
          (order.outer tokenHolderAddresses) w3

/-- A call received by a getter, a repository or a retriever, with its
arguments and the result it gave. -/
inductive Call where
  | MissingSupplyBlocks (startingBlock highestBlock : Int) (tokenAddress : String)
      (result : Except String (List Int))
  | GetTotalSupply (abi address : String) (blockNumber : Int) (result : Except String Int)
  | CreateSupply (model : TokenSupply) (result : Option String)
  | RetrieveTokenHolderAddresses (result : Except String (List Address))
  | MissingBalanceBlocks (startingBlock highestBlock : Int)
      (tokenAddress holderAddress : String) (result : Except String (List Int))
  | GetBalance (abi address : String) (blockNumber : Int) (methodArgs : List Address)
      (result : Except String Int)
  | CreateBalance (model : TokenBalance) (result : Option String)
  | MissingAllowanceBlocks (startingBlock highestBlock : Int)
      (tokenAddress holderAddress spenderAddress : String) (result : Except String (List Int))
  | GetAllowance (abi address : String) (blockNumber : Int) (methodArgs : List Address)
      (result : Except String Int)
  | CreateAllowance (model : TokenAllowance) (result : Option String)

/-- The getter of a transformer, writing down every call it receives: the
state is the state of the getter together with the calls received so far, and
each method does what the method of `g` does and adds the call, with the
result `g` gave, to the calls. -/
def recordingGetter {σ : Type} (g : ERC20GetterInterface σ) :
    ERC20GetterInterface (σ × List Call) :=
  { LastBlock := fun s => g.LastBlock s.1
    GetTotalSupply := fun abi address blockNumber s =>
      ((g.GetTotalSupply abi address blockNumber s.1).1,
        ((g.GetTotalSupply abi address blockNumber s.1).2,
          s.2 ++ [Call.GetTotalSupply abi address blockNumber
            (g.GetTotalSupply abi address blockNumber s.1).1]))
    GetBalance := fun abi address blockNumber methodArgs s =>
      ((g.GetBalance abi address blockNumber methodArgs s.1).1,
        ((g.GetBalance abi address blockNumber methodArgs s.1).2,
          s.2 ++ [Call.GetBalance abi address blockNumber methodArgs
            (g.GetBalance abi address blockNumber methodArgs s.1).1]))
    GetAllowance := fun abi address blockNumber methodArgs s =>
      ((g.GetAllowance abi address blockNumber methodArgs s.1).1,
        ((g.GetAllowance abi address blockNumber methodArgs s.1).2,
          s.2 ++ [Call.GetAllowance abi address blockNumber methodArgs
            (g.GetAllowance abi address blockNumber methodArgs s.1).1])) }

/-- The repository of a transformer, writing down every call it receives. -/
def recordingDatastore {σ : Type} (d : ERC20TokenDatastore σ) :
    ERC20TokenDatastore (σ × List Call) :=
  { MissingSupplyBlocks := fun first upper address s =>
      ((d.MissingSupplyBlocks first upper address s.1).1,
        ((d.MissingSupplyBlocks first upper address s.1).2,
          s.2 ++ [Call.MissingSupplyBlocks first upper address
            (d.MissingSupplyBlocks first upper address s.1).1]))
    CreateSupply := fun model s =>
      ((d.CreateSupply model s.1).1,
        ((d.CreateSupply model s.1).2, s.2 ++ [Call.CreateSupply model (d.CreateSupply model s.1).1]))
    MissingBalanceBlocks := fun first upper address holder s =>
      ((d.MissingBalanceBlocks first upper address holder s.1).1,
        ((d.MissingBalanceBlocks first upper address holder s.1).2,
          s.2 ++ [Call.MissingBalanceBlocks first upper address holder
            (d.MissingBalanceBlocks first upper address holder s.1).1]))
    CreateBalance := fun model s =>
      ((d.CreateBalance model s.1).1,
        ((d.CreateBalance model s.1).2,
          s.2 ++ [Call.CreateBalance model (d.CreateBalance model s.1).1]))
    MissingAllowanceBlocks := fun first upper address holder spender s =>
      ((d.MissingAllowanceBlocks first upper address holder spender s.1).1,
        ((d.MissingAllowanceBlocks first upper address holder spender s.1).2,
          s.2 ++ [Call.MissingAllowanceBlocks first upper address holder spender
            (d.MissingAllowanceBlocks first upper address holder spender s.1).1]))
    CreateAllowance := fun model s =>
      ((d.CreateAllowance model s.1).1,
        ((d.CreateAllowance model s.1).2,
          s.2 ++ [Call.CreateAllowance model (d.CreateAllowance model s.1).1])) }

/-- The retriever of a transformer, writing down every call it receives. -/
def recordingRetriever {σ : Type} (r : TokenHolderRetriever σ) :
    TokenHolderRetriever (σ × List Call) :=
  { RetrieveTokenHolderAddresses := fun s =>
      ((r.RetrieveTokenHolderAddresses s.1).1,
        ((r.RetrieveTokenHolderAddresses s.1).2,
          s.2 ++ [Call.RetrieveTokenHolderAddresses (r.RetrieveTokenHolderAddresses s.1).1])) }

/-- A transformer whose getter, repository and retriever write down the calls
they receive. -/
def recording {σ : Type} (t : ERC20Transformer σ) : ERC20Transformer (σ × List Call) :=
  { Getter := recordingGetter t.Getter
    Repository := recordingDatastore t.Repository
    Retriever := recordingRetriever t.Retriever
    Config := t.Config }

/-- The calls the getter, the repository and the retriever of `t` receive
during `Execute`, in order, each with its result. -/
def callsOf {σ : Type} (t : ERC20Transformer σ) (order : MapOrder) (world : σ) : List Call :=
  (Execute (recording t) order (world, [])).2.2

end EveryBlock

namespace EveryBlock

/-- Whether a call failed. -/
def Call.failed : Call → Bool
  | Call.MissingSupplyBlocks _ _ _ (Except.error _) => true
  | Call.GetTotalSupply _ _ _ (Except.error _) => true
  | Call.CreateSupply _ (some _) => true
  | Call.RetrieveTokenHolderAddresses (Except.error _) => true
  | Call.MissingBalanceBlocks _ _ _ _ (Except.error _) => true
  | Call.GetBalance _ _ _ _ (Except.error _) => true
  | Call.CreateBalance _ (some _) => true
  | Call.MissingAllowanceBlocks _ _ _ _ _ (Except.error _) => true
  | Call.GetAllowance _ _ _ _ (Except.error _) => true
  | Call.CreateAllowance _ (some _) => true
  | _ => false

/-- For a failed call: the message constant that goes with it, the block
number to report (the block of the call for a fetch or an insert of one block,
`Config.FirstBlock` for a failure to list missing blocks or to retrieve the
token holders) and the text of the underlying error. -/
def failureOf (config : ContractConfig) : Call → Option (String × Int × String)
  | Call.MissingSupplyBlocks _ _ _ (Except.error e) =>
    some (FetchingBlocksError, config.FirstBlock, e)
  | Call.GetTotalSupply _ _ b (Except.error e) => some (FetchingSupplyError, b, e)
  | Call.CreateSupply m (some e) => some (CreateSupplyError, m.BlockNumber, e)
  | Call.RetrieveTokenHolderAddresses (Except.error e) =>
    some (FetchingTokenAddressesError, config.FirstBlock, e)
  | Call.MissingBalanceBlocks _ _ _ _ (Except.error e) =>
    some (FetchingBlocksError, config.FirstBlock, e)
  | Call.GetBalance _ _ b _ (Except.error e) => some (FetchingBalanceError, b, e)
  | Call.CreateBalance m (some e) => some (CreateBalanceError, m.BlockNumber, e)
  | Call.MissingAllowanceBlocks _ _ _ _ _ (Except.error e) =>
    some (FetchingBlocksError, config.FirstBlock, e)
  | Call.GetAllowance _ _ b _ (Except.error e) => some (FetchingAllowanceError, b, e)
  | Call.CreateAllowance m (some e) => some (CreateAllowanceError, m.BlockNumber, e)
  | _ => none

/-- A message with every `%d` replaced by a number in decimal and every `%s`
by a text. -/
def substituteChars (number : Int) (text : String) : List Char → List Char
  | '%' :: 'd' :: rest => (toString number).toList ++ substituteChars number text rest
  | '%' :: 's' :: rest => text.toList ++ substituteChars number text rest
  | c :: rest => c :: substituteChars number text rest
  | [] => []

/-- A message constant with `%d` replaced by the block number in decimal and
`%s` by the text of the error. -/
def substituteVerbs (msg : String) (blockNumber : Int) (err : String) : String :=
  String.mk (substituteChars blockNumber err msg.toList)

/-- The calls of one round of the supply loop that goes well: the supply of
the block is fetched, and `CreateSupply` gets the model of the value fetched.
The pair is the block and the value. -/
def supplyCalls (config : ContractConfig) (p : Int × Int) : List Call :=
  [Call.GetTotalSupply config.Abi config.Address p.1 (Except.ok p.2),
   Call.CreateSupply
     { Value := toString p.2, TokenAddress := config.Address, BlockNumber := p.1 } none]

/-- The calls of one round of the balance loop that goes well. -/
def balanceCalls (config : ContractConfig) (holder : Address) (p : Int × Int) : List Call :=
  [Call.GetBalance config.Abi config.Address p.1 [holder] (Except.ok p.2),
   Call.CreateBalance
     { Value := toString p.2, TokenAddress := config.Address, BlockNumber := p.1,
       TokenHolderAddress := holder.String } none]

/-- The calls of one round of the allowance loop that goes well. -/
def allowanceCalls (config : ContractConfig) (holder spender : Address) (p : Int × Int) :
    List Call :=
  [Call.GetAllowance config.Abi config.Address p.1 [holder, spender] (Except.ok p.2),
   Call.CreateAllowance
     { Value := toString p.2, TokenAddress := config.Address, BlockNumber := p.1,
       TokenHolderAddress := holder.String, TokenSpenderAddress := spender.String } none]

/-- What is done for one spender of a holder: the blocks the query for missing
allowances returned, each with the allowance fetched for it. -/
structure SpenderWork where
  spender : Address
  allowances : List (Int × Int)

/-- What is done for one holder: the blocks the query for missing balances
returned, each with the balance fetched for it, and the work for each
spender. -/
structure HolderWork where
  holder : Address
  balances : List (Int × Int)
  spenders : List SpenderWork

/-- The calls for one spender of a holder when all goes well: one query for
the missing allowance blocks of the pair, then a fetch and a `CreateAllowance`
for each block it returned. -/
def spenderCalls (config : ContractConfig) (upper : Int) (holder : Address)
    (sw : SpenderWork) : List Call :=
  Call.MissingAllowanceBlocks config.FirstBlock upper config.Address holder.String
      sw.spender.String (Except.ok (sw.allowances.map Prod.fst))
    :: sw.allowances.flatMap (allowanceCalls config holder sw.spender)

/-- The calls for one holder when all goes well: one query for the missing
balance blocks of the holder, a fetch and a `CreateBalance` for each block it
returned, then the calls for each spender. -/
def holderCalls (config : ContractConfig) (upper : Int) (hw : HolderWork) : List Call :=
  Call.MissingBalanceBlocks config.FirstBlock upper config.Address hw.holder.String
      (Except.ok (hw.balances.map Prod.fst))
    :: (hw.balances.flatMap (balanceCalls config hw.holder)
        ++ hw.spenders.flatMap (spenderCalls config upper hw.holder))

/-- The models given to `CreateSupply`, in the order of the calls. -/
def supplyCreated (calls : List Call) : List TokenSupply :=
  calls.filterMap (fun c => match c with
    | Call.CreateSupply m _ => some m
    | _ => none)

/-- The blocks whose total supply was asked for, in the order of the calls. -/
def supplyFetched (calls : List Call) : List Int :=
  calls.filterMap (fun c => match c with
    | Call.GetTotalSupply _ _ b _ => some b
    | _ => none)

/-- The holders of the queries for missing balance blocks, in the order of the
calls. -/
def balanceQueried (calls : List Call) : List String :=
  calls.filterMap (fun c => match c with
    | Call.MissingBalanceBlocks _ _ _ h _ => some h
    | _ => none)

/-- The (holder, spender) pairs of the queries for missing allowance blocks,
in the order of the calls. -/
def allowanceQueried (calls : List Call) : List (String × String) :=
  calls.filterMap (fun c => match c with
    | Call.MissingAllowanceBlocks _ _ _ h s _ => some (h, s)
    | _ => none)

/-- The models given to `CreateBalance`, in the order of the calls. -/
def balanceCreated (calls : List Call) : List TokenBalance :=
  calls.filterMap (fun c => match c with
    | Call.CreateBalance m _ => some m
    | _ => none)

/-- The models given to `CreateAllowance`, in the order of the calls. -/
def allowanceCreated (calls : List Call) : List TokenAllowance :=
  calls.filterMap (fun c => match c with
    | Call.CreateAllowance m _ => some m
    | _ => none)

/-- A run that ended in an error: the calls before the last went well, the
last call failed, and the error returned carries the message constant, the
block number and the error text that go with that call. -/
def Failed (config : ContractConfig) (calls : List Call) (te : transformerError) : Prop :=
  ∃ init last, calls = init ++ [last] ∧ (∀ c ∈ init, c.failed = false) ∧
    failureOf config last = some (te.msg, te.blockNumber, te.err)

end EveryBlock

namespace EveryBlock

/-- A configuration for the examples: blocks 5 to the head. -/
def sampleConfig : ContractConfig :=
  { Address := "0xToken", Abi := "abi", FirstBlock := 5, LastBlock := -1 }

/-- A transformer for the examples, over a state that counts the rows
inserted: the head is 8; every block from the first to the upper bound misses
its supply, which is `1000 + b` at block `b`; the holders are 0xA and 0xB, each
missing its balance (`10 + b`) at the upper bound, each pair its allowance
(`b`) at the upper bound. When `failing` names a method and a block, that
method fails with "boom" at that block (for a query of missing blocks: the
first block of the query; for the retrieval of the holders: block 0). -/
def sampleTransformer (failing : Option (String × Int)) : ERC20Transformer Nat :=
  { Getter :=
      { LastBlock := fun _ => 8
        GetTotalSupply := fun _ _ b w =>
          (if failing = some ("GetTotalSupply", b) then Except.error "boom"
            else Except.ok (1000 + b), w)
        GetBalance := fun _ _ b _ w =>
          (if failing = some ("GetBalance", b) then Except.error "boom"
            else Except.ok (10 + b), w)
        GetAllowance := fun _ _ b _ w =>
          (if failing = some ("GetAllowance", b) then Except.error "boom" else Except.ok b, w) }
    Repository :=
      { MissingSupplyBlocks := fun first upper _ w =>
          (if failing = some ("MissingSupplyBlocks", first) then Except.error "boom"
            else Except.ok (History.blockRange first upper), w)
        CreateSupply := fun m w =>
          if failing = some ("CreateSupply", m.BlockNumber) then (some "boom", w)
          else (none, w + 1)
        MissingBalanceBlocks := fun first upper _ _ w =>
          (if failing = some ("MissingBalanceBlocks", first) then Except.error "boom"
            else Except.ok [upper], w)
        CreateBalance := fun m w =>
          if failing = some ("CreateBalance", m.BlockNumber) then (some "boom", w)
          else (none, w + 1)
        MissingAllowanceBlocks := fun first upper _ _ _ w =>
          (if failing = some ("MissingAllowanceBlocks", first) then Except.error "boom"
            else Except.ok [upper], w)
        CreateAllowance := fun m w =>
          if failing = some ("CreateAllowance", m.BlockNumber) then (some "boom", w)
          else (none, w + 1) }
    Retriever :=
      { RetrieveTokenHolderAddresses := fun w =>
          (if failing = some ("RetrieveTokenHolderAddresses", 0) then Except.error "boom"
            else Except.ok [{ hex := "0xA" }, { hex := "0xB" }], w) }
    Config := sampleConfig }

/-- A walk of the map for the examples: the outer loop in reverse, the inner
loop in the order given. -/
def sampleOrder : MapOrder :=
  { outer := fun l => l.reverse, inner := fun _ l => l }

end EveryBlock

namespace VatInit

/-- The type `common.Hash` of go-ethereum, 32 bytes, by its bytes. -/
structure Hash where
  bytes : List Nat
deriving DecidableEq, Repr

/-- The method `Bytes()` of a hash. -/
def Hash.Bytes (h : Hash) : List Nat := h.bytes

/-- The type `types.Log` of go-ethereum. -/
structure Log where
  Address : List Nat
  Topics : List Hash
  Data : List Nat
  BlockNumber : Nat
  TxHash : Hash
  TxIndex : Nat
  BlockHash : Hash
  Index : Nat
  Removed : Bool
deriving DecidableEq, Repr

/-- The type `VatInitModel`; the string `Ilk` and the JSON `Raw` are given by
their bytes. -/
structure VatInitModel where
  Ilk : List Nat
  TransactionIndex : Nat
  Raw : List Nat
deriving DecidableEq, Repr

/-- The function `bytes.Trim(s, cutset)` for a cutset of ASCII bytes: the
bytes of the cutset are cut off the end of `s` and then off its start. -/
def bytesTrim (s : List Nat) (cutset : List Nat) : List Nat :=
  ((s.reverse.dropWhile (fun b => cutset.contains b)).reverse).dropWhile
    (fun b => cutset.contains b)

/-- How a call of `ToModels` ends: it returns its pair of models and error
(`nil` models are the empty list), or it panics. -/
inductive Result where
  | returned (models : List VatInitModel) (err : Option String)
  | panic (message : String)
deriving DecidableEq, Repr

/-- The function `verifyLog`: the error, if there is one. -/
def verifyLog (log : Log) : Option String :=
  if log.Topics.length < 2 then some "log missing topics" else none

/-- The loop of `ToModels` (lines 33 to 49), from the logs still to convert and
the models made so far; `marshal` is `json.Marshal` on a log. -/
def toModelsLoop (marshal : Log → Except String (List Nat)) :
    List Log → List VatInitModel → Result
  | [], models => Result.returned models none
  | ethLog :: rest, models =>
    match verifyLog ethLog with
    | some err => Result.returned [] (some err)
    | none =>
      match ethLog.Topics.get? 1 with
      | none => Result.panic "index out of range [1]"
      | some topic =>
        let ilk := bytesTrim topic.Bytes [0]
        match marshal ethLog with
        | Except.error err => Result.returned [] (some err)
        | Except.ok raw =>
          toModelsLoop marshal rest
            (models ++ [{ Ilk := ilk, TransactionIndex := ethLog.TxIndex, Raw := raw }])

/-- The method `ToModels` of `VatInitConverter`. -/
def ToModels (marshal : Log → Except String (List Nat)) (ethLogs : List Log) : Result :=
  toModelsLoop marshal ethLogs []

/-- The bytes of a text of ASCII characters. -/
def asciiBytes (s : String) : List Nat := s.toList.map Char.toNat

/-- The log `EthBiteLog` of the test data, with its three topics; the address,
the data and the two hashes are left empty. -/
def EthBiteLog : Log :=
  { Address := []
    Topics :=
      [{ bytes := [153, 181, 98, 4, 137, 182, 239, 146, 109, 69, 24, 147, 108, 254, 193, 93,
          48, 84, 82, 113, 43, 136, 189, 89, 218, 45, 156, 16, 251, 9, 83, 232] },
       { bytes := [102, 97, 107, 101, 32, 105, 108, 107] ++ List.replicate 24 0 },
       { bytes := [102, 97, 107, 101, 32, 108, 97, 100] ++ List.replicate 24 0 }]
    Data := []
    BlockNumber := 26
    TxHash := { bytes := [] }
    TxIndex := 111
    BlockHash := { bytes := [] }
    Index := 0
    Removed := false }

/-- A log with one topic only. -/
def shortLog : Log := { EthBiteLog with Topics := EthBiteLog.Topics.take 1, TxIndex := 7 }

/-- A JSON encoding for the examples that never fails. -/
def sampleMarshal (log : Log) : Except String (List Nat) := Except.ok [log.TxIndex]

end VatInit

namespace Constants

/-- An event of a contract ABI: its name and the types of its inputs, in
order. -/
structure Event where
  name : String
  inputs : List String
deriving DecidableEq, Repr

/-- The entries of type `event` of `DaiAbiString`, in the order of the
string. -/
def DaiAbiEvents : List Event :=
  [{ name := "Mint", inputs := ["address", "uint256"] },
   { name := "Burn", inputs := ["address", "uint256"] },
   { name := "LogSetAuthority", inputs := ["address"] },
   { name := "LogSetOwner", inputs := ["address"] },
   { name := "LogNote",
     inputs := ["bytes4", "address", "bytes32", "bytes32", "uint256", "bytes"] },
   { name := "Approval", inputs := ["address", "address", "uint256"] },
   { name := "Transfer", inputs := ["address", "address", "uint256"] }]

/-- The entries of type `event` of `TusdAbiString`, in the order of the
string. -/
def TusdAbiEvents : List Event :=
  [{ name := "ChangeBurnBoundsEvent", inputs := ["uint256", "uint256"] },
   { name := "Mint", inputs := ["address", "uint256"] },
   { name := "WipedAccount", inputs := ["address", "uint256"] },
   { name := "DelegatedTo", inputs := ["address"] },
   { name := "Burn", inputs := ["address", "uint256"] },
   { name := "Pause", inputs := [] },
   { name := "Unpause", inputs := [] },
   { name := "OwnershipTransferred", inputs := ["address", "address"] },
   { name := "Approval", inputs := ["address", "address", "uint256"] },
   { name := "Transfer", inputs := ["address", "address", "uint256"] }]

/-- The canonical signature of an event: its name and, between brackets, the
types of its inputs separated by commas. -/
def canonicalSignature (e : Event) : String :=
  e.name ++ "(" ++ ",".intercalate e.inputs ++ ")"

/-- The event of a name in an ABI. -/
def eventNamed (abi : List Event) (name : String) : Option Event :=
  abi.find? (fun e => e.name == name)

/-- The text given to `helpers.GenerateSignature` for `TransferEventSignature`
(line 54). -/
def transferSignatureText : String := "Transfer(address,address,uint)"

/-- The text given to `helpers.GenerateSignature` for `ApprovalEventSignature`
(line 55). -/
def approvalSignatureText : String := "Approval(address,address,uint)"

/-- The variable `TransferEventSignature`; the function
`helpers.GenerateSignature` is taken as a parameter. -/
def TransferEventSignature (GenerateSignature : String → String) : String :=
  GenerateSignature transferSignatureText

/-- The variable `ApprovalEventSignature`. -/
def ApprovalEventSignature (GenerateSignature : String → String) : String :=
  GenerateSignature approvalSignatureText

end Constants

/-! ## The control loop of `sync` -/

namespace Cmd

section Loop

variable {World Validator Window : Type} (d : Deps World Validator Window)

theorem launches_append (t u : List (Effect Window)) :
    launches (t ++ u) = launches t + launches u := by
  simp [launches]

theorem receptions_append (t u : List (Effect Window)) :
    receptions (t ++ u) = receptions t + receptions u := by
  simp [receptions]

theorem validations_append (t u : List (Effect Window)) :
    validations (t ++ u) = validations t + validations u := by
  simp [validations]

/-- The state in which the loop is entered satisfies the loop invariant. -/
theorem syncStart_inv (start : Int) (w : World) (st : SyncState World Validator Window)
    (hstart : syncStart d start w = Startup.looping st) : LoopInv d start st := by
  unfold syncStart at hstart
  simp only at hstart
  split_ifs at hstart with h0 h1
  cases hstart
  refine ⟨rfl, rfl, Or.inl rfl, ?_⟩
  simp [launches, receptions]

/-- Every step of the loop keeps the loop invariant. -/
theorem syncStep_inv (start : Int) (s s1 : SyncState World Validator Window) (e : Event)
    (hinv : LoopInv d start s) (hstep : syncStep d s e = some s1) : LoopInv d start s1 := by
  obtain ⟨hs, hv, ht, hl⟩ := hinv
  cases e with
  | tick =>
    simp only [syncStep, Option.some.injEq] at hstep
    subst hstep
    refine ⟨hs, hv, ht, ?_⟩
    simp only [launches_append, receptions_append, hl]
    simp [launches, receptions]
  | passReturns i =>
    rcases ht with ht | ⟨c, ht⟩
    · cases i with
      | zero =>
        simp only [syncStep, ht, List.get?_cons_zero, backFillAllBlocks, Option.some.injEq,
          List.set_cons_zero] at hstep
        subst hstep
        exact ⟨hs, hv, Or.inr ⟨_, rfl⟩, hl⟩
      | succ j => simp [syncStep, ht] at hstep
    · cases i with
      | zero => simp [syncStep, ht] at hstep
      | succ j => simp [syncStep, ht] at hstep
  | completion i =>
    rcases ht with ht | ⟨c, ht⟩
    · cases i with
      | zero => simp [syncStep, ht] at hstep
      | succ j => simp [syncStep, ht] at hstep
    · cases i with
      | zero =>
        simp only [syncStep, ht, List.get?_cons_zero, Option.some.injEq] at hstep
        subst hstep
        refine ⟨hs, hv, Or.inl ?_, ?_⟩
        · simp [hs]
        · simp only [launches_append, receptions_append, hl]
          simp [launches, receptions]
      | succ j => simp [syncStep, ht] at hstep

/-- Every run of the loop keeps the loop invariant. -/
theorem syncRun_inv (start : Int) (evs : List Event) :
    ∀ s s1 : SyncState World Validator Window,
      LoopInv d start s → syncRun d s evs = some s1 → LoopInv d start s1 := by
  induction evs with
  | nil =>
    intro s s1 hinv hrun
    simp only [syncRun, Option.some.injEq] at hrun
    exact hrun ▸ hinv
  | cons e es ih =>
    intro s s1 hinv hrun
    simp only [syncRun] at hrun
    cases hstep : syncStep d s e with
    | none => simp [hstep] at hrun
    | some s2 =>
      rw [hstep] at hrun
      exact ih s2 s1 (syncStep_inv d start s s2 e hinv hstep) hrun

/-- C1: `sync` ends in `log.Fatal`, with no `backFillAllBlocks` goroutine
started and `ValidateBlocks` never called, when the head at startup is 0 or the
starting block number is above the head; in every other case (the starting
block number equal to the head included) it starts the first
`backFillAllBlocks` with the starting block number and enters the loop. -/
theorem sync_startup_fatal_or_loops (start : Int) (w : World) :
    ((d.LastBlock w = 0 ∨ start > d.LastBlock w) →
      ∃ message, syncStart d start w
        = Startup.fatal message [Effect.newTicker pollingInterval] []) ∧
    ((d.LastBlock w ≠ 0 ∧ start ≤ d.LastBlock w) →
      ∃ st, syncStart d start w = Startup.looping st ∧
        st.tasks = [Task.running start] ∧
        st.trace = [Effect.newTicker pollingInterval,
          Effect.newBlockValidator validationWindow, Effect.goBackFill start] ∧
        st.output = [] ∧ st.world = w) := by
  constructor
  · intro h
    unfold syncStart
    by_cases h0 : d.LastBlock w = 0
    · refine ⟨"geth initial: state sync not finished", ?_⟩
      simp [h0]
    · rcases h with h | h
      · exact absurd h h0
      · refine ⟨"starting block number > current block number", ?_⟩
        simp [h0, h]
  · rintro ⟨h0, h1⟩
    unfold syncStart
    have h2 : ¬ start > d.LastBlock w := by omega
    simp only [h0, h2, if_false]
    exact ⟨_, rfl, rfl, rfl, rfl, rfl⟩

/-- C2: in every state the loop of `sync` reaches after a successful startup
one `backFillAllBlocks` goroutine is alive, inside its pass or waiting to hand
over its count; the launches are one more than the values taken off the
channel; and of the steps possible there only the one that takes a value off
the channel launches a goroutine (the sender is then gone, so one is alive
again), a tick and the return of a pass launch none. -/
theorem sync_one_gap_filler (start : Int) (w : World)
    (st st1 : SyncState World Validator Window) (evs : List Event)
    (hstart : syncStart d start w = Startup.looping st)
    (hrun : syncRun d st evs = some st1) :
    st1.tasks.length = 1 ∧
    (st1.tasks = [Task.running start] ∨ ∃ count, st1.tasks = [Task.sending count]) ∧
    launches st1.trace = receptions st1.trace + 1 ∧
    (∀ e st2, syncStep d st1 e = some st2 →
      st2.tasks.length = 1 ∧
      ((∃ i, e = Event.completion i) →
        (∃ count, st1.tasks = [Task.sending count]) ∧
        st2.tasks = [Task.running start] ∧
        launches st2.trace = launches st1.trace + 1) ∧
      ((¬ ∃ i, e = Event.completion i) →
        launches st2.trace = launches st1.trace)) := by
  have hinv := syncRun_inv d start evs st st1 (syncStart_inv d start w st hstart) hrun
  have hlen : ∀ s : SyncState World Validator Window, LoopInv d start s → s.tasks.length = 1 := by
    intro s hs
    rcases hs.2.2.1 with h | ⟨c, h⟩ <;> simp [h]
  refine ⟨hlen st1 hinv, hinv.2.2.1, hinv.2.2.2, ?_⟩
  intro e st2 hstep
  have hinv2 := syncStep_inv d start st1 st2 e hinv hstep
  refine ⟨hlen st2 hinv2, ?_, ?_⟩
  · rintro ⟨i, rfl⟩
    rcases hinv.2.2.1 with ht | ⟨c, ht⟩
    · cases i <;> simp [syncStep, ht] at hstep
    · cases i with
      | zero =>
        simp only [syncStep, ht, List.get?_cons_zero, Option.some.injEq] at hstep
        subst hstep
        refine ⟨⟨c, ht⟩, by simp [hinv.1], ?_⟩
        simp only [launches_append]
        simp [launches]
      | succ j => simp [syncStep, ht] at hstep
  · intro hne
    cases e with
    | tick =>
      simp only [syncStep, Option.some.injEq] at hstep
      subst hstep
      simp only [launches_append]
      simp [launches]
    | passReturns i =>
      simp only [syncStep] at hstep
      split at hstep
      · simp only [Option.some.injEq] at hstep
        subst hstep
        rfl
      · exact absurd hstep (by simp)
    | completion i => exact absurd ⟨i, rfl⟩ hne

/-- C3: whenever the loop of `sync` takes a value off
`missingBlocksPopulated`, whatever the value, it starts one new
`backFillAllBlocks` goroutine and gives it the starting block number of the
first launch. -/
theorem sync_completion_relaunches (start : Int) (w : World)
    (st st1 st2 : SyncState World Validator Window) (evs : List Event) (i : Nat)
    (hstart : syncStart d start w = Startup.looping st)
    (hrun : syncRun d st evs = some st1)
    (hstep : syncStep d st1 (Event.completion i) = some st2) :
    Effect.goBackFill start ∈ st.trace ∧
    ∃ count, st1.tasks.get? i = some (Task.sending count) ∧
      st2.trace = st1.trace ++ [Effect.received count, Effect.goBackFill start] ∧
      launches st2.trace = launches st1.trace + 1 ∧
      st2.tasks = st1.tasks.eraseIdx i ++ [Task.running start] ∧
      st2.world = st1.world ∧ st2.output = st1.output := by
  have hinv := syncRun_inv d start evs st st1 (syncStart_inv d start w st hstart) hrun
  constructor
  · unfold syncStart at hstart
    simp only at hstart
    split_ifs at hstart with h0 h1
    cases hstart
    simp
  · simp only [syncStep] at hstep
    split at hstep
    · rename_i count hget
      simp only [Option.some.injEq] at hstep
      subst hstep
      refine ⟨count, hget, by simp [hinv.1], ?_, by simp [hinv.1], rfl, rfl⟩
      simp only [launches_append]
      simp [launches]
    · exact absurd hstep (by simp)

/-- C4: on a tick the loop of `sync` calls `ValidateBlocks` once, itself,
writes the window that call returned to the output, and does nothing else: no
goroutine is started or ended and nothing is taken off or put on the channel. -/
theorem sync_tick_validates_once (s : SyncState World Validator Window) :
    ∃ s1, syncStep d s Event.tick = some s1 ∧
      s1.trace = s.trace ++ [Effect.validateBlocks (d.ValidateBlocks s.validator s.world).1,
        Effect.logWindow (d.ValidateBlocks s.validator s.world).1] ∧
      s1.output = s.output ++ [(d.ValidateBlocks s.validator s.world).1] ∧
      s1.world = (d.ValidateBlocks s.validator s.world).2 ∧
      validations s1.trace = validations s.trace + 1 ∧
      launches s1.trace = launches s.trace ∧
      receptions s1.trace = receptions s.trace ∧
      s1.tasks = s.tasks ∧
      s1.validator = s.validator ∧ s1.startingBlockNumber = s.startingBlockNumber := by
  refine ⟨_, rfl, rfl, rfl, rfl, ?_, ?_, ?_, rfl, rfl, rfl⟩
  · simp only [validations_append]
    simp [validations]
  · simp only [launches_append]
    simp [launches]
  · simp only [receptions_append]
    simp [receptions]

/-- C5: after a successful startup `sync` has started one
`backFillAllBlocks` goroutine, with the configured starting block number, when
it enters the loop; and in every pass the value the goroutine offers on the
channel is the count `PopulateMissingBlocks` returned for that pass, and is the
value the loop takes off the channel. -/
theorem sync_backfill_reports_count (start : Int) (w : World)
    (st st1 : SyncState World Validator Window) (evs : List Event)
    (hstart : syncStart d start w = Startup.looping st)
    (hrun : syncRun d st evs = some st1) :
    st.tasks = [Task.running start] ∧ launches st.trace = 1 ∧
    Effect.goBackFill start ∈ st.trace ∧
    (∀ i st2, syncStep d st1 (Event.passReturns i) = some st2 →
      st1.tasks = [Task.running start] ∧
      st2.tasks = [Task.sending (d.PopulateMissingBlocks st1.world start).1] ∧
      st2.world = (d.PopulateMissingBlocks st1.world start).2 ∧
      st2.trace = st1.trace) ∧
    (∀ i st2, syncStep d st1 (Event.completion i) = some st2 →
      ∃ count, st1.tasks = [Task.sending count] ∧
        st2.trace = st1.trace ++ [Effect.received count, Effect.goBackFill start]) := by
  have hinv := syncRun_inv d start evs st st1 (syncStart_inv d start w st hstart) hrun
  have hentry : st.tasks = [Task.running start] ∧ launches st.trace = 1 ∧
      Effect.goBackFill start ∈ st.trace := by
    unfold syncStart at hstart
    simp only at hstart
    split_ifs at hstart with h0 h1
    cases hstart
    simp [launches]
  refine ⟨hentry.1, hentry.2.1, hentry.2.2, ?_, ?_⟩
  · intro i st2 hstep
    rcases hinv.2.2.1 with ht | ⟨c, ht⟩
    · cases i with
      | zero =>
        simp only [syncStep, ht, List.get?_cons_zero, backFillAllBlocks, Option.some.injEq,
          List.set_cons_zero] at hstep
        subst hstep
        exact ⟨ht, rfl, rfl, rfl⟩
      | succ j => simp [syncStep, ht] at hstep
    · cases i <;> simp [syncStep, ht] at hstep
  · intro i st2 hstep
    rcases hinv.2.2.1 with ht | ⟨c, ht⟩
    · cases i <;> simp [syncStep, ht] at hstep
    · cases i with
      | zero =>
        simp only [syncStep, ht, List.get?_cons_zero, Option.some.injEq] at hstep
        subst hstep
        exact ⟨c, ht, by simp [hinv.1]⟩
      | succ j => simp [syncStep, ht] at hstep

end Loop

end Cmd

/-! ## The control loop on a concrete node -/

namespace Cmd

open History

/-- C1 on concrete inputs: head 0 is fatal; start 50 with head 10 is fatal;
start 10 with head 10 enters the loop. -/
theorem sync_startup_fatal_or_loops_witness :
    ((deps 0).LastBlock (startWorld 0) = 0 ∧
      ∃ message, syncStart (deps 0) 0 (startWorld 0)
        = Startup.fatal message [Effect.newTicker pollingInterval] []) ∧
    ((50 : Int) > (deps 50).LastBlock (startWorld 10) ∧
      ∃ message, syncStart (deps 50) 50 (startWorld 10)
        = Startup.fatal message [Effect.newTicker pollingInterval] []) ∧
    (((deps 10).LastBlock (startWorld 10) ≠ 0 ∧
        (10 : Int) ≤ (deps 10).LastBlock (startWorld 10)) ∧
      ∃ st, syncStart (deps 10) 10 (startWorld 10) = Startup.looping st ∧
        st.tasks = [Task.running 10] ∧
        st.trace = [Effect.newTicker pollingInterval,
          Effect.newBlockValidator validationWindow, Effect.goBackFill 10] ∧
        st.output = [] ∧ st.world = startWorld 10) :=
  ⟨⟨rfl, (sync_startup_fatal_or_loops (deps 0) 0 (startWorld 0)).1 (Or.inl rfl)⟩,
   ⟨by decide,
    (sync_startup_fatal_or_loops (deps 50) 50 (startWorld 10)).1 (Or.inr (by decide))⟩,
   ⟨⟨by decide, by decide⟩,
    (sync_startup_fatal_or_loops (deps 10) 10 (startWorld 10)).2 ⟨by decide, by decide⟩⟩⟩

/-- C2 on a concrete run: start 0, head 5, and the events: the pass returns,
a tick, the count is taken off the channel, a tick. -/
theorem sync_one_gap_filler_witness :
    ∃ st st1, syncStart (deps 0) 0 (startWorld 5) = Startup.looping st ∧
      syncRun (deps 0) st [Event.passReturns 0, Event.tick, Event.completion 0, Event.tick]
        = some st1 ∧
      st1.tasks.length = 1 ∧ launches st1.trace = receptions st1.trace + 1 :=
  ⟨_, _, rfl, rfl,
    (sync_one_gap_filler (deps 0) 0 (startWorld 5) _ _
      [Event.passReturns 0, Event.tick, Event.completion 0, Event.tick] rfl rfl).1,
    (sync_one_gap_filler (deps 0) 0 (startWorld 5) _ _
      [Event.passReturns 0, Event.tick, Event.completion 0, Event.tick] rfl rfl).2.2.1⟩

/-- C3 on a concrete run: start 2, head 5; the first pass returns 4 and the
loop takes the 4 off the channel and launches again from 2. -/
theorem sync_completion_relaunches_witness :
    ∃ st st1 st2, syncStart (deps 2) 2 (startWorld 5) = Startup.looping st ∧
      syncRun (deps 2) st [Event.passReturns 0, Event.tick] = some st1 ∧
      syncStep (deps 2) st1 (Event.completion 0) = some st2 ∧
      st1.tasks.get? 0 = some (Task.sending 4) ∧
      st2.tasks = [Task.running 2] ∧
      Effect.goBackFill 2 ∈ st.trace ∧
      ∃ count, st1.tasks.get? 0 = some (Task.sending count) ∧
        st2.trace = st1.trace ++ [Effect.received count, Effect.goBackFill 2] ∧
        launches st2.trace = launches st1.trace + 1 ∧
        st2.tasks = st1.tasks.eraseIdx 0 ++ [Task.running 2] ∧
        st2.world = st1.world ∧ st2.output = st1.output :=
  ⟨_, _, _, rfl, rfl, rfl, rfl, rfl,
    sync_completion_relaunches (deps 2) 2 (startWorld 5) _ _ _ [Event.passReturns 0, Event.tick] 0
      rfl rfl rfl⟩

/-- C5 on a concrete run: start 0, head 5, empty store: one goroutine is
started with 0, and its pass hands over the 6 that `PopulateMissingBlocks`
returned. -/
theorem sync_backfill_reports_count_witness :
    ∃ st st2, syncStart (deps 0) 0 (startWorld 5) = Startup.looping st ∧
      syncRun (deps 0) st [] = some st ∧
      syncStep (deps 0) st (Event.passReturns 0) = some st2 ∧
      st.tasks = [Task.running 0] ∧ launches st.trace = 1 ∧
      st2.tasks = [Task.sending ((deps 0).PopulateMissingBlocks st.world 0).1] ∧
      ((deps 0).PopulateMissingBlocks st.world 0).1 = 6 :=
  ⟨_, _, rfl, rfl, rfl,
    (sync_backfill_reports_count (deps 0) 0 (startWorld 5) _ _ [] rfl rfl).1,
    (sync_backfill_reports_count (deps 0) 0 (startWorld 5) _ _ [] rfl rfl).2.1,
    ((sync_backfill_reports_count (deps 0) 0 (startWorld 5) _ _ [] rfl rfl).2.2.2.1 0 _ rfl).2.1,
    rfl⟩

end Cmd

/-! ## The block store -/

namespace History

theorem mem_blockRange (lo hi n : Int) : n ∈ blockRange lo hi ↔ lo ≤ n ∧ n ≤ hi := by
  unfold blockRange
  simp only [List.mem_map, List.mem_range]
  constructor
  · rintro ⟨i, hi1, rfl⟩
    omega
  · rintro ⟨h1, h2⟩
    refine ⟨(n - lo).toNat, ?_, ?_⟩
    · omega
    · omega

theorem nodup_blockRange (lo hi : Int) : (blockRange lo hi).Nodup := by
  unfold blockRange
  refine List.Nodup.map ?_ (List.nodup_range _)
  intro a b hab
  simpa using hab

theorem toFinset_blockRange (lo hi : Int) : (blockRange lo hi).toFinset = Finset.Icc lo hi := by
  ext n
  simp [mem_blockRange]

/-- Replacing the content of the rows numbered like `b` leaves the lookup of
every other number as it was. -/
theorem find_replace_other (b : Block) (n : Int) (hn : n ≠ b.number) (l : List BlockRecord) :
    ((l.map (fun r => if r.block.number == b.number then { r with block := b } else r)).find?
        (fun r => r.block.number == n)).map (fun r => r.block)
      = (l.find? (fun r => r.block.number == n)).map (fun r => r.block) := by
  induction l with
  | nil => rfl
  | cons r l ih =>
    have hbn : (b.number == n) = false := beq_eq_false_iff_ne.2 (fun h => hn h.symm)
    by_cases hr : r.block.number = b.number
    · have hb : (r.block.number == b.number) = true := beq_iff_eq.2 hr
      have hrn : (r.block.number == n) = false :=
        beq_eq_false_iff_ne.2 (fun h => hn (h.symm.trans hr))
      simp only [List.map_cons, List.find?_cons, hb, hbn, hrn, if_true]
      exact ih
    · have hb : (r.block.number == b.number) = false := beq_eq_false_iff_ne.2 hr
      simp only [List.map_cons, List.find?_cons, hb, Bool.false_eq_true, if_false]
      cases hrn : (r.block.number == n) with
      | true => rfl
      | false => exact ih

/-- Replacing the content of the rows numbered like `b` makes the lookup of
that number give `b`, when there is such a row. -/
theorem find_replace_same (b : Block) (l : List BlockRecord) (row : BlockRecord)
    (hrow : l.find? (fun r => r.block.number == b.number) = some row) :
    ((l.map (fun r => if r.block.number == b.number then { r with block := b } else r)).find?
        (fun r => r.block.number == b.number)).map (fun r => r.block) = some b := by
  induction l with
  | nil => exact absurd hrow (by simp)
  | cons r l ih =>
    have hbb : (b.number == b.number) = true := beq_self_eq_true _
    cases hb : (r.block.number == b.number) with
    | true =>
      simp only [List.map_cons, List.find?_cons, hb, hbb, if_true, Option.map_some']
    | false =>
      simp only [List.find?_cons, hb] at hrow
      simp only [List.map_cons, List.find?_cons, hb, Bool.false_eq_true, if_false]
      exact ih hrow

/-- Replacing the content of the rows numbered like `b` keeps the number of
rows of every number. -/
theorem countP_replace (b : Block) (n : Int) (l : List BlockRecord) :
    (l.map (fun r => if r.block.number == b.number then { r with block := b } else r)).countP
        (fun r => r.block.number == n)
      = l.countP (fun r => r.block.number == n) := by
  induction l with
  | nil => rfl
  | cons r l ih =>
    cases hb : (r.block.number == b.number) with
    | true =>
      have hr : r.block.number = b.number := beq_iff_eq.1 hb
      simp only [List.map_cons, List.countP_cons, hb, if_true, ih]
      rw [hr]
    | false =>
      simp only [List.map_cons, List.countP_cons, hb, Bool.false_eq_true, if_false, ih]

theorem exists_eq_isSome_get (store : BlockStore) (n : Int) :
    store.Exists n = (store.Get n).isSome := by
  unfold BlockStore.Exists BlockStore.Get
  induction store.records with
  | nil => rfl
  | cons r l ih =>
    cases hr : (r.block.number == n) with
    | true => simp only [List.any_cons, List.find?_cons, hr, Bool.true_or, Option.map_some',
        Option.isSome_some]
    | false => simp only [List.any_cons, List.find?_cons, hr, Bool.false_or, ih]

theorem get_eq_none_iff_rowsFor (store : BlockStore) (n : Int) :
    store.Get n = none ↔ store.rowsFor n = 0 := by
  unfold BlockStore.Get BlockStore.rowsFor
  simp [List.countP_eq_zero]

/-- A write the store turns down is an error. -/
theorem createOrUpdate_rejected (store : BlockStore) (b : Block) (h : store.rejects b = true) :
    store.CreateOrUpdate b = Except.error "write failed" := by
  simp [BlockStore.CreateOrUpdate, h]

/-- What an accepted write does to the store. -/
theorem createOrUpdate_accepted (store : BlockStore) (b : Block) (h : store.rejects b = false) :
    ∃ r, store.CreateOrUpdate b = Except.ok r ∧
      r.2.rejects = store.rejects ∧
      r.2.Get b.number = some b ∧
      (∀ n, n ≠ b.number → r.2.Get n = store.Get n) ∧
      (∀ n, n ≠ b.number → r.2.rowsFor n = store.rowsFor n) ∧
      r.2.rowsFor b.number = max 1 (store.rowsFor b.number) := by
  unfold BlockStore.CreateOrUpdate
  simp only [h, Bool.false_eq_true, if_false]
  cases hfind : store.records.find? (fun r => r.block.number == b.number) with
  | none =>
    refine ⟨_, rfl, rfl, ?_, ?_, ?_, ?_⟩
    · simp [BlockStore.Get, List.find?_append, hfind]
    · intro n hn
      have hn1 : ¬ b.number = n := fun h => hn h.symm
      simp [BlockStore.Get, List.find?_append, hn1]
    · intro n hn
      have hn1 : ¬ b.number = n := fun h => hn h.symm
      simp [BlockStore.rowsFor, List.countP_append, hn1]
    · have h0 : store.rowsFor b.number = 0 :=
        (get_eq_none_iff_rowsFor store b.number).1 (by simp [BlockStore.Get, hfind])
      rw [h0]
      simp only [BlockStore.rowsFor] at h0
      simp [BlockStore.rowsFor, List.countP_append, h0]
  | some row =>
    refine ⟨_, rfl, rfl, ?_, ?_, ?_, ?_⟩
    · exact find_replace_same b store.records row hfind
    · intro n hn
      exact find_replace_other b n hn store.records
    · intro n _
      exact countP_replace b n store.records
    · have h1 : 1 ≤ store.rowsFor b.number := by
        by_contra hlt
        have h0 : store.rowsFor b.number = 0 := by omega
        have := (get_eq_none_iff_rowsFor store b.number).2 h0
        simp [BlockStore.Get, hfind] at this
      have h2 := countP_replace b b.number store.records
      simp only [BlockStore.rowsFor] at h1 ⊢
      rw [h2]
      omega

end History

/-! ## The gap filler -/

namespace History

theorem succeeds_congr (source : ChainSource) (s1 s2 : BlockStore) (n : Int)
    (h : s1.rejects = s2.rejects) : succeeds source s1 n = succeeds source s2 n := by
  unfold succeeds
  rw [h]

/-- One number of a pass: either nothing changes (the fetch or the write
failed), or the fetched block is written and counted. -/
theorem fillBlock_cases (source : ChainSource) (acc : Nat × BlockStore) (n : Int) :
    (fillBlock source acc n = acc ∧ succeeds source acc.2 n = false) ∨
    (∃ b r, source.blockByNumber n = some b ∧ acc.2.rejects b = false ∧
      acc.2.CreateOrUpdate b = Except.ok r ∧ fillBlock source acc n = (acc.1 + 1, r.2) ∧
      succeeds source acc.2 n = true) := by
  cases hf : source.blockByNumber n with
  | none =>
    left
    simp [fillBlock, succeeds, hf]
  | some b =>
    cases hr : acc.2.rejects b with
    | true =>
      left
      simp [fillBlock, succeeds, hf, hr, createOrUpdate_rejected acc.2 b hr]
    | false =>
      right
      obtain ⟨r, hok, _⟩ := createOrUpdate_accepted acc.2 b hr
      refine ⟨b, r, rfl, hr, hok, ?_, ?_⟩
      · simp [fillBlock, hf, hok]
      · simp [succeeds, hf, hr]

theorem fillBlock_rejects (source : ChainSource) (acc : Nat × BlockStore) (n : Int) :
    (fillBlock source acc n).2.rejects = acc.2.rejects := by
  rcases fillBlock_cases source acc n with ⟨h, _⟩ | ⟨b, r, _, hrej, hok, h, _⟩
  · rw [h]
  · rw [h]
    obtain ⟨r1, hok1, hrej1, _⟩ := createOrUpdate_accepted acc.2 b hrej
    rw [hok] at hok1
    cases hok1
    exact hrej1

theorem fillBlock_count (source : ChainSource) (acc : Nat × BlockStore) (n : Int) :
    (fillBlock source acc n).1 = acc.1 + if succeeds source acc.2 n = true then 1 else 0 := by
  rcases fillBlock_cases source acc n with ⟨h, hs⟩ | ⟨b, r, _, _, _, h, hs⟩
  · rw [h, hs]
    simp
  · rw [h, hs]
    simp

theorem fillBlock_get (source : ChainSource) (hcons : source.Consistent)
    (acc : Nat × BlockStore) (n m : Int) :
    (fillBlock source acc n).2.Get m
      = if n = m ∧ succeeds source acc.2 n = true then source.blockByNumber n
        else acc.2.Get m := by
  rcases fillBlock_cases source acc n with ⟨h, hs⟩ | ⟨b, r, hf, hrej, hok, h, hs⟩
  · rw [h, hs]
    simp
  · rw [h, hs]
    obtain ⟨r1, hok1, _, hsame, hother, _⟩ := createOrUpdate_accepted acc.2 b hrej
    rw [hok] at hok1
    cases hok1
    have hnum : b.number = n := hcons n b hf
    by_cases hnm : n = m
    · subst hnm
      simp only [true_and, if_true, hf]
      rw [← hnum]
      exact hsame
    · simp only [hnm, false_and, if_false]
      exact hother m (fun h => hnm (hnum.symm.trans h.symm))

/-- A pass over a list of numbers keeps what the store turns down and counts
the numbers whose fetch and write succeed. -/
theorem foldl_fillBlock_count (source : ChainSource) (l : List Int) :
    ∀ acc : Nat × BlockStore,
      (l.foldl (fillBlock source) acc).2.rejects = acc.2.rejects ∧
      (l.foldl (fillBlock source) acc).1 = acc.1 + l.countP (succeeds source acc.2) := by
  induction l with
  | nil => intro acc; exact ⟨rfl, rfl⟩
  | cons n l ih =>
    intro acc
    obtain ⟨h1, h2⟩ := ih (fillBlock source acc n)
    have hrej := fillBlock_rejects source acc n
    have hsucc : succeeds source (fillBlock source acc n).2 = succeeds source acc.2 := by
      funext k
      exact succeeds_congr source _ _ k hrej
    simp only [List.foldl_cons, List.countP_cons]
    refine ⟨h1.trans hrej, ?_⟩
    rw [h2, fillBlock_count, hsucc]
    omega

/-- A pass over a list of numbers leaves the record of a number alone when the
number is not in the list or its fetch or write fails. -/
theorem foldl_fillBlock_get_unchanged (source : ChainSource) (hcons : source.Consistent)
    (m : Int) (l : List Int) :
    ∀ acc : Nat × BlockStore, (m ∉ l ∨ succeeds source acc.2 m = false) →
      (l.foldl (fillBlock source) acc).2.Get m = acc.2.Get m := by
  induction l with
  | nil => intro acc _; rfl
  | cons n l ih =>
    intro acc h
    have hrej := fillBlock_rejects source acc n
    have h1 : m ∉ l ∨ succeeds source (fillBlock source acc n).2 m = false := by
      rcases h with h | h
      · exact Or.inl (fun hm => h (List.mem_cons_of_mem _ hm))
      · exact Or.inr ((succeeds_congr source _ _ m hrej).trans h)
    rw [List.foldl_cons, ih _ h1, fillBlock_get source hcons]
    have h2 : ¬ (n = m ∧ succeeds source acc.2 n = true) := by
      rintro ⟨rfl, hs⟩
      rcases h with h | h
      · exact h (List.mem_cons_self _ _)
      · rw [h] at hs
        exact absurd hs (by simp)
    simp only [h2, if_false]

/-- A pass over a list of numbers stores the fetched block for every number of
the list whose fetch and write succeed. -/
theorem foldl_fillBlock_get_filled (source : ChainSource) (hcons : source.Consistent)
    (m : Int) (b : Block) (hfetch : source.blockByNumber m = some b) (l : List Int) :
    ∀ acc : Nat × BlockStore, acc.2.rejects b = false →
      (m ∈ l ∨ acc.2.Get m = some b) →
      (l.foldl (fillBlock source) acc).2.Get m = some b := by
  induction l with
  | nil =>
    intro acc _ h
    rcases h with h | h
    · exact absurd h (List.not_mem_nil _)
    · exact h
  | cons n l ih =>
    intro acc hrej h
    have hrej1 : (fillBlock source acc n).2.rejects b = false := by
      rw [fillBlock_rejects]
      exact hrej
    have hsm : succeeds source acc.2 m = true := by
      simp [succeeds, hfetch, hrej]
    rw [List.foldl_cons]
    apply ih _ hrej1
    rw [fillBlock_get source hcons]
    by_cases hnm : n = m
    · subst hnm
      right
      simp only [true_and, hsm, if_true, hfetch]
    · simp only [hnm, false_and, if_false]
      rcases h with h | h
      · rcases List.mem_cons.1 h with h | h
        · exact absurd h.symm hnm
        · exact Or.inl h
      · exact Or.inr h

theorem mem_missingBlockNumbers (store : BlockStore) (start head n : Int) :
    n ∈ missingBlockNumbers store start head ↔
      (start ≤ n ∧ n ≤ head) ∧ store.Exists n = false := by
  unfold missingBlockNumbers
  simp [mem_blockRange]

/-- The length of the MissingBlockSet is the number of block numbers of
`[start, head]` without a record. -/
theorem length_missingBlockNumbers (store : BlockStore) (start head : Int) :
    (missingBlockNumbers store start head).length
      = ((Finset.Icc start head).filter (fun n => store.Exists n = false)).card := by
  unfold missingBlockNumbers
  rw [← List.toFinset_card_of_nodup ((nodup_blockRange start head).filter _)]
  congr 1
  ext n
  simp [mem_blockRange]

theorem plainSource_consistent (head : Int) : (plainSource head).Consistent := by
  intro n b h
  simp only [plainSource, Option.some.injEq] at h
  rw [← h]
  rfl

theorem gappySource_consistent (head k : Int) : (gappySource head k).Consistent := by
  intro n b h
  simp only [gappySource] at h
  split_ifs at h
  simp only [Option.some.injEq] at h
  rw [← h]
  rfl

/-- After a pass without a failed fetch or write every number of
`[start, head]` has a record. -/
theorem populate_complete (source : ChainSource) (store : BlockStore) (start : Int)
    (hcons : source.Consistent)
    (hok : ∀ n ∈ missingBlockNumbers store start source.lastBlockNumber,
      succeeds source store n = true)
    (n : Int) (h1 : start ≤ n) (h2 : n ≤ source.lastBlockNumber) :
    (PopulateMissingBlocks source store start).2.Exists n = true := by
  unfold PopulateMissingBlocks
  simp only
  rw [exists_eq_isSome_get]
  by_cases hn : n ∈ missingBlockNumbers store start source.lastBlockNumber
  · have hs := hok n hn
    unfold succeeds at hs
    cases hf : source.blockByNumber n with
    | none => simp [hf] at hs
    | some b =>
      have hrej : store.rejects b = false := by simpa [hf] using hs
      rw [foldl_fillBlock_get_filled source hcons n b hf _ (0, store) hrej (Or.inl hn)]
      rfl
  · rw [foldl_fillBlock_get_unchanged source hcons n _ (0, store) (Or.inl hn)]
    rw [← exists_eq_isSome_get]
    by_contra hex
    exact hn ((mem_missingBlockNumbers store start _ n).2 ⟨⟨h1, h2⟩, by simpa using hex⟩)

/-- C6: when no fetch and no write of the pass fails (the source answering a
fetch for `n` with block `n`), `PopulateMissingBlocks(source, store, start)`
returns the number of block numbers of `[start, head]`, head included, that had
no record before the pass, and after the pass every number of `[start, head]`
has a record. -/
theorem populate_fills_range (source : ChainSource) (store : BlockStore) (start : Int)
    (hcons : source.Consistent)
    (hok : ∀ n ∈ missingBlockNumbers store start source.lastBlockNumber,
      succeeds source store n = true) :
    (PopulateMissingBlocks source store start).1
      = ((Finset.Icc start source.lastBlockNumber).filter
          (fun n => store.Exists n = false)).card ∧
    ∀ n, start ≤ n → n ≤ source.lastBlockNumber →
      (PopulateMissingBlocks source store start).2.Exists n = true := by
  refine ⟨?_, populate_complete source store start hcons hok⟩
  rw [← length_missingBlockNumbers]
  unfold PopulateMissingBlocks
  simp only
  rw [(foldl_fillBlock_count source _ (0, store)).2]
  simp only [Nat.zero_add]
  rw [List.countP_eq_length]
  intro n hn
  exact hok n hn

/-- C6 on the scenario of the specification: start 0, head 5, empty store:
the count is 6 and the numbers 0 to 5 have records. -/
theorem populate_fills_range_witness :
    (PopulateMissingBlocks (plainSource 5) emptyStore 0).1 = 6 ∧
    (PopulateMissingBlocks (plainSource 5) emptyStore 0).2.records.map (fun r => r.block.number)
      = [0, 1, 2, 3, 4, 5] ∧
    (PopulateMissingBlocks (plainSource 5) emptyStore 0).1
      = ((Finset.Icc 0 (plainSource 5).lastBlockNumber).filter
          (fun n => emptyStore.Exists n = false)).card ∧
    ∀ n, 0 ≤ n → n ≤ (plainSource 5).lastBlockNumber →
      (PopulateMissingBlocks (plainSource 5) emptyStore 0).2.Exists n = true :=
  ⟨by decide, by decide,
    populate_fills_range (plainSource 5) emptyStore 0 (plainSource_consistent 5)
      (fun _ _ => rfl)⟩

/-- C7: when the head is the same for both calls and no fetch and no write
fails, a call of `PopulateMissingBlocks` right after a first one returns 0 and
leaves the store as the first call left it. -/
theorem populate_twice_is_noop (source : ChainSource) (store : BlockStore) (start : Int)
    (hcons : source.Consistent)
    (hok : ∀ n ∈ missingBlockNumbers store start source.lastBlockNumber,
      succeeds source store n = true) :
    PopulateMissingBlocks source (PopulateMissingBlocks source store start).2 start
      = (0, (PopulateMissingBlocks source store start).2) := by
  have hall := populate_complete source store start hcons hok
  have hnil : missingBlockNumbers (PopulateMissingBlocks source store start).2 start
      source.lastBlockNumber = [] := by
    rw [List.eq_nil_iff_forall_not_mem]
    intro n hn
    obtain ⟨⟨h1, h2⟩, h3⟩ := (mem_missingBlockNumbers _ start _ n).1 hn
    rw [hall n h1 h2] at h3
    exact absurd h3 (by simp)
  show (missingBlockNumbers (PopulateMissingBlocks source store start).2 start
    source.lastBlockNumber).foldl (fillBlock source) (0, _) = _
  rw [hnil]
  rfl

/-- C7 on a concrete input: start 0, head 5, empty store: the second pass
returns 0 and the store keeps its six rows. -/
theorem populate_twice_is_noop_witness :
    (PopulateMissingBlocks (plainSource 5) emptyStore 0).1 = 6 ∧
    PopulateMissingBlocks (plainSource 5) (PopulateMissingBlocks (plainSource 5) emptyStore 0).2 0
      = (0, (PopulateMissingBlocks (plainSource 5) emptyStore 0).2) :=
  ⟨by decide,
    populate_twice_is_noop (plainSource 5) emptyStore 0 (plainSource_consistent 5)
      (fun _ _ => rfl)⟩

/-- C8: a pass in which the fetch of a missing number `k` fails goes on: every
missing number of `[start, head]` whose fetch and write succeed (so `k - 1`
and `k + 1` when they are such numbers) has the fetched block stored after the
pass and is counted, and `k` is left without a record. -/
theorem populate_isolates_failed_fetch (source : ChainSource) (store : BlockStore)
    (start k : Int) (hcons : source.Consistent)
    (hk : k ∈ missingBlockNumbers store start source.lastBlockNumber)
    (hfail : source.blockByNumber k = none) :
    (PopulateMissingBlocks source store start).2.Exists k = false ∧
    (PopulateMissingBlocks source store start).2.Get k = none ∧
    (∀ j b, j ∈ missingBlockNumbers store start source.lastBlockNumber →
      source.blockByNumber j = some b → store.rejects b = false →
      j ≠ k ∧ (PopulateMissingBlocks source store start).2.Get j = some b) ∧
    (PopulateMissingBlocks source store start).1
      = (missingBlockNumbers store start source.lastBlockNumber).countP
          (succeeds source store) := by
  have hsk : succeeds source store k = false := by simp [succeeds, hfail]
  have hget : (PopulateMissingBlocks source store start).2.Get k = none := by
    unfold PopulateMissingBlocks
    simp only
    rw [foldl_fillBlock_get_unchanged source hcons k _ (0, store) (Or.inr hsk)]
    have hex := ((mem_missingBlockNumbers store start _ k).1 hk).2
    rw [exists_eq_isSome_get] at hex
    simpa using hex
  refine ⟨?_, hget, ?_, ?_⟩
  · rw [exists_eq_isSome_get, hget]
    rfl
  · intro j b hj hf hrej
    refine ⟨?_, ?_⟩
    · rintro rfl
      rw [hfail] at hf
      exact absurd hf (by simp)
    · exact foldl_fillBlock_get_filled source hcons j b hf _ (0, store) hrej (Or.inl hj)
  · unfold PopulateMissingBlocks
    simp only
    rw [(foldl_fillBlock_count source _ (0, store)).2]
    simp

/-- C8 on a concrete input: start 0, head 5, empty store, the fetch of 3
fails: 2 and 4 are stored, 3 is not, and five blocks are counted. -/
theorem populate_isolates_failed_fetch_witness :
    (PopulateMissingBlocks (gappySource 5 3) emptyStore 0).2.Exists 3 = false ∧
    (PopulateMissingBlocks (gappySource 5 3) emptyStore 0).2.Get 2 = some (mkBlock 2 "h") ∧
    (PopulateMissingBlocks (gappySource 5 3) emptyStore 0).2.Get 4 = some (mkBlock 4 "h") ∧
    (PopulateMissingBlocks (gappySource 5 3) emptyStore 0).1 = 5 :=
  ⟨(populate_isolates_failed_fetch (gappySource 5 3) emptyStore 0 3
      (gappySource_consistent 5 3) (by decide) rfl).1,
    ((populate_isolates_failed_fetch (gappySource 5 3) emptyStore 0 3
      (gappySource_consistent 5 3) (by decide) rfl).2.2.1 2 (mkBlock 2 "h")
      (by decide) rfl rfl).2,
    ((populate_isolates_failed_fetch (gappySource 5 3) emptyStore 0 3
      (gappySource_consistent 5 3) (by decide) rfl).2.2.1 4 (mkBlock 4 "h")
      (by decide) rfl rfl).2,
    by decide⟩

end History

/-! ## The window validator -/

namespace History

/-- One number of a validation: one entry is added to the window, and the
store is left alone or the fetched block is written to it. -/
theorem validateBlock_cases (source : ChainSource) (acc : ValidationWindow × BlockStore)
    (n : Int) :
    ∃ o, (validateBlock source acc n).1 = acc.1 ++ [(n, o)] ∧
      ((validateBlock source acc n).2 = acc.2 ∨
        ∃ b r, source.blockByNumber n = some b ∧ acc.2.rejects b = false ∧
          acc.2.CreateOrUpdate b = Except.ok r ∧ (validateBlock source acc n).2 = r.2 ∧
          o = Outcome.Invalid) := by
  have hover : ∀ b, source.blockByNumber n = some b →
      ∃ o, (overwriteBlock acc n b).1 = acc.1 ++ [(n, o)] ∧
        ((overwriteBlock acc n b).2 = acc.2 ∨
          ∃ b r, source.blockByNumber n = some b ∧ acc.2.rejects b = false ∧
            acc.2.CreateOrUpdate b = Except.ok r ∧ (overwriteBlock acc n b).2 = r.2 ∧
            o = Outcome.Invalid) := by
    intro b hf
    cases hr : acc.2.rejects b with
    | true =>
      refine ⟨Outcome.FetchError, ?_, Or.inl ?_⟩
      · simp [overwriteBlock, createOrUpdate_rejected acc.2 b hr]
      · simp [overwriteBlock, createOrUpdate_rejected acc.2 b hr]
    | false =>
      obtain ⟨r, hok, _⟩ := createOrUpdate_accepted acc.2 b hr
      refine ⟨Outcome.Invalid, ?_, Or.inr ⟨b, r, hf, hr, hok, ?_, rfl⟩⟩
      · simp [overwriteBlock, hok]
      · simp [overwriteBlock, hok]
  cases hf : source.blockByNumber n with
  | none =>
    refine ⟨Outcome.FetchError, ?_, Or.inl ?_⟩
    · simp [validateBlock, hf]
    · simp [validateBlock, hf]
  | some b =>
    cases hg : acc.2.Get n with
    | none =>
      have h : validateBlock source acc n = overwriteBlock acc n b := by
        simp [validateBlock, hf, hg]
      rw [h]
      simpa [hf] using hover b hf
    | some stored =>
      by_cases hh : stored.hash = b.hash
      · refine ⟨Outcome.Validated, ?_, Or.inl ?_⟩
        · simp [validateBlock, hf, hg, hh]
        · simp [validateBlock, hf, hg, hh]
      · have h : validateBlock source acc n = overwriteBlock acc n b := by
          simp [validateBlock, hf, hg, hh]
        rw [h]
        simpa [hf] using hover b hf

theorem validateBlock_rejects (source : ChainSource) (acc : ValidationWindow × BlockStore)
    (n : Int) : (validateBlock source acc n).2.rejects = acc.2.rejects := by
  obtain ⟨o, _, h | ⟨b, r, _, hrej, hok, h, _⟩⟩ := validateBlock_cases source acc n
  · rw [h]
  · rw [h]
    obtain ⟨r1, hok1, hrej1, _⟩ := createOrUpdate_accepted acc.2 b hrej
    rw [hok] at hok1
    cases hok1
    exact hrej1

/-- Re-checking a number leaves the record and the rows of every other number
as they were. -/
theorem validateBlock_other (source : ChainSource) (hcons : source.Consistent)
    (acc : ValidationWindow × BlockStore) (n k : Int) (hnk : n ≠ k) :
    (validateBlock source acc n).2.Get k = acc.2.Get k ∧
    (validateBlock source acc n).2.rowsFor k = acc.2.rowsFor k := by
  obtain ⟨o, _, h | ⟨b, r, hf, hrej, hok, h, _⟩⟩ := validateBlock_cases source acc n
  · rw [h]
    exact ⟨rfl, rfl⟩
  · rw [h]
    obtain ⟨r1, hok1, _, _, hget, hrows, _⟩ := createOrUpdate_accepted acc.2 b hrej
    rw [hok] at hok1
    cases hok1
    have hnum : k ≠ b.number := by
      rw [hcons n b hf]
      exact fun h => hnk h.symm
    exact ⟨hget k hnum, hrows k hnum⟩

/-- Re-checking a number whose record is the block the source returns changes
nothing in the store. -/
theorem validateBlock_same (source : ChainSource) (acc : ValidationWindow × BlockStore)
    (k : Int) (b : Block) (hfetch : source.blockByNumber k = some b)
    (hget : acc.2.Get k = some b) : (validateBlock source acc k).2 = acc.2 := by
  simp [validateBlock, hfetch, hget]

/-- Re-checking a number whose record has another hash than the block the
source returns stores that block, in the row that was there, and reports the
number as Invalid. -/
theorem validateBlock_heals (source : ChainSource) (hcons : source.Consistent)
    (acc : ValidationWindow × BlockStore) (k : Int) (stored b : Block)
    (hfetch : source.blockByNumber k = some b) (hget : acc.2.Get k = some stored)
    (hhash : b.hash ≠ stored.hash) (hrej : acc.2.rejects b = false) :
    (validateBlock source acc k).2.Get k = some b ∧
    (validateBlock source acc k).2.rowsFor k = acc.2.rowsFor k ∧
    (validateBlock source acc k).1 = acc.1 ++ [(k, Outcome.Invalid)] := by
  obtain ⟨r, hok, _, hsame, _, _, hrows⟩ := createOrUpdate_accepted acc.2 b hrej
  have hnum : b.number = k := hcons k b hfetch
  have hne : ¬ stored.hash = b.hash := fun h => hhash h.symm
  have h : validateBlock source acc k = (acc.1 ++ [(k, Outcome.Invalid)], r.2) := by
    simp [validateBlock, hfetch, hget, hne, overwriteBlock, hok]
  rw [h]
  rw [hnum] at hsame hrows
  have hpos : 1 ≤ acc.2.rowsFor k := by
    by_contra hlt
    have h0 : acc.2.rowsFor k = 0 := by omega
    rw [(get_eq_none_iff_rowsFor acc.2 k).2 h0] at hget
    exact absurd hget (by simp)
  refine ⟨hsame, ?_, rfl⟩
  simp only [hrows]
  omega

/-- A validation adds one entry per number, in the order of the numbers. -/
theorem foldl_validateBlock_probed (source : ChainSource) (l : List Int) :
    ∀ acc : ValidationWindow × BlockStore,
      probed (l.foldl (validateBlock source) acc).1 = probed acc.1 ++ l := by
  induction l with
  | nil => intro acc; simp
  | cons n l ih =>
    intro acc
    obtain ⟨o, h, _⟩ := validateBlock_cases source acc n
    rw [List.foldl_cons, ih, h]
    simp [probed]

/-- A validation keeps the entries the window already has. -/
theorem foldl_validateBlock_mem (source : ChainSource) (e : Int × Outcome) (l : List Int) :
    ∀ acc : ValidationWindow × BlockStore, e ∈ acc.1 →
      e ∈ (l.foldl (validateBlock source) acc).1 := by
  induction l with
  | nil => intro acc h; exact h
  | cons n l ih =>
    intro acc h
    obtain ⟨o, h1, _⟩ := validateBlock_cases source acc n
    rw [List.foldl_cons]
    apply ih
    rw [h1]
    exact List.mem_append_left _ h

/-- A validation keeps a record that is the block the source returns, and the
number of its rows. -/
theorem foldl_validateBlock_keeps (source : ChainSource) (hcons : source.Consistent)
    (k : Int) (b : Block) (hfetch : source.blockByNumber k = some b) (l : List Int) :
    ∀ acc : ValidationWindow × BlockStore, acc.2.Get k = some b →
      (l.foldl (validateBlock source) acc).2.Get k = some b ∧
      (l.foldl (validateBlock source) acc).2.rowsFor k = acc.2.rowsFor k := by
  induction l with
  | nil => intro acc h; exact ⟨h, rfl⟩
  | cons n l ih =>
    intro acc h
    rw [List.foldl_cons]
    by_cases hnk : n = k
    · subst hnk
      have hsame := validateBlock_same source acc n b hfetch h
      obtain ⟨h3, h4⟩ := ih (validateBlock source acc n) (by rw [hsame]; exact h)
      exact ⟨h3, by rw [h4, hsame]⟩
    · obtain ⟨h1, h2⟩ := validateBlock_other source hcons acc n k hnk
      obtain ⟨h3, h4⟩ := ih (validateBlock source acc n) (h1.trans h)
      exact ⟨h3, h4.trans h2⟩

/-- A validation whose numbers include `k` replaces a record of `k` that has
another hash than the block the source returns by that block. -/
theorem foldl_validateBlock_heals (source : ChainSource) (hcons : source.Consistent)
    (k : Int) (stored b : Block) (hfetch : source.blockByNumber k = some b)
    (hhash : b.hash ≠ stored.hash) (l : List Int) :
    ∀ acc : ValidationWindow × BlockStore, k ∈ l → acc.2.Get k = some stored →
      acc.2.rejects b = false →
      (l.foldl (validateBlock source) acc).2.Get k = some b ∧
      (l.foldl (validateBlock source) acc).2.rowsFor k = acc.2.rowsFor k ∧
      (k, Outcome.Invalid) ∈ (l.foldl (validateBlock source) acc).1 := by
  induction l with
  | nil => intro acc hk; exact absurd hk (List.not_mem_nil _)
  | cons n l ih =>
    intro acc hk hget hrej
    rw [List.foldl_cons]
    by_cases hnk : n = k
    · subst hnk
      obtain ⟨h1, h2, h3⟩ := validateBlock_heals source hcons acc n stored b hfetch hget hhash hrej
      obtain ⟨h4, h5⟩ := foldl_validateBlock_keeps source hcons n b hfetch l _ h1
      refine ⟨h4, h5.trans h2, foldl_validateBlock_mem source _ l _ ?_⟩
      rw [h3]
      simp
    · obtain ⟨h1, h2⟩ := validateBlock_other source hcons acc n k hnk
      have hk1 : k ∈ l := by
        rcases List.mem_cons.1 hk with h | h
        · exact absurd h.symm hnk
        · exact h
      have hrej1 : (validateBlock source acc n).2.rejects b = false := by
        rw [validateBlock_rejects]
        exact hrej
      obtain ⟨h3, h4, h5⟩ := ih (validateBlock source acc n) hk1 (h1.trans hget) hrej1
      exact ⟨h3, h4.trans h2, h5⟩

/-- C9: for a block number `k` of the validation window whose record has hash
H1 while the source returns for `k` a block with another hash H2, one call of
`ValidateBlocks` (the fetch and the write of `k` succeeding, the source
answering a fetch for `n` with block `n`) leaves the block of the source, hash
H2, as the record of `k`, and `k` has one row as before. -/
theorem validate_heals_stale_block (validator : BlockValidator) (source : ChainSource)
    (store : BlockStore) (k : Int) (stored b : Block)
    (hcons : source.Consistent)
    (hk : k ∈ windowNumbers validator source.lastBlockNumber)
    (hstored : store.Get k = some stored) (hone : store.rowsFor k = 1)
    (hfetch : source.blockByNumber k = some b) (hhash : b.hash ≠ stored.hash)
    (hwrite : store.rejects b = false) :
    (ValidateBlocks validator source store).2.Get k = some b ∧
    ((ValidateBlocks validator source store).2.Get k).map (fun r => r.hash) = some b.hash ∧
    (ValidateBlocks validator source store).2.rowsFor k = 1 ∧
    (k, Outcome.Invalid) ∈ (ValidateBlocks validator source store).1 := by
  obtain ⟨h1, h2, h3⟩ := foldl_validateBlock_heals source hcons k stored b hfetch hhash
    (windowNumbers validator source.lastBlockNumber) ([], store) hk hstored hwrite
  refine ⟨h1, ?_, h2.trans hone, h3⟩
  show Option.map _ ((List.foldl (validateBlock source) ([], store)
    (windowNumbers validator source.lastBlockNumber)).2.Get k) = _
  rw [h1]
  rfl

/-- C9 on a concrete input: head 100, window 15, the store holds block 90
with hash "old" and the source returns hash "h" for 90: afterwards the record
of 90 has hash "h" and 90 has one row. -/
theorem validate_heals_stale_block_witness :
    (ValidateBlocks (NewBlockValidator 0 15) (plainSource 100) staleStore).2.Get 90
      = some (mkBlock 90 "h") ∧
    (ValidateBlocks (NewBlockValidator 0 15) (plainSource 100) staleStore).2.rowsFor 90 = 1 :=
  ⟨(validate_heals_stale_block (NewBlockValidator 0 15) (plainSource 100) staleStore 90
      (mkBlock 90 "old") (mkBlock 90 "h") (plainSource_consistent 100) (by decide) rfl rfl rfl
      (by decide) rfl).1,
    (validate_heals_stale_block (NewBlockValidator 0 15) (plainSource 100) staleStore 90
      (mkBlock 90 "old") (mkBlock 90 "h") (plainSource_consistent 100) (by decide) rfl rfl rfl
      (by decide) rfl).2.2.1⟩

/-- The numbers `ValidateBlocks` probes are the numbers of the window of its
validator, in ascending order. -/
theorem validate_probes (validator : BlockValidator) (source : ChainSource)
    (store : BlockStore) :
    probed (ValidateBlocks validator source store).1
      = windowNumbers validator source.lastBlockNumber := by
  unfold ValidateBlocks
  simp only
  rw [foldl_validateBlock_probed]
  simp [probed]

/-- C10: for every head, every configured starting block number `start` and
the window size `W` the validator is constructed with, `ValidateBlocks` probes
the block numbers from `max(start, head - W + 1)` to the head, both included,
in ascending order, and no number below `max(start, head - W + 1)`; so does the
validator that `sync` builds in a process configured with `start`, with the
window size 15. -/
theorem validate_probes_window (start W : Int) (source : ChainSource) (store : BlockStore) :
    probed (ValidateBlocks (NewBlockValidator start W) source store).1
      = blockRange (max start (source.lastBlockNumber - W + 1)) source.lastBlockNumber ∧
    (∀ n, n ∈ probed (ValidateBlocks (NewBlockValidator start W) source store).1 ↔
      max start (source.lastBlockNumber - W + 1) ≤ n ∧ n ≤ source.lastBlockNumber) ∧
    (∀ n ∈ probed (ValidateBlocks (NewBlockValidator start W) source store).1,
      ¬ n < max start (source.lastBlockNumber - W + 1)) ∧
    (∀ st, Cmd.syncStart (deps start) start { source := source, store := store }
        = Cmd.Startup.looping st →
      probed ((deps start).ValidateBlocks st.validator st.world).1
        = blockRange (max start (source.lastBlockNumber - Cmd.validationWindow + 1))
            source.lastBlockNumber) := by
  have h := validate_probes (NewBlockValidator start W) source store
  have hw : windowNumbers (NewBlockValidator start W) source.lastBlockNumber
      = blockRange (max start (source.lastBlockNumber - W + 1)) source.lastBlockNumber := rfl
  refine ⟨h.trans hw, ?_, ?_, ?_⟩
  · intro n
    rw [h, hw]
    exact mem_blockRange _ _ n
  · intro n hn
    rw [h, hw] at hn
    have := (mem_blockRange _ _ n).1 hn
    omega
  · intro st hst
    unfold Cmd.syncStart at hst
    simp only at hst
    split_ifs at hst with h0 h1
    cases hst
    exact validate_probes (NewBlockValidator start Cmd.validationWindow) source store

/-- C10 on the scenario of the specification: W = 15, head = 100, start = 0:
the numbers 86 to 100 are probed, 15 numbers; and with start = 95 the numbers
95 to 100. -/
theorem validate_probes_window_witness :
    probed (ValidateBlocks (NewBlockValidator 0 15) (plainSource 100) emptyStore).1
      = [86, 87, 88, 89, 90, 91, 92, 93, 94, 95, 96, 97, 98, 99, 100] ∧
    (probed (ValidateBlocks (NewBlockValidator 0 15) (plainSource 100) emptyStore).1).length
      = 15 ∧
    probed (ValidateBlocks (NewBlockValidator 95 15) (plainSource 100) emptyStore).1
      = [95, 96, 97, 98, 99, 100] ∧
    probed (ValidateBlocks (NewBlockValidator 0 15) (plainSource 100) emptyStore).1
      = blockRange (max 0 ((plainSource 100).lastBlockNumber - 15 + 1))
          (plainSource 100).lastBlockNumber ∧
    (∃ st, Cmd.syncStart (deps 0) 0 { source := plainSource 100, store := emptyStore }
        = Cmd.Startup.looping st ∧
      probed ((deps 0).ValidateBlocks st.validator st.world).1
        = blockRange (max 0 ((plainSource 100).lastBlockNumber - Cmd.validationWindow + 1))
            (plainSource 100).lastBlockNumber) :=
  ⟨by decide, by decide, by decide,
    (validate_probes_window 0 15 (plainSource 100) emptyStore).1,
    ⟨_, rfl, (validate_probes_window 0 15 (plainSource 100) emptyStore).2.2.2 _ rfl⟩⟩

end History

/-! ## The loop never ends, and the configuration of the command -/

namespace Cmd

/-- In a state of the loop every sequence of wakes is handled, and the state
after it is a state of the loop with the goroutine inside its pass; one
validation has been made for each tick and one count received for each
completion signal. -/
theorem syncRun_wakeEvents {World Validator Window : Type} (d : Deps World Validator Window)
    (start : Int) (ws : List Wake) :
    ∀ s : SyncState World Validator Window, LoopInv d start s →
      s.tasks = [Task.running start] →
      ∃ s1, syncRun d s (wakeEvents ws) = some s1 ∧ LoopInv d start s1 ∧
        s1.tasks = [Task.running start] ∧
        validations s1.trace = validations s.trace + ws.count Wake.tick ∧
        receptions s1.trace = receptions s.trace + ws.count Wake.completion := by
  induction ws with
  | nil => intro s hinv ht; exact ⟨s, rfl, hinv, ht, rfl, rfl⟩
  | cons wk ws ih =>
    intro s hinv ht
    cases wk with
    | tick =>
      have hstep : syncStep d s Event.tick = some
          { s with
            world := (d.ValidateBlocks s.validator s.world).2
            trace := s.trace ++ [Effect.validateBlocks (d.ValidateBlocks s.validator s.world).1,
              Effect.logWindow (d.ValidateBlocks s.validator s.world).1]
            output := s.output ++ [(d.ValidateBlocks s.validator s.world).1] } := rfl
      obtain ⟨s1, h1, h2, h3, h4, h5⟩ :=
        ih _ (syncStep_inv d start s _ Event.tick hinv hstep) ht
      refine ⟨s1, by simp only [wakeEvents, syncRun, hstep, h1], h2, h3, ?_, ?_⟩
      · rw [h4]
        simp only [validations_append, List.count_cons_self]
        simp [validations]
        omega
      · rw [h5]
        simp only [receptions_append]
        simp [receptions]
    | completion =>
      have hstep1 : syncStep d s (Event.passReturns 0) = some
          { s with
            world := (d.PopulateMissingBlocks s.world start).2
            tasks := [Task.sending (d.PopulateMissingBlocks s.world start).1] } := by
        simp [syncStep, ht, backFillAllBlocks]
      have hinv1 := syncStep_inv d start s _ (Event.passReturns 0) hinv hstep1
      have hstep2 : syncStep d
          { s with
            world := (d.PopulateMissingBlocks s.world start).2
            tasks := [Task.sending (d.PopulateMissingBlocks s.world start).1] }
          (Event.completion 0) = some
          { s with
            world := (d.PopulateMissingBlocks s.world start).2
            tasks := [Task.running start]
            trace := s.trace ++ [Effect.received (d.PopulateMissingBlocks s.world start).1,
              Effect.goBackFill start] } := by
        simp [syncStep, hinv.1]
      have hinv2 := syncStep_inv d start _ _ (Event.completion 0) hinv1 hstep2
      obtain ⟨s1, h1, h2, h3, h4, h5⟩ := ih _ hinv2 rfl
      refine ⟨s1, by simp only [wakeEvents, syncRun, hstep1, hstep2, h1], h2, h3, ?_, ?_⟩
      · rw [h4]
        simp only [validations_append]
        simp [validations]
      · rw [h5]
        simp only [receptions_append, List.count_cons_self]
        simp [receptions]
        omega

/-- C11: after a successful startup the loop of `sync` has no last state: it
handles every finite sequence of ticks and completion signals, whatever the
windows and counts (the functions behind them are arbitrary), with one
validation per tick and one received count per signal; and in every state it
reaches, the tick can be handled, the goroutine can finish its pass or hand
over its count, and every step leads to a state in which one goroutine is alive
again. -/
theorem sync_loop_never_ends {World Validator Window : Type}
    (d : Deps World Validator Window) (start : Int) (w : World)
    (st : SyncState World Validator Window)
    (hstart : syncStart d start w = Startup.looping st) :
    (∀ ws : List Wake, ∃ st1, syncRun d st (wakeEvents ws) = some st1 ∧
      st1.tasks = [Task.running start] ∧
      validations st1.trace = ws.count Wake.tick ∧
      receptions st1.trace = ws.count Wake.completion) ∧
    (∀ evs st1, syncRun d st evs = some st1 →
      (∃ st2, syncStep d st1 Event.tick = some st2) ∧
      ((∃ st2, syncStep d st1 (Event.passReturns 0) = some st2) ∨
        (∃ st2, syncStep d st1 (Event.completion 0) = some st2)) ∧
      (∀ e st2, syncStep d st1 e = some st2 → st2.tasks.length = 1)) := by
  have hinv0 := syncStart_inv d start w st hstart
  have hentry : st.tasks = [Task.running start] ∧ validations st.trace = 0 ∧
      receptions st.trace = 0 := by
    unfold syncStart at hstart
    simp only at hstart
    split_ifs at hstart with h0 h1
    cases hstart
    simp [validations, receptions]
  constructor
  · intro ws
    obtain ⟨s1, h1, _, h3, h4, h5⟩ := syncRun_wakeEvents d start ws st hinv0 hentry.1
    exact ⟨s1, h1, h3, by omega, by omega⟩
  · intro evs st1 hrun
    have hinv := syncRun_inv d start evs st st1 hinv0 hrun
    refine ⟨⟨_, rfl⟩, ?_, ?_⟩
    · rcases hinv.2.2.1 with ht | ⟨c, ht⟩
      · left
        simp [syncStep, ht]
      · right
        simp [syncStep, ht]
    · intro e st2 hstep
      rcases (syncStep_inv d start st1 st2 e hinv hstep).2.2.1 with h | ⟨c, h⟩ <;> simp [h]

/-- C11 on a concrete node: start 0, head 5: four wakes are handled. -/
theorem sync_loop_never_ends_witness :
    ∃ st, syncStart (History.deps 0) 0 (History.startWorld 5) = Startup.looping st ∧
      ∃ st1, syncRun (History.deps 0) st
          (wakeEvents [Wake.tick, Wake.completion, Wake.completion, Wake.tick]) = some st1 ∧
        st1.tasks = [Task.running 0] ∧
        validations st1.trace
          = [Wake.tick, Wake.completion, Wake.completion, Wake.tick].count Wake.tick ∧
        receptions st1.trace
          = [Wake.tick, Wake.completion, Wake.completion, Wake.tick].count Wake.completion :=
  ⟨_, rfl, (sync_loop_never_ends (History.deps 0) 0 (History.startWorld 5) _ rfl).1
    [Wake.tick, Wake.completion, Wake.completion, Wake.tick]⟩

/-- C12: the ticker of `sync` is made with the polling interval of 7 seconds,
the validator with the window size 15, and the starting block number is 0
when the flag is not given (and the given value otherwise). -/
theorem sync_configuration {World Validator Window : Type}
    (d : Deps World Validator Window) (flag : Option Int) (w : World) :
    pollingInterval = 7 ∧ validationWindow = 15 ∧ startingBlockNumberFlag none = 0 ∧
    (∀ message trace tasks, syncCmd d flag w = Startup.fatal message trace tasks →
      trace = [Effect.newTicker 7]) ∧
    (∀ st, syncCmd d flag w = Startup.looping st →
      st.trace.head? = some (Effect.newTicker 7) ∧
      Effect.newBlockValidator 15 ∈ st.trace ∧
      st.validator = d.NewBlockValidator 15 ∧
      (flag = none → st.startingBlockNumber = 0 ∧ st.tasks = [Task.running 0]) ∧
      (∀ value, flag = some value →
        st.startingBlockNumber = value ∧ st.tasks = [Task.running value])) := by
  refine ⟨rfl, rfl, rfl, ?_, ?_⟩
  · intro message trace tasks h
    unfold syncCmd syncStart at h
    simp only at h
    split_ifs at h with h0 h1
    · cases h
      rfl
    · cases h
      rfl
  · intro st h
    unfold syncCmd syncStart at h
    simp only at h
    split_ifs at h with h0 h1
    cases h
    refine ⟨rfl, by simp [validationWindow], rfl, ?_, ?_⟩
    · intro hf
      subst hf
      exact ⟨rfl, rfl⟩
    · intro value hf
      subst hf
      exact ⟨rfl, rfl⟩

/-- C12 on a concrete node with head 5 and no flag: the loop is entered with
the ticker of 7 seconds, the validator of window 15 and the goroutine started
from 0. -/
theorem sync_configuration_witness :
    ∃ st, syncCmd (History.deps 0) none (History.startWorld 5) = Startup.looping st ∧
      st.trace.head? = some (Effect.newTicker 7) ∧
      st.validator = History.NewBlockValidator 0 15 ∧
      st.startingBlockNumber = 0 ∧ st.tasks = [Task.running 0] :=
  ⟨_, rfl,
    ((sync_configuration (History.deps 0) none (History.startWorld 5)).2.2.2.2 _ rfl).1,
    ((sync_configuration (History.deps 0) none (History.startWorld 5)).2.2.2.2 _ rfl).2.2.1,
    (((sync_configuration (History.deps 0) none (History.startWorld 5)).2.2.2.2 _ rfl).2.2.2.1
      rfl).1,
    (((sync_configuration (History.deps 0) none (History.startWorld 5)).2.2.2.2 _ rfl).2.2.2.1
      rfl).2⟩

end Cmd

/-! ## The transformer that runs on every block -/

namespace EveryBlock

theorem Failed.append_left {config : ContractConfig} {c : List Call} {te : transformerError}
    (pre : List Call) (hpre : ∀ x ∈ pre, x.failed = false) (h : Failed config c te) :
    Failed config (pre ++ c) te := by
  obtain ⟨init, last, rfl, hinit, hlast⟩ := h
  refine ⟨pre ++ init, last, by simp, ?_, hlast⟩
  intro x hx
  rcases List.mem_append.1 hx with hx | hx
  · exact hpre x hx
  · exact hinit x hx

theorem Failed.single {config : ContractConfig} {last : Call} {te : transformerError}
    (h : failureOf config last = some (te.msg, te.blockNumber, te.err)) :
    Failed config [last] te :=
  ⟨[], last, rfl, by simp, h⟩

theorem Failed.pair {config : ContractConfig} {first last : Call} {te : transformerError}
    (hfirst : first.failed = false)
    (h : failureOf config last = some (te.msg, te.blockNumber, te.err)) :
    Failed config [first, last] te :=
  ⟨[first], last, rfl, by simpa using hfirst, h⟩

/-- What a `range` loop makes its collaborators write down, from what its body
makes them write down: when every round goes well the calls of the rounds
follow each other in the order of the list; when a round fails the loop
returns its error, after calls of which only the last failed. -/
theorem rangeLoop_spec {α δ σ : Type} (config : ContractConfig)
    (body : α → σ × List Call → Option transformerError × (σ × List Call))
    (key : δ → α) (rend : δ → List Call) (Q : δ → Prop)
    (hrend : ∀ d, ∀ c ∈ rend d, c.failed = false)
    (hbody : ∀ x r,
      (∃ d, key d = x ∧ Q d ∧ (body x r).1 = none ∧ (body x r).2.2 = r.2 ++ rend d) ∨
      (∃ te c, (body x r).1 = some te ∧ (body x r).2.2 = r.2 ++ c ∧
        Failed config c te)) :
    ∀ xs r,
      (∃ ds : List δ, ds.map key = xs ∧ (∀ d ∈ ds, Q d) ∧ (rangeLoop body xs r).1 = none ∧
        (rangeLoop body xs r).2.2 = r.2 ++ ds.flatMap rend) ∨
      (∃ te c, (rangeLoop body xs r).1 = some te ∧
        (rangeLoop body xs r).2.2 = r.2 ++ c ∧ Failed config c te) := by
  intro xs
  induction xs with
  | nil =>
    intro r
    exact Or.inl ⟨[], rfl, by simp, rfl, by simp [rangeLoop]⟩
  | cons x xs ih =>
    intro r
    rcases hbody x r with ⟨d, hkey, hq, hnone, hcalls⟩ | ⟨te, c, hsome, hcalls, hfail⟩
    · have hstep : rangeLoop body (x :: xs) r = rangeLoop body xs (body x r).2 := by
        rcases hb : body x r with ⟨res, r1⟩
        rw [hb] at hnone
        simp only at hnone
        subst hnone
        simp only [rangeLoop, hb]
      rw [hstep]
      rcases ih (body x r).2 with ⟨ds, hmap, hqs, hn, hc⟩ | ⟨te, c, hs, hc, hf⟩
      · left
        refine ⟨d :: ds, by simp [hkey, hmap], ?_, hn, ?_⟩
        · intro e he
          rcases List.mem_cons.1 he with rfl | he
          · exact hq
          · exact hqs e he
        · rw [hc, hcalls]
          simp
      · right
        refine ⟨te, rend d ++ c, hs, ?_, Failed.append_left _ (hrend d) hf⟩
        rw [hc, hcalls]
        simp
    · right
      have hstep : rangeLoop body (x :: xs) r = (some te, (body x r).2) := by
        rcases hb : body x r with ⟨res, r1⟩
        rw [hb] at hsome
        simp only at hsome
        subst hsome
        simp only [rangeLoop, hb]
      rw [hstep]
      exact ⟨te, c, rfl, hcalls, hfail⟩

/-- A loop run with collaborators that write down their calls returns the
error and leaves the state of the loop run with the collaborators themselves,
when each round of its body does. -/
theorem rangeLoop_recording {α σ : Type} (body : α → σ → Option transformerError × σ)
    (body1 : α → σ × List Call → Option transformerError × (σ × List Call))
    (hbody : ∀ x w l, (body1 x (w, l)).1 = (body x w).1 ∧ (body1 x (w, l)).2.1 = (body x w).2) :
    ∀ xs w l, (rangeLoop body1 xs (w, l)).1 = (rangeLoop body xs w).1 ∧
      (rangeLoop body1 xs (w, l)).2.1 = (rangeLoop body xs w).2 := by
  intro xs
  induction xs with
  | nil => intro w l; exact ⟨rfl, rfl⟩
  | cons x xs ih =>
    intro w l
    obtain ⟨h1, h2⟩ := hbody x w l
    rcases hb1 : body1 x (w, l) with ⟨res1, w1, l1⟩
    rcases hb : body x w with ⟨res, w2⟩
    rw [hb1, hb] at h1 h2
    simp only at h1 h2
    subst h1 h2
    cases res1 with
    | some e => simp only [rangeLoop, hb1, hb, and_self]
    | none =>
      simp only [rangeLoop, hb1, hb]
      exact ih w1 l1

theorem supplyBody_spec {σ : Type} (t : ERC20Transformer σ) (b : Int) (r : σ × List Call) :
    (∃ d : Int × Int, d.1 = b ∧ True ∧ (supplyBody (recording t) b r).1 = none ∧
      (supplyBody (recording t) b r).2.2 = r.2 ++ supplyCalls t.Config d) ∨
    (∃ te c, (supplyBody (recording t) b r).1 = some te ∧
      (supplyBody (recording t) b r).2.2 = r.2 ++ c ∧ Failed t.Config c te) := by
  simp only [supplyBody, recording, recordingGetter, recordingDatastore]
  rcases hg : t.Getter.GetTotalSupply t.Config.Abi t.Config.Address b r.1 with ⟨res, w1⟩
  cases res with
  | error e =>
    right
    exact ⟨_, _, rfl, rfl, Failed.single rfl⟩
  | ok v =>
    simp only
    rcases hc : t.Repository.CreateSupply
      (createTokenSupplyModel v t.Config.Address b) w1 with ⟨res, w2⟩
    cases res with
    | some e =>
      right
      refine ⟨_, [Call.GetTotalSupply t.Config.Abi t.Config.Address b (Except.ok v),
        Call.CreateSupply (createTokenSupplyModel v t.Config.Address b) (some e)], rfl, ?_,
        Failed.pair rfl rfl⟩
      simp
    | none =>
      left
      refine ⟨(b, v), rfl, trivial, rfl, ?_⟩
      simp [supplyCalls, createTokenSupplyModel, bigIntString]

theorem balanceBody_spec {σ : Type} (t : ERC20Transformer σ) (holder : Address) (b : Int)
    (r : σ × List Call) :
    (∃ d : Int × Int, d.1 = b ∧ True ∧ (balanceBody (recording t) holder b r).1 = none ∧
      (balanceBody (recording t) holder b r).2.2 = r.2 ++ balanceCalls t.Config holder d) ∨
    (∃ te c, (balanceBody (recording t) holder b r).1 = some te ∧
      (balanceBody (recording t) holder b r).2.2 = r.2 ++ c ∧ Failed t.Config c te) := by
  simp only [balanceBody, recording, recordingGetter, recordingDatastore]
  rcases hg : t.Getter.GetBalance t.Config.Abi t.Config.Address b [holder] r.1 with ⟨res, w1⟩
  cases res with
  | error e =>
    right
    exact ⟨_, _, rfl, rfl, Failed.single rfl⟩
  | ok v =>
    simp only
    rcases hc : t.Repository.CreateBalance
      (createTokenBalanceModel v t.Config.Address b holder.String) w1 with ⟨res, w2⟩
    cases res with
    | some e =>
      right
      refine ⟨_, [Call.GetBalance t.Config.Abi t.Config.Address b [holder] (Except.ok v),
        Call.CreateBalance (createTokenBalanceModel v t.Config.Address b holder.String)
          (some e)], rfl, ?_, Failed.pair rfl rfl⟩
      simp
    | none =>
      left
      refine ⟨(b, v), rfl, trivial, rfl, ?_⟩
      simp [balanceCalls, createTokenBalanceModel, bigIntString]

theorem allowanceBody_spec {σ : Type} (t : ERC20Transformer σ) (holder spender : Address)
    (b : Int) (r : σ × List Call) :
    (∃ d : Int × Int, d.1 = b ∧ True ∧
      (allowanceBody (recording t) holder spender b r).1 = none ∧
      (allowanceBody (recording t) holder spender b r).2.2
        = r.2 ++ allowanceCalls t.Config holder spender d) ∨
    (∃ te c, (allowanceBody (recording t) holder spender b r).1 = some te ∧
      (allowanceBody (recording t) holder spender b r).2.2 = r.2 ++ c ∧
      Failed t.Config c te) := by
  simp only [allowanceBody, recording, recordingGetter, recordingDatastore]
  rcases hg : t.Getter.GetAllowance t.Config.Abi t.Config.Address b [holder, spender] r.1
    with ⟨res, w1⟩
  cases res with
  | error e =>
    right
    exact ⟨_, _, rfl, rfl, Failed.single rfl⟩
  | ok v =>
    simp only
    rcases hc : t.Repository.CreateAllowance
      (createTokenAllowanceModel v t.Config.Address b holder.String spender.String) w1
      with ⟨res, w2⟩
    cases res with
    | some e =>
      right
      refine ⟨_, [Call.GetAllowance t.Config.Abi t.Config.Address b [holder, spender]
          (Except.ok v),
        Call.CreateAllowance
          (createTokenAllowanceModel v t.Config.Address b holder.String spender.String)
          (some e)], rfl, ?_, Failed.pair rfl rfl⟩
      simp
    | none =>
      left
      refine ⟨(b, v), rfl, trivial, rfl, ?_⟩
      simp [allowanceCalls, createTokenAllowanceModel, bigIntString]

theorem supplyCalls_ok (config : ContractConfig) (d : Int × Int) :
    ∀ c ∈ supplyCalls config d, c.failed = false := by
  intro c hc
  simp only [supplyCalls, List.mem_cons, List.mem_singleton, List.not_mem_nil, or_false] at hc
  rcases hc with rfl | rfl <;> rfl

theorem balanceCalls_ok (config : ContractConfig) (holder : Address) (d : Int × Int) :
    ∀ c ∈ balanceCalls config holder d, c.failed = false := by
  intro c hc
  simp only [balanceCalls, List.mem_cons, List.mem_singleton, List.not_mem_nil, or_false] at hc
  rcases hc with rfl | rfl <;> rfl

theorem allowanceCalls_ok (config : ContractConfig) (holder spender : Address)
    (d : Int × Int) : ∀ c ∈ allowanceCalls config holder spender d, c.failed = false := by
  intro c hc
  simp only [allowanceCalls, List.mem_cons, List.mem_singleton, List.not_mem_nil,
    or_false] at hc
  rcases hc with rfl | rfl <;> rfl

theorem spenderCalls_ok (config : ContractConfig) (upper : Int) (holder : Address)
    (sw : SpenderWork) : ∀ c ∈ spenderCalls config upper holder sw, c.failed = false := by
  intro c hc
  simp only [spenderCalls, List.mem_cons, List.mem_flatMap] at hc
  rcases hc with rfl | ⟨p, _, hp⟩
  · rfl
  · exact allowanceCalls_ok config holder sw.spender p c hp

theorem holderCalls_ok (config : ContractConfig) (upper : Int) (hw : HolderWork) :
    ∀ c ∈ holderCalls config upper hw, c.failed = false := by
  intro c hc
  simp only [holderCalls, List.mem_cons, List.mem_append, List.mem_flatMap] at hc
  rcases hc with rfl | ⟨p, _, hp⟩ | ⟨sw, _, hp⟩
  · rfl
  · exact balanceCalls_ok config hw.holder p c hp
  · exact spenderCalls_ok config upper hw.holder sw c hp

theorem spenderBody_spec {σ : Type} (t : ERC20Transformer σ) (upper : Int)
    (holder spender : Address) (r : σ × List Call) :
    (∃ sw : SpenderWork, sw.spender = spender ∧ True ∧
      (spenderBody (recording t) upper holder spender r).1 = none ∧
      (spenderBody (recording t) upper holder spender r).2.2
        = r.2 ++ spenderCalls t.Config upper holder sw) ∨
    (∃ te c, (spenderBody (recording t) upper holder spender r).1 = some te ∧
      (spenderBody (recording t) upper holder spender r).2.2 = r.2 ++ c ∧
      Failed t.Config c te) := by
  unfold spenderBody
  rcases hq : t.Repository.MissingAllowanceBlocks t.Config.FirstBlock upper t.Config.Address
    holder.String spender.String r.1 with ⟨res, w1⟩
  have hq1 : (recording t).Repository.MissingAllowanceBlocks (recording t).Config.FirstBlock
      upper (recording t).Config.Address holder.String spender.String r
      = (res, (w1, r.2 ++ [Call.MissingAllowanceBlocks t.Config.FirstBlock upper
          t.Config.Address holder.String spender.String res])) := by
    simp only [recording, recordingDatastore, hq]
  simp only [hq1]
  cases res with
  | error e =>
    right
    exact ⟨_, _, rfl, rfl, Failed.single rfl⟩
  | ok blocks =>
    simp only
    rcases rangeLoop_spec t.Config (allowanceBody (recording t) holder spender) Prod.fst
        (allowanceCalls t.Config holder spender) (fun _ => True)
        (allowanceCalls_ok t.Config holder spender)
        (allowanceBody_spec t holder spender) blocks
        (w1, r.2 ++ [Call.MissingAllowanceBlocks t.Config.FirstBlock upper
            t.Config.Address holder.String spender.String (Except.ok blocks)])
      with ⟨ds, hmap, _, hn, hc⟩ | ⟨te, c, hs, hc, hf⟩
    · left
      refine ⟨{ spender := spender, allowances := ds }, rfl, trivial, hn, ?_⟩
      rw [hc]
      simp [spenderCalls, hmap]
    · right
      refine ⟨te, [Call.MissingAllowanceBlocks t.Config.FirstBlock upper
        t.Config.Address holder.String spender.String (Except.ok blocks)] ++ c, hs, ?_,
        Failed.append_left _ ?_ hf⟩
      · rw [hc]
        simp
      · intro x hx
        rw [List.mem_singleton.1 hx]
        rfl

end EveryBlock

namespace EveryBlock

theorem holderBody_spec {σ : Type} (t : ERC20Transformer σ) (upper : Int)
    (spenders : Address → List Address) (holder : Address) (r : σ × List Call) :
    (∃ hw : HolderWork, hw.holder = holder ∧
      hw.spenders.map (fun sw => sw.spender) = spenders hw.holder ∧
      (holderBody (recording t) upper spenders holder r).1 = none ∧
      (holderBody (recording t) upper spenders holder r).2.2
        = r.2 ++ holderCalls t.Config upper hw) ∨
    (∃ te c, (holderBody (recording t) upper spenders holder r).1 = some te ∧
      (holderBody (recording t) upper spenders holder r).2.2 = r.2 ++ c ∧
      Failed t.Config c te) := by
  unfold holderBody
  rcases hq : t.Repository.MissingBalanceBlocks t.Config.FirstBlock upper t.Config.Address
    holder.String r.1 with ⟨res, w1⟩
  have hq1 : (recording t).Repository.MissingBalanceBlocks (recording t).Config.FirstBlock
      upper (recording t).Config.Address holder.String r
      = (res, (w1, r.2 ++ [Call.MissingBalanceBlocks t.Config.FirstBlock upper
          t.Config.Address holder.String res])) := by
    simp only [recording, recordingDatastore, hq]
  simp only [hq1]
  cases res with
  | error e =>
    right
    exact ⟨_, _, rfl, rfl, Failed.single rfl⟩
  | ok blocks =>
    simp only
    have hfirst : ∀ x ∈ [Call.MissingBalanceBlocks t.Config.FirstBlock upper t.Config.Address
        holder.String (Except.ok blocks)], x.failed = false := by
      intro x hx
      rw [List.mem_singleton.1 hx]
      rfl
    rcases rangeLoop_spec t.Config (balanceBody (recording t) holder) Prod.fst
        (balanceCalls t.Config holder) (fun _ => True)
        (balanceCalls_ok t.Config holder)
        (balanceBody_spec t holder) blocks
        (w1, r.2 ++ [Call.MissingBalanceBlocks t.Config.FirstBlock upper
            t.Config.Address holder.String (Except.ok blocks)])
      with ⟨ds, hmap, _, hn, hc⟩ | ⟨te, c, hs, hc, hf⟩
    · rcases hl : rangeLoop (balanceBody (recording t) holder) blocks
        (w1, r.2 ++ [Call.MissingBalanceBlocks t.Config.FirstBlock upper
            t.Config.Address holder.String (Except.ok blocks)]) with ⟨res1, r1⟩
      rw [hl] at hn hc
      simp only at hn hc
      subst hn
      simp only
      rcases rangeLoop_spec t.Config (spenderBody (recording t) upper holder)
          (fun sw : SpenderWork => sw.spender)
          (spenderCalls t.Config upper holder) (fun _ => True)
          (spenderCalls_ok t.Config upper holder)
          (spenderBody_spec t upper holder) (spenders holder) r1
        with ⟨sws, hmap2, _, hn2, hc2⟩ | ⟨te, c, hs, hc2, hf⟩
      · left
        refine ⟨{ holder := holder, balances := ds, spenders := sws }, rfl, hmap2, hn2, ?_⟩
        rw [hc2, hc]
        simp [holderCalls, hmap]
      · right
        refine ⟨te, [Call.MissingBalanceBlocks t.Config.FirstBlock upper t.Config.Address
          holder.String (Except.ok blocks)] ++ (ds.flatMap (balanceCalls t.Config holder) ++ c),
          hs, ?_, ?_⟩
        · rw [hc2, hc]
          simp
        · refine Failed.append_left _ hfirst (Failed.append_left _ ?_ hf)
          intro x hx
          obtain ⟨p, _, hp⟩ := List.mem_flatMap.1 hx
          exact balanceCalls_ok t.Config holder p x hp
    · right
      rcases hl : rangeLoop (balanceBody (recording t) holder) blocks
        (w1, r.2 ++ [Call.MissingBalanceBlocks t.Config.FirstBlock upper
            t.Config.Address holder.String (Except.ok blocks)]) with ⟨res1, r1⟩
      rw [hl] at hs hc
      simp only at hs hc
      subst hs
      simp only
      refine ⟨te, [Call.MissingBalanceBlocks t.Config.FirstBlock upper t.Config.Address
        holder.String (Except.ok blocks)] ++ c, rfl, ?_, Failed.append_left _ hfirst hf⟩
      rw [hc]
      simp

/-- The upper bound of the blocks is the same when the collaborators write
down their calls. -/
theorem upperBoundBlock_recording {σ : Type} (t : ERC20Transformer σ) (w : σ)
    (l : List Call) : upperBoundBlock (recording t) (w, l) = upperBoundBlock t w := rfl

/-- The two ways a run of `Execute` can go, seen from the calls its
collaborators receive: every call goes well, and the calls are the query for
the missing supply blocks, a fetch and a `CreateSupply` for each block it
returned, the retrieval of the holders, and the calls for each holder in the
order the map is walked; or a call fails, it is the last call, and the error
of `Execute` is the one that goes with it. -/
theorem execute_spec {σ : Type} (t : ERC20Transformer σ) (order : MapOrder) (w : σ) :
    (∃ (supply : List (Int × Int)) (keys : List Address) (work : List HolderWork),
      (Execute (recording t) order (w, [])).1 = none ∧
      callsOf t order w
        = [Call.MissingSupplyBlocks t.Config.FirstBlock (upperBoundBlock t w) t.Config.Address
            (Except.ok (supply.map Prod.fst))]
          ++ supply.flatMap (supplyCalls t.Config)
          ++ [Call.RetrieveTokenHolderAddresses (Except.ok keys)]
          ++ work.flatMap (holderCalls t.Config (upperBoundBlock t w)) ∧
      work.map (fun hw => hw.holder) = order.outer keys ∧
      ∀ hw ∈ work, hw.spenders.map (fun sw => sw.spender) = order.inner hw.holder keys) ∨
    (∃ te, (Execute (recording t) order (w, [])).1 = some te ∧
      Failed t.Config (callsOf t order w) te) := by
  unfold callsOf Execute
  simp only [upperBoundBlock_recording]
  rcases hq : t.Repository.MissingSupplyBlocks t.Config.FirstBlock (upperBoundBlock t w)
    t.Config.Address w with ⟨res, w1⟩
  have hq1 : (recording t).Repository.MissingSupplyBlocks (recording t).Config.FirstBlock
      (upperBoundBlock t w) (recording t).Config.Address (w, [])
      = (res, (w1, [Call.MissingSupplyBlocks t.Config.FirstBlock (upperBoundBlock t w)
          t.Config.Address res])) := by
    simp only [recording, recordingDatastore, hq, List.nil_append]
  simp only [hq1]
  cases res with
  | error e =>
    right
    exact ⟨_, rfl, Failed.single rfl⟩
  | ok blocks =>
    simp only
    have hfirst : ∀ x ∈ [Call.MissingSupplyBlocks t.Config.FirstBlock (upperBoundBlock t w)
        t.Config.Address (Except.ok blocks)], x.failed = false := by
      intro x hx
      rw [List.mem_singleton.1 hx]
      rfl
    have hloop := rangeLoop_spec t.Config (supplyBody (recording t)) Prod.fst
      (supplyCalls t.Config) (fun _ => True) (supplyCalls_ok t.Config) (supplyBody_spec t) blocks
      (w1, [Call.MissingSupplyBlocks t.Config.FirstBlock (upperBoundBlock t w)
          t.Config.Address (Except.ok blocks)])
    rcases hl : rangeLoop (supplyBody (recording t)) blocks
      (w1, [Call.MissingSupplyBlocks t.Config.FirstBlock (upperBoundBlock t w)
          t.Config.Address (Except.ok blocks)]) with ⟨res1, r1⟩
    rw [hl] at hloop
    simp only at hloop
    rcases hloop with ⟨ds, hmap, _, hn, hc⟩ | ⟨te, c, hs, hc, hf⟩
    · subst hn
      simp only
      have hds : ∀ x ∈ ds.flatMap (supplyCalls t.Config), x.failed = false := by
        intro x hx
        obtain ⟨p, _, hp⟩ := List.mem_flatMap.1 hx
        exact supplyCalls_ok t.Config p x hp
      rcases hr : t.Retriever.RetrieveTokenHolderAddresses r1.1 with ⟨res2, w2⟩
      have hr1 : (recording t).Retriever.RetrieveTokenHolderAddresses r1
          = (res2, (w2, r1.2 ++ [Call.RetrieveTokenHolderAddresses res2])) := by
        simp only [recording, recordingRetriever, hr]
      simp only [hr1]
      cases res2 with
      | error e =>
        right
        refine ⟨_, rfl, ?_⟩
        simp only [hc]
        exact Failed.append_left _
          (fun x hx => (List.mem_append.1 hx).elim (hfirst x) (hds x)) (Failed.single rfl)
      | ok keys =>
        simp only
        rcases rangeLoop_spec t.Config
            (holderBody (recording t) (upperBoundBlock t w) (fun h => order.inner h keys))
            (fun hw : HolderWork => hw.holder)
            (holderCalls t.Config (upperBoundBlock t w))
            (fun hw => hw.spenders.map (fun sw => sw.spender) = order.inner hw.holder keys)
            (holderCalls_ok t.Config (upperBoundBlock t w))
            (holderBody_spec t (upperBoundBlock t w) (fun h => order.inner h keys))
            (order.outer keys)
            (w2, r1.2 ++ [Call.RetrieveTokenHolderAddresses (Except.ok keys)])
          with ⟨work, hmap2, hq2, hn2, hc2⟩ | ⟨te, c, hs, hc2, hf⟩
        · left
          refine ⟨ds, keys, work, hn2, ?_, hmap2, hq2⟩
          rw [hc2]
          simp only [hc, hmap]
        · right
          refine ⟨te, hs, ?_⟩
          rw [hc2]
          simp only [hc, List.append_assoc]
          refine Failed.append_left _ hfirst (Failed.append_left _ hds
            (Failed.append_left _ ?_ hf))
          intro x hx
          rw [List.mem_singleton.1 hx]
          rfl
    · subst hs
      right
      refine ⟨te, rfl, ?_⟩
      simp only [hc]
      exact Failed.append_left _ hfirst hf

end EveryBlock

namespace EveryBlock

theorem supplyBody_recording {σ : Type} (t : ERC20Transformer σ) (b : Int) (w : σ)
    (l : List Call) :
    (supplyBody (recording t) b (w, l)).1 = (supplyBody t b w).1 ∧
    (supplyBody (recording t) b (w, l)).2.1 = (supplyBody t b w).2 := by
  simp only [supplyBody, recording, recordingGetter, recordingDatastore]
  rcases hg : t.Getter.GetTotalSupply t.Config.Abi t.Config.Address b w with ⟨res, w1⟩
  cases res with
  | error e => exact ⟨rfl, rfl⟩
  | ok v =>
    simp only
    rcases hc : t.Repository.CreateSupply
      (createTokenSupplyModel v t.Config.Address b) w1 with ⟨res, w2⟩
    cases res with
    | some e => exact ⟨rfl, rfl⟩
    | none => exact ⟨rfl, rfl⟩

theorem balanceBody_recording {σ : Type} (t : ERC20Transformer σ) (holder : Address)
    (b : Int) (w : σ) (l : List Call) :
    (balanceBody (recording t) holder b (w, l)).1 = (balanceBody t holder b w).1 ∧
    (balanceBody (recording t) holder b (w, l)).2.1 = (balanceBody t holder b w).2 := by
  simp only [balanceBody, recording, recordingGetter, recordingDatastore]
  rcases hg : t.Getter.GetBalance t.Config.Abi t.Config.Address b [holder] w with ⟨res, w1⟩
  cases res with
  | error e => exact ⟨rfl, rfl⟩
  | ok v =>
    simp only
    rcases hc : t.Repository.CreateBalance
      (createTokenBalanceModel v t.Config.Address b holder.String) w1 with ⟨res, w2⟩
    cases res with
    | some e => exact ⟨rfl, rfl⟩
    | none => exact ⟨rfl, rfl⟩

theorem allowanceBody_recording {σ : Type} (t : ERC20Transformer σ)
    (holder spender : Address) (b : Int) (w : σ) (l : List Call) :
    (allowanceBody (recording t) holder spender b (w, l)).1
      = (allowanceBody t holder spender b w).1 ∧
    (allowanceBody (recording t) holder spender b (w, l)).2.1
      = (allowanceBody t holder spender b w).2 := by
  simp only [allowanceBody, recording, recordingGetter, recordingDatastore]
  rcases hg : t.Getter.GetAllowance t.Config.Abi t.Config.Address b [holder, spender] w
    with ⟨res, w1⟩
  cases res with
  | error e => exact ⟨rfl, rfl⟩
  | ok v =>
    simp only
    rcases hc : t.Repository.CreateAllowance
      (createTokenAllowanceModel v t.Config.Address b holder.String spender.String) w1
      with ⟨res, w2⟩
    cases res with
    | some e => exact ⟨rfl, rfl⟩
    | none => exact ⟨rfl, rfl⟩

theorem spenderBody_recording {σ : Type} (t : ERC20Transformer σ) (upper : Int)
    (holder spender : Address) (w : σ) (l : List Call) :
    (spenderBody (recording t) upper holder spender (w, l)).1
      = (spenderBody t upper holder spender w).1 ∧
    (spenderBody (recording t) upper holder spender (w, l)).2.1
      = (spenderBody t upper holder spender w).2 := by
  unfold spenderBody
  rcases hq : t.Repository.MissingAllowanceBlocks t.Config.FirstBlock upper t.Config.Address
    holder.String spender.String w with ⟨res, w1⟩
  have hq1 : (recording t).Repository.MissingAllowanceBlocks (recording t).Config.FirstBlock
      upper (recording t).Config.Address holder.String spender.String (w, l)
      = (res, (w1, l ++ [Call.MissingAllowanceBlocks t.Config.FirstBlock upper
          t.Config.Address holder.String spender.String res])) := by
    simp only [recording, recordingDatastore, hq]
  simp only [hq1]
  cases res with
  | error e => exact ⟨rfl, rfl⟩
  | ok blocks =>
    exact rangeLoop_recording (allowanceBody t holder spender)
      (allowanceBody (recording t) holder spender)
      (allowanceBody_recording t holder spender) blocks w1 _

theorem holderBody_recording {σ : Type} (t : ERC20Transformer σ) (upper : Int)
    (spenders : Address → List Address) (holder : Address) (w : σ) (l : List Call) :
    (holderBody (recording t) upper spenders holder (w, l)).1
      = (holderBody t upper spenders holder w).1 ∧
    (holderBody (recording t) upper spenders holder (w, l)).2.1
      = (holderBody t upper spenders holder w).2 := by
  unfold holderBody
  rcases hq : t.Repository.MissingBalanceBlocks t.Config.FirstBlock upper t.Config.Address
    holder.String w with ⟨res, w1⟩
  have hq1 : (recording t).Repository.MissingBalanceBlocks (recording t).Config.FirstBlock
      upper (recording t).Config.Address holder.String (w, l)
      = (res, (w1, l ++ [Call.MissingBalanceBlocks t.Config.FirstBlock upper
          t.Config.Address holder.String res])) := by
    simp only [recording, recordingDatastore, hq]
  simp only [hq1]
  cases res with
  | error e => exact ⟨rfl, rfl⟩
  | ok blocks =>
    simp only
    obtain ⟨h1, h2⟩ := rangeLoop_recording (balanceBody t holder)
      (balanceBody (recording t) holder) (balanceBody_recording t holder) blocks w1
      (l ++ [Call.MissingBalanceBlocks t.Config.FirstBlock upper
          t.Config.Address holder.String (Except.ok blocks)])
    rcases hl1 : rangeLoop (balanceBody (recording t) holder) blocks
      (w1, l ++ [Call.MissingBalanceBlocks t.Config.FirstBlock upper
          t.Config.Address holder.String (Except.ok blocks)]) with ⟨res1, w2, l2⟩
    rcases hl : rangeLoop (balanceBody t holder) blocks w1 with ⟨res2, w3⟩
    rw [hl1, hl] at h1 h2
    simp only at h1 h2
    subst h1 h2
    cases res1 with
    | some e => exact ⟨rfl, rfl⟩
    | none =>
      exact rangeLoop_recording (spenderBody t upper holder)
        (spenderBody (recording t) upper holder)
        (spenderBody_recording t upper holder) (spenders holder) w2 l2

/-- Run with collaborators that write down their calls, `Execute` returns the
error and leaves the state of the run with the collaborators themselves. -/
theorem execute_recording {σ : Type} (t : ERC20Transformer σ) (order : MapOrder) (w : σ) :
    (Execute (recording t) order (w, [])).1 = (Execute t order w).1 ∧
    (Execute (recording t) order (w, [])).2.1 = (Execute t order w).2 := by
  unfold Execute
  simp only [upperBoundBlock_recording]
  rcases hq : t.Repository.MissingSupplyBlocks t.Config.FirstBlock (upperBoundBlock t w)
    t.Config.Address w with ⟨res, w1⟩
  have hq1 : (recording t).Repository.MissingSupplyBlocks (recording t).Config.FirstBlock
      (upperBoundBlock t w) (recording t).Config.Address (w, [])
      = (res, (w1, [Call.MissingSupplyBlocks t.Config.FirstBlock (upperBoundBlock t w)
          t.Config.Address res])) := by
    simp only [recording, recordingDatastore, hq, List.nil_append]
  simp only [hq1]
  cases res with
  | error e => exact ⟨rfl, rfl⟩
  | ok blocks =>
    simp only
    obtain ⟨h1, h2⟩ := rangeLoop_recording (supplyBody t) (supplyBody (recording t))
      (supplyBody_recording t) blocks w1
      [Call.MissingSupplyBlocks t.Config.FirstBlock (upperBoundBlock t w)
          t.Config.Address (Except.ok blocks)]
    rcases hl1 : rangeLoop (supplyBody (recording t)) blocks
      (w1, [Call.MissingSupplyBlocks t.Config.FirstBlock (upperBoundBlock t w)
          t.Config.Address (Except.ok blocks)]) with ⟨res1, w2, l2⟩
    rcases hl : rangeLoop (supplyBody t) blocks w1 with ⟨res2, w3⟩
    rw [hl1, hl] at h1 h2
    simp only at h1 h2
    subst h1 h2
    cases res1 with
    | some e => exact ⟨rfl, rfl⟩
    | none =>
      simp only
      rcases hr : t.Retriever.RetrieveTokenHolderAddresses w2 with ⟨res3, w4⟩
      have hr1 : (recording t).Retriever.RetrieveTokenHolderAddresses (w2, l2)
          = (res3, (w4, l2 ++ [Call.RetrieveTokenHolderAddresses res3])) := by
        simp only [recording, recordingRetriever, hr]
      simp only [hr1]
      cases res3 with
      | error e => exact ⟨rfl, rfl⟩
      | ok keys =>
        exact rangeLoop_recording
          (holderBody t (upperBoundBlock t w) (fun h => order.inner h keys))
          (holderBody (recording t) (upperBoundBlock t w) (fun h => order.inner h keys))
          (holderBody_recording t (upperBoundBlock t w) (fun h => order.inner h keys))
          (order.outer keys) w4 _

end EveryBlock

namespace EveryBlock

theorem filterMap_flatMap_calls {α β : Type} (f : Call → Option β) (g : α → List Call)
    (l : List α) : (l.flatMap g).filterMap f = l.flatMap (fun a => (g a).filterMap f) := by
  induction l with
  | nil => rfl
  | cons a l ih => simp only [List.flatMap_cons, List.filterMap_append, ih]

theorem flatMap_nil_calls {α β : Type} (l : List α) :
    l.flatMap (fun _ => ([] : List β)) = [] := by
  induction l with
  | nil => rfl
  | cons a l ih => simp only [List.flatMap_cons, ih, List.append_nil]

theorem flatMap_singleton_calls {α β : Type} (f : α → β) (l : List α) :
    l.flatMap (fun a => [f a]) = l.map f := by
  induction l with
  | nil => rfl
  | cons a l ih => simp only [List.flatMap_cons, ih, List.map_cons, List.singleton_append]

/-- The supply loop makes no query and no insert for balances or allowances. -/
theorem supplyCalls_projections (config : ContractConfig) (supply : List (Int × Int)) :
    supplyCreated (supply.flatMap (supplyCalls config))
      = supply.map (fun p =>
          { Value := toString p.2, TokenAddress := config.Address, BlockNumber := p.1 }) ∧
    supplyFetched (supply.flatMap (supplyCalls config)) = supply.map Prod.fst ∧
    balanceQueried (supply.flatMap (supplyCalls config)) = [] ∧
    allowanceQueried (supply.flatMap (supplyCalls config)) = [] ∧
    balanceCreated (supply.flatMap (supplyCalls config)) = [] ∧
    allowanceCreated (supply.flatMap (supplyCalls config)) = [] := by
  refine ⟨?_, ?_, ?_, ?_, ?_, ?_⟩
  · simp only [supplyCreated, filterMap_flatMap_calls, supplyCalls, List.filterMap_cons,
      List.filterMap_nil]
    exact flatMap_singleton_calls _ supply
  · simp only [supplyFetched, filterMap_flatMap_calls, supplyCalls, List.filterMap_cons,
      List.filterMap_nil]
    exact flatMap_singleton_calls _ supply
  · simp only [balanceQueried, filterMap_flatMap_calls, supplyCalls, List.filterMap_cons,
      List.filterMap_nil]
    exact flatMap_nil_calls supply
  · simp only [allowanceQueried, filterMap_flatMap_calls, supplyCalls, List.filterMap_cons,
      List.filterMap_nil]
    exact flatMap_nil_calls supply
  · simp only [balanceCreated, filterMap_flatMap_calls, supplyCalls, List.filterMap_cons,
      List.filterMap_nil]
    exact flatMap_nil_calls supply
  · simp only [allowanceCreated, filterMap_flatMap_calls, supplyCalls, List.filterMap_cons,
      List.filterMap_nil]
    exact flatMap_nil_calls supply

/-- The calls for one holder hold one query for missing balance blocks, the
queries for missing allowance blocks of the holder with each spender, the
inserts of the balances and allowances fetched, and nothing about the supply. -/
theorem holderCalls_projections (config : ContractConfig) (upper : Int) (hw : HolderWork) :
    supplyCreated (holderCalls config upper hw) = [] ∧
    supplyFetched (holderCalls config upper hw) = [] ∧
    balanceQueried (holderCalls config upper hw) = [hw.holder.String] ∧
    allowanceQueried (holderCalls config upper hw)
      = hw.spenders.map (fun sw => (hw.holder.String, sw.spender.String)) ∧
    balanceCreated (holderCalls config upper hw)
      = hw.balances.map (fun p =>
          { Value := toString p.2, TokenAddress := config.Address, BlockNumber := p.1,
            TokenHolderAddress := hw.holder.String }) ∧
    allowanceCreated (holderCalls config upper hw)
      = hw.spenders.flatMap (fun sw => sw.allowances.map (fun p =>
          { Value := toString p.2, TokenAddress := config.Address, BlockNumber := p.1,
            TokenHolderAddress := hw.holder.String,
            TokenSpenderAddress := sw.spender.String })) := by
  refine ⟨?_, ?_, ?_, ?_, ?_, ?_⟩
  · simp only [supplyCreated, holderCalls, spenderCalls, balanceCalls, allowanceCalls,
      List.filterMap_cons, List.filterMap_append, filterMap_flatMap_calls, List.filterMap_nil,
      flatMap_nil_calls, List.append_nil]
  · simp only [supplyFetched, holderCalls, spenderCalls, balanceCalls, allowanceCalls,
      List.filterMap_cons, List.filterMap_append, filterMap_flatMap_calls, List.filterMap_nil,
      flatMap_nil_calls, List.append_nil]
  · simp only [balanceQueried, holderCalls, spenderCalls, balanceCalls, allowanceCalls,
      List.filterMap_cons, List.filterMap_append, filterMap_flatMap_calls, List.filterMap_nil,
      flatMap_nil_calls, List.append_nil]
  · simp only [allowanceQueried, holderCalls, spenderCalls, balanceCalls, allowanceCalls,
      List.filterMap_cons, List.filterMap_append, filterMap_flatMap_calls, List.filterMap_nil,
      flatMap_nil_calls, List.append_nil, List.nil_append]
    exact flatMap_singleton_calls _ hw.spenders
  · simp only [balanceCreated, holderCalls, spenderCalls, balanceCalls, allowanceCalls,
      List.filterMap_cons, List.filterMap_append, filterMap_flatMap_calls, List.filterMap_nil,
      flatMap_nil_calls, List.append_nil]
    exact flatMap_singleton_calls _ hw.balances
  · simp only [allowanceCreated, holderCalls, spenderCalls, balanceCalls, allowanceCalls,
      List.filterMap_cons, List.filterMap_append, filterMap_flatMap_calls, List.filterMap_nil,
      flatMap_nil_calls, List.append_nil, List.nil_append, flatMap_singleton_calls]

/-- C14: when no call fails, for the list of blocks `MissingSupplyBlocks`
returned, the getter and the repository of the transformer receive, for each
block in the order of the list, one call of `GetTotalSupply` and one call of
`CreateSupply`, with the model whose value is the supply the getter returned
for the block in decimal, whose token address is `Config.Address` and whose
block number is the block; no other call asks for a supply or inserts one. The
calls are the ones the collaborators write down themselves during the run;
the pairs are the blocks with the values the getter returned. -/
theorem execute_creates_supply {σ : Type} (t : ERC20Transformer σ) (order : MapOrder) (w : σ)
    (hok : (Execute t order w).1 = none) :
    ((Execute (recording t) order (w, [])).1 = (Execute t order w).1 ∧
      (Execute (recording t) order (w, [])).2.1 = (Execute t order w).2) ∧
    ∃ (supply : List (Int × Int)) (rest : List Call),
      callsOf t order w
        = [Call.MissingSupplyBlocks t.Config.FirstBlock (upperBoundBlock t w) t.Config.Address
            (Except.ok (supply.map Prod.fst))]
          ++ supply.flatMap (fun p =>
              [Call.GetTotalSupply t.Config.Abi t.Config.Address p.1 (Except.ok p.2),
               Call.CreateSupply
                 { Value := toString p.2, TokenAddress := t.Config.Address,
                   BlockNumber := p.1 } none])
          ++ rest ∧
      supplyFetched rest = [] ∧ supplyCreated rest = [] ∧
      supplyFetched (callsOf t order w) = supply.map Prod.fst ∧
      supplyCreated (callsOf t order w)
        = supply.map (fun p =>
            { Value := toString p.2, TokenAddress := t.Config.Address, BlockNumber := p.1 }) := by
  refine ⟨execute_recording t order w, ?_⟩
  rcases execute_spec t order w with ⟨supply, keys, work, _, hc, _, _⟩ | ⟨te, hs, _⟩
  · have hrest : supplyFetched ([Call.RetrieveTokenHolderAddresses (Except.ok keys)]
          ++ work.flatMap (holderCalls t.Config (upperBoundBlock t w))) = [] ∧
        supplyCreated ([Call.RetrieveTokenHolderAddresses (Except.ok keys)]
          ++ work.flatMap (holderCalls t.Config (upperBoundBlock t w))) = [] := by
      constructor
      · simp only [supplyFetched, List.filterMap_append, filterMap_flatMap_calls,
          List.filterMap_cons, List.filterMap_nil, List.nil_append]
        have h := fun hw => (holderCalls_projections t.Config (upperBoundBlock t w) hw).2.1
        simp only [supplyFetched] at h
        simp only [h]
        exact flatMap_nil_calls work
      · simp only [supplyCreated, List.filterMap_append, filterMap_flatMap_calls,
          List.filterMap_cons, List.filterMap_nil, List.nil_append]
        have h := fun hw => (holderCalls_projections t.Config (upperBoundBlock t w) hw).1
        simp only [supplyCreated] at h
        simp only [h]
        exact flatMap_nil_calls work
    have hsup := supplyCalls_projections t.Config supply
    refine ⟨supply, [Call.RetrieveTokenHolderAddresses (Except.ok keys)]
      ++ work.flatMap (holderCalls t.Config (upperBoundBlock t w)), ?_, hrest.1, hrest.2, ?_, ?_⟩
    · rw [hc]
      simp only [List.append_assoc]
      rfl
    · rw [hc]
      have h1 : supplyFetched ([Call.MissingSupplyBlocks t.Config.FirstBlock
          (upperBoundBlock t w) t.Config.Address (Except.ok (supply.map Prod.fst))]
          ++ supply.flatMap (supplyCalls t.Config)
          ++ ([Call.RetrieveTokenHolderAddresses (Except.ok keys)]
          ++ work.flatMap (holderCalls t.Config (upperBoundBlock t w))))
          = supply.map Prod.fst := by
        have e : ∀ a b c : List Call,
            supplyFetched (a ++ b ++ c) = supplyFetched a ++ supplyFetched b ++ supplyFetched c := by
          intro a b c
          simp only [supplyFetched, List.filterMap_append]
        rw [e, hsup.2.1, hrest.1]
        simp [supplyFetched]
      simpa only [List.append_assoc] using h1
    · rw [hc]
      have h1 : supplyCreated ([Call.MissingSupplyBlocks t.Config.FirstBlock
          (upperBoundBlock t w) t.Config.Address (Except.ok (supply.map Prod.fst))]
          ++ supply.flatMap (supplyCalls t.Config)
          ++ ([Call.RetrieveTokenHolderAddresses (Except.ok keys)]
          ++ work.flatMap (holderCalls t.Config (upperBoundBlock t w))))
          = supply.map (fun p =>
            { Value := toString p.2, TokenAddress := t.Config.Address, BlockNumber := p.1 }) := by
        have e : ∀ a b c : List Call,
            supplyCreated (a ++ b ++ c) = supplyCreated a ++ supplyCreated b ++ supplyCreated c := by
          intro a b c
          simp only [supplyCreated, List.filterMap_append]
        rw [e, hsup.1, hrest.2]
        simp [supplyCreated]
      simpa only [List.append_assoc] using h1
  · rw [(execute_recording t order w).1, hok] at hs
    exact absurd hs (by simp)

/-- C14 on an example: blocks 5 to 8 miss their supply, the supply of block
`b` is `1000 + b`: the repository receives four models, in the order of the
blocks, each after the fetch of its supply. -/
theorem execute_creates_supply_witness :
    (Execute (sampleTransformer none) sampleOrder 0).1 = none ∧
    supplyCreated (callsOf (sampleTransformer none) sampleOrder 0)
      = [{ Value := "1005", TokenAddress := "0xToken", BlockNumber := 5 },
         { Value := "1006", TokenAddress := "0xToken", BlockNumber := 6 },
         { Value := "1007", TokenAddress := "0xToken", BlockNumber := 7 },
         { Value := "1008", TokenAddress := "0xToken", BlockNumber := 8 }] ∧
    (callsOf (sampleTransformer none) sampleOrder 0).take 5
      = [Call.MissingSupplyBlocks 5 8 "0xToken" (Except.ok [5, 6, 7, 8]),
         Call.GetTotalSupply "abi" "0xToken" 5 (Except.ok 1005),
         Call.CreateSupply { Value := "1005", TokenAddress := "0xToken", BlockNumber := 5 } none,
         Call.GetTotalSupply "abi" "0xToken" 6 (Except.ok 1006),
         Call.CreateSupply { Value := "1006", TokenAddress := "0xToken", BlockNumber := 6 }
           none] ∧
    ∃ (supply : List (Int × Int)) (rest : List Call),
      callsOf (sampleTransformer none) sampleOrder 0
        = [Call.MissingSupplyBlocks (sampleTransformer none).Config.FirstBlock
            (upperBoundBlock (sampleTransformer none) 0) (sampleTransformer none).Config.Address
            (Except.ok (supply.map Prod.fst))]
          ++ supply.flatMap (fun p =>
              [Call.GetTotalSupply (sampleTransformer none).Config.Abi
                 (sampleTransformer none).Config.Address p.1 (Except.ok p.2),
               Call.CreateSupply
                 { Value := toString p.2,
                   TokenAddress := (sampleTransformer none).Config.Address,
                   BlockNumber := p.1 } none])
          ++ rest ∧
      supplyFetched rest = [] ∧ supplyCreated rest = [] ∧
      supplyFetched (callsOf (sampleTransformer none) sampleOrder 0)
        = supply.map Prod.fst ∧
      supplyCreated (callsOf (sampleTransformer none) sampleOrder 0)
        = supply.map (fun p =>
            { Value := toString p.2, TokenAddress := (sampleTransformer none).Config.Address,
              BlockNumber := p.1 }) :=
  ⟨by decide, by decide, by rfl,
    (execute_creates_supply (sampleTransformer none) sampleOrder 0 (by decide)).2⟩

end EveryBlock

namespace EveryBlock

/-- The eight message constants with their verbs filled in. -/
theorem substituteVerbs_constants (b : Int) (e : String) :
    substituteVerbs FetchingBlocksError b e
      = "Error fetching missing blocks starting at block number " ++ toString b ++ ": " ++ e ∧
    substituteVerbs FetchingSupplyError b e
      = "Error fetching supply for block " ++ toString b ++ ": " ++ e ∧
    substituteVerbs CreateSupplyError b e
      = "Error inserting token_supply for block " ++ toString b ++ ": " ++ e ∧
    substituteVerbs FetchingTokenAddressesError b e
      = "Error fetching token holder addresses at block " ++ toString b ++ ": " ++ e ∧
    substituteVerbs FetchingBalanceError b e
      = "Error fetching balance at block " ++ toString b ++ ": " ++ e ∧
    substituteVerbs CreateBalanceError b e
      = "Error inserting token_balance at block " ++ toString b ++ ": " ++ e ∧
    substituteVerbs FetchingAllowanceError b e
      = "Error fetching allowance at block " ++ toString b ++ ": " ++ e ∧
    substituteVerbs CreateAllowanceError b e
      = "Error inserting allowance at block " ++ toString b ++ ": " ++ e := by
  refine ⟨?_, ?_, ?_, ?_, ?_, ?_, ?_, ?_⟩ <;>
  · apply String.ext
    simp [substituteVerbs, substituteChars, FetchingBlocksError, FetchingSupplyError,
      CreateSupplyError, FetchingTokenAddressesError, FetchingBalanceError, CreateBalanceError,
      FetchingAllowanceError, CreateAllowanceError]

/-- For each of the eight message constants `Sprintf` with the block number
and the error text as operands fills in the verbs. -/
theorem sprintf_constants (m : String) (b : Int) (e : String)
    (hm : m ∈ [FetchingBlocksError, FetchingSupplyError, CreateSupplyError,
      FetchingTokenAddressesError, FetchingBalanceError, CreateBalanceError,
      FetchingAllowanceError, CreateAllowanceError]) :
    Sprintf m [Arg.int b, Arg.str e] = substituteVerbs m b e := by
  simp only [List.mem_cons, List.mem_singleton, List.not_mem_nil, or_false] at hm
  rcases hm with rfl | rfl | rfl | rfl | rfl | rfl | rfl | rfl <;>
  · apply String.ext
    simp [Sprintf, sprintfChars, substituteVerbs, substituteChars, FetchingBlocksError,
      FetchingSupplyError, CreateSupplyError, FetchingTokenAddressesError, FetchingBalanceError,
      CreateBalanceError, FetchingAllowanceError, CreateAllowanceError]

/-- A call has a failure that goes with it exactly when it failed, and the
message is then one of the eight constants. -/
theorem failureOf_some (config : ContractConfig) (c : Call) (m : String) (b : Int)
    (e : String) (h : failureOf config c = some (m, b, e)) :
    c.failed = true ∧
    m ∈ [FetchingBlocksError, FetchingSupplyError, CreateSupplyError,
      FetchingTokenAddressesError, FetchingBalanceError, CreateBalanceError,
      FetchingAllowanceError, CreateAllowanceError] := by
  cases c with
  | MissingSupplyBlocks s u a r =>
    cases r <;> simp [failureOf] at h
    simp [Call.failed, ← h.1]
  | GetTotalSupply abi a bn r =>
    cases r <;> simp [failureOf] at h
    simp [Call.failed, ← h.1]
  | CreateSupply model r =>
    cases r <;> simp [failureOf] at h
    simp [Call.failed, ← h.1]
  | RetrieveTokenHolderAddresses r =>
    cases r <;> simp [failureOf] at h
    simp [Call.failed, ← h.1]
  | MissingBalanceBlocks s u a ho r =>
    cases r <;> simp [failureOf] at h
    simp [Call.failed, ← h.1]
  | GetBalance abi a bn args r =>
    cases r <;> simp [failureOf] at h
    simp [Call.failed, ← h.1]
  | CreateBalance model r =>
    cases r <;> simp [failureOf] at h
    simp [Call.failed, ← h.1]
  | MissingAllowanceBlocks s u a ho sp r =>
    cases r <;> simp [failureOf] at h
    simp [Call.failed, ← h.1]
  | GetAllowance abi a bn args r =>
    cases r <;> simp [failureOf] at h
    simp [Call.failed, ← h.1]
  | CreateAllowance model r =>
    cases r <;> simp [failureOf] at h
    simp [Call.failed, ← h.1]

/-- C15: a call its collaborator answers with an error is the last call
`Execute` makes, and `Execute` returns the error whose text is the message
constant that goes with the call, with `%d` replaced by a block number in
decimal and `%s` by the text of the error of the collaborator; the block
number is the block of the call for a fetch or an insert of one block, and
`Config.FirstBlock` for a failure to list missing blocks or to retrieve the
token holders. `Execute` returns an error only when a call failed. The calls
are the ones the collaborators write down themselves, each with the result it
gave. -/
theorem execute_error_text {σ : Type} (t : ERC20Transformer σ) (order : MapOrder) (w : σ) :
    ((Execute (recording t) order (w, [])).1 = (Execute t order w).1 ∧
      (Execute (recording t) order (w, [])).2.1 = (Execute t order w).2) ∧
    (∀ c ∈ callsOf t order w, c.failed = true →
      (callsOf t order w).getLast? = some c ∧
      ∃ te m b e, (Execute t order w).1 = some te ∧
        failureOf t.Config c = some (m, b, e) ∧
        te.msg = m ∧ te.blockNumber = b ∧ te.err = e ∧
        te.Error = substituteVerbs m b e) ∧
    (∀ te, (Execute t order w).1 = some te →
      ∃ c ∈ callsOf t order w, c.failed = true ∧ (callsOf t order w).getLast? = some c) ∧
    ((Execute t order w).1 = none → ∀ c ∈ callsOf t order w, c.failed = false) := by
  have hrec := execute_recording t order w
  refine ⟨hrec, ?_⟩
  rw [← hrec.1]
  rcases execute_spec t order w with ⟨supply, keys, work, hn, hc, _, _⟩ | ⟨te, hs, hf⟩
  · have hall : ∀ c ∈ callsOf t order w, c.failed = false := by
      intro c hmem
      rw [hc] at hmem
      simp only [List.mem_append, List.mem_singleton, List.mem_flatMap] at hmem
      rcases hmem with ((rfl | ⟨p, _, hp⟩) | rfl) | ⟨hw, _, hp⟩
      · rfl
      · exact supplyCalls_ok t.Config p c hp
      · rfl
      · exact holderCalls_ok t.Config (upperBoundBlock t w) hw c hp
    refine ⟨?_, ?_, fun _ => hall⟩
    · intro c hmem hfailed
      rw [hall c hmem] at hfailed
      exact absurd hfailed (by simp)
    · intro te hte
      rw [hn] at hte
      exact absurd hte (by simp)
  · obtain ⟨init, last, hcalls, hinit, hlast⟩ := hf
    obtain ⟨hlastFailed, hmem⟩ := failureOf_some t.Config last _ _ _ hlast
    refine ⟨?_, ?_, ?_⟩
    · intro c hc hfailed
      rw [hcalls] at hc ⊢
      have hcl : c = last := by
        rcases List.mem_append.1 hc with h | h
        · rw [hinit c h] at hfailed
          exact absurd hfailed (by simp)
        · exact List.mem_singleton.1 h
      subst hcl
      refine ⟨List.getLast?_concat init, te, te.msg, te.blockNumber, te.err, hs, hlast,
        rfl, rfl, rfl, ?_⟩
      exact sprintf_constants te.msg te.blockNumber te.err hmem
    · intro te1 _
      refine ⟨last, by rw [hcalls]; simp, hlastFailed, ?_⟩
      rw [hcalls]
      exact List.getLast?_concat init
    · intro hnone
      rw [hs] at hnone
      exact absurd hnone (by simp)

/-- C15 on examples: each of the ten calls failing with "boom", with the text
`Execute` returns; the first is the example of the claim, the fetch of the
total supply failing at block 7. -/
theorem execute_error_text_witness :
    ((Execute (sampleTransformer (some ("GetTotalSupply", 7))) sampleOrder 0).1.map
        (fun te => te.Error) = some "Error fetching supply for block 7: boom" ∧
      (Execute (sampleTransformer (some ("MissingSupplyBlocks", 5))) sampleOrder 0).1.map
        (fun te => te.Error)
        = some "Error fetching missing blocks starting at block number 5: boom" ∧
      (Execute (sampleTransformer (some ("CreateSupply", 6))) sampleOrder 0).1.map
        (fun te => te.Error) = some "Error inserting token_supply for block 6: boom" ∧
      (Execute (sampleTransformer (some ("RetrieveTokenHolderAddresses", 0))) sampleOrder 0).1.map
        (fun te => te.Error) = some "Error fetching token holder addresses at block 5: boom" ∧
      (Execute (sampleTransformer (some ("MissingBalanceBlocks", 5))) sampleOrder 0).1.map
        (fun te => te.Error)
        = some "Error fetching missing blocks starting at block number 5: boom" ∧
      (Execute (sampleTransformer (some ("GetBalance", 8))) sampleOrder 0).1.map
        (fun te => te.Error) = some "Error fetching balance at block 8: boom" ∧
      (Execute (sampleTransformer (some ("CreateBalance", 8))) sampleOrder 0).1.map
        (fun te => te.Error) = some "Error inserting token_balance at block 8: boom" ∧
      (Execute (sampleTransformer (some ("MissingAllowanceBlocks", 5))) sampleOrder 0).1.map
        (fun te => te.Error)
        = some "Error fetching missing blocks starting at block number 5: boom" ∧
      (Execute (sampleTransformer (some ("GetAllowance", 8))) sampleOrder 0).1.map
        (fun te => te.Error) = some "Error fetching allowance at block 8: boom" ∧
      (Execute (sampleTransformer (some ("CreateAllowance", 8))) sampleOrder 0).1.map
        (fun te => te.Error) = some "Error inserting allowance at block 8: boom") ∧
    (callsOf (sampleTransformer (some ("CreateBalance", 8))) sampleOrder 0).getLast?
      = some (Call.CreateBalance
          { Value := "18", TokenAddress := "0xToken", BlockNumber := 8,
            TokenHolderAddress := "0xB" } (some "boom")) ∧
    ((callsOf (sampleTransformer (some ("GetTotalSupply", 7))) sampleOrder 0).getLast?
        = some (Call.GetTotalSupply "abi" "0xToken" 7 (Except.error "boom")) ∧
      ∃ te m b e,
        (Execute (sampleTransformer (some ("GetTotalSupply", 7))) sampleOrder 0).1 = some te ∧
        failureOf (sampleTransformer (some ("GetTotalSupply", 7))).Config
          (Call.GetTotalSupply "abi" "0xToken" 7 (Except.error "boom")) = some (m, b, e) ∧
        te.msg = m ∧ te.blockNumber = b ∧ te.err = e ∧
        te.Error = substituteVerbs m b e) :=
  ⟨⟨by decide, by decide, by decide, by decide, by decide, by decide, by decide, by decide,
      by decide, by decide⟩,
    by rfl,
    (execute_error_text (sampleTransformer (some ("GetTotalSupply", 7))) sampleOrder 0).2.1 _
      (List.mem_of_getLast?_eq_some (by rfl)) rfl⟩

end EveryBlock

namespace EveryBlock

theorem flatMap_of_map {α β γ : Type} (f : α → β) (g : β → List γ) (l : List α) :
    (l.map f).flatMap g = l.flatMap (fun a => g (f a)) := by
  induction l with
  | nil => rfl
  | cons a l ih => simp only [List.map_cons, List.flatMap_cons, ih]

theorem map_of_flatMap {α β γ : Type} (f : β → γ) (g : α → List β) (l : List α) :
    (l.flatMap g).map f = l.flatMap (fun a => (g a).map f) := by
  induction l with
  | nil => rfl
  | cons a l ih => simp only [List.flatMap_cons, List.map_append, ih]

/-- The pairs of the allowance queries of a run that goes well are, up to
order, all ordered pairs of holders. -/
theorem allowance_pairs_perm (keys : List Address) (work : List HolderWork)
    (houter : (work.map (fun hw => hw.holder)).Perm keys)
    (hinner : ∀ hw ∈ work, (hw.spenders.map (fun sw => sw.spender)).Perm keys) :
    (work.flatMap (fun hw =>
        hw.spenders.map (fun sw => (hw.holder.String, sw.spender.String)))).Perm
      ((keys ×ˢ keys).map (fun p => (p.1.String, p.2.String))) := by
  have h1 : (work.flatMap (fun hw =>
        hw.spenders.map (fun sw => (hw.holder.String, sw.spender.String)))).Perm
      (work.flatMap (fun hw => keys.map (fun s => (hw.holder.String, s.String)))) := by
    apply List.Perm.flatMap_left
    intro hw hmem
    have h := (hinner hw hmem).map (fun s : Address => (hw.holder.String, s.String))
    simpa only [List.map_map, Function.comp_def] using h
  have h2 : work.flatMap (fun hw => keys.map (fun s => (hw.holder.String, s.String)))
      = (work.map (fun hw => hw.holder)).flatMap
          (fun h => keys.map (fun s => (h.String, s.String))) :=
    (flatMap_of_map (fun hw : HolderWork => hw.holder)
      (fun h => keys.map (fun s => (h.String, s.String))) work).symm
  have h3 : ((work.map (fun hw => hw.holder)).flatMap
        (fun h => keys.map (fun s => (h.String, s.String)))).Perm
      (keys.flatMap (fun h => keys.map (fun s => (h.String, s.String)))) :=
    List.Perm.flatMap_right _ houter
  have h4 : (keys ×ˢ keys).map (fun p => (p.1.String, p.2.String))
      = keys.flatMap (fun h => keys.map (fun s => (h.String, s.String))) := by
    show (List.product keys keys).map _ = _
    unfold List.product
    rw [map_of_flatMap]
    simp only [List.map_map, Function.comp_def]
  rw [h4]
  exact h1.trans (h2 ▸ h3)

/-- C16: when no call fails, after the holders are retrieved the repository
and the getter of the transformer receive, for each holder in the order the
map is walked, one query for the missing balance blocks, a `GetBalance` and a
`CreateBalance` for each block the query returned, and for each spender in the
order the map is walked one query for the missing allowance blocks, a
`GetAllowance` and a `CreateAllowance` for each block that query returned; the
models carry the value the getter returned in decimal, `Config.Address`, the
block, the holder (and the spender). Up to order the holders queried are the
addresses retrieved and the pairs queried are all ordered pairs of them,
`n * n` in number. The calls are the ones the collaborators write down
themselves, each with the result it gave. -/
theorem execute_balances_and_allowances {σ : Type} (t : ERC20Transformer σ)
    (order : MapOrder) (w : σ)
    (hok : (Execute t order w).1 = none)
    (houter : ∀ l, (order.outer l).Perm l) (hinner : ∀ h l, (order.inner h l).Perm l) :
    ((Execute (recording t) order (w, [])).1 = (Execute t order w).1 ∧
      (Execute (recording t) order (w, [])).2.1 = (Execute t order w).2) ∧
    ∃ (before : List Call) (keys : List Address) (work : List HolderWork),
      callsOf t order w
        = before ++ [Call.RetrieveTokenHolderAddresses (Except.ok keys)]
          ++ work.flatMap (holderCalls t.Config (upperBoundBlock t w)) ∧
      (balanceQueried before = [] ∧ allowanceQueried before = [] ∧
        balanceCreated before = [] ∧ allowanceCreated before = []) ∧
      (work.map (fun hw => hw.holder)).Perm keys ∧
      (∀ hw ∈ work, (hw.spenders.map (fun sw => sw.spender)).Perm keys) ∧
      (balanceQueried (callsOf t order w)).Perm (keys.map Address.String) ∧
      (allowanceQueried (callsOf t order w)).Perm
        ((keys ×ˢ keys).map (fun p => (p.1.String, p.2.String))) ∧
      (balanceQueried (callsOf t order w)).length = keys.length ∧
      (allowanceQueried (callsOf t order w)).length = keys.length * keys.length ∧
      balanceCreated (callsOf t order w)
        = work.flatMap (fun hw => hw.balances.map (fun p =>
            { Value := toString p.2, TokenAddress := t.Config.Address, BlockNumber := p.1,
              TokenHolderAddress := hw.holder.String })) ∧
      allowanceCreated (callsOf t order w)
        = work.flatMap (fun hw => hw.spenders.flatMap (fun sw => sw.allowances.map (fun p =>
            { Value := toString p.2, TokenAddress := t.Config.Address, BlockNumber := p.1,
              TokenHolderAddress := hw.holder.String,
              TokenSpenderAddress := sw.spender.String }))) := by
  refine ⟨execute_recording t order w, ?_⟩
  rcases execute_spec t order w with ⟨supply, keys, work, _, hc, hmap, hsp⟩ | ⟨te, hs, _⟩
  · have hsup := supplyCalls_projections t.Config supply
    have hhold := holderCalls_projections t.Config (upperBoundBlock t w)
    have hwork : (work.map (fun hw => hw.holder)).Perm keys := hmap ▸ houter keys
    have hspend : ∀ hw ∈ work, (hw.spenders.map (fun sw => sw.spender)).Perm keys :=
      fun hw hmem => (hsp hw hmem) ▸ hinner hw.holder keys
    have hbq : balanceQueried (callsOf t order w)
        = (work.map (fun hw => hw.holder)).map Address.String := by
      have e : ∀ (a b c : List Call) (l : List HolderWork),
          balanceQueried (a ++ b ++ c ++ l.flatMap (holderCalls t.Config (upperBoundBlock t w)))
            = balanceQueried a ++ balanceQueried b ++ balanceQueried c
              ++ l.flatMap (fun hw =>
                  balanceQueried (holderCalls t.Config (upperBoundBlock t w) hw)) := by
        intro a b c l
        simp only [balanceQueried, List.filterMap_append, filterMap_flatMap_calls]
      rw [hc, e, hsup.2.2.1, funext (fun hw => (hhold hw).2.2.1), flatMap_singleton_calls,
        List.map_map]
      rfl
    have haq : allowanceQueried (callsOf t order w)
        = work.flatMap (fun hw =>
            hw.spenders.map (fun sw => (hw.holder.String, sw.spender.String))) := by
      have e : ∀ (a b c : List Call) (l : List HolderWork),
          allowanceQueried (a ++ b ++ c ++ l.flatMap (holderCalls t.Config (upperBoundBlock t w)))
            = allowanceQueried a ++ allowanceQueried b ++ allowanceQueried c
              ++ l.flatMap (fun hw =>
                  allowanceQueried (holderCalls t.Config (upperBoundBlock t w) hw)) := by
        intro a b c l
        simp only [allowanceQueried, List.filterMap_append, filterMap_flatMap_calls]
      rw [hc, e, hsup.2.2.2.1, funext (fun hw => (hhold hw).2.2.2.1)]
      rfl
    have hbp : (balanceQueried (callsOf t order w)).Perm (keys.map Address.String) :=
      hbq ▸ hwork.map _
    have hap : (allowanceQueried (callsOf t order w)).Perm
        ((keys ×ˢ keys).map (fun p => (p.1.String, p.2.String))) :=
      haq ▸ allowance_pairs_perm keys work hwork hspend
    refine ⟨[Call.MissingSupplyBlocks t.Config.FirstBlock (upperBoundBlock t w)
        t.Config.Address (Except.ok (supply.map Prod.fst))]
        ++ supply.flatMap (supplyCalls t.Config), keys, work, hc, ?_, hwork, hspend, hbp, hap,
        ?_, ?_, ?_, ?_⟩
    · refine ⟨?_, ?_, ?_, ?_⟩
      · simp only [balanceQueried, List.filterMap_append] at hsup ⊢
        rw [hsup.2.2.1]
        rfl
      · simp only [allowanceQueried, List.filterMap_append] at hsup ⊢
        rw [hsup.2.2.2.1]
        rfl
      · simp only [balanceCreated, List.filterMap_append] at hsup ⊢
        rw [hsup.2.2.2.2.1]
        rfl
      · simp only [allowanceCreated, List.filterMap_append] at hsup ⊢
        rw [hsup.2.2.2.2.2]
        rfl
    · rw [hbp.length_eq, List.length_map]
    · rw [hap.length_eq, List.length_map, List.length_product]
    · have e : ∀ (a b c : List Call) (l : List HolderWork),
          balanceCreated (a ++ b ++ c ++ l.flatMap (holderCalls t.Config (upperBoundBlock t w)))
            = balanceCreated a ++ balanceCreated b ++ balanceCreated c
              ++ l.flatMap (fun hw =>
                  balanceCreated (holderCalls t.Config (upperBoundBlock t w) hw)) := by
        intro a b c l
        simp only [balanceCreated, List.filterMap_append, filterMap_flatMap_calls]
      rw [hc, e, hsup.2.2.2.2.1, funext (fun hw => (hhold hw).2.2.2.2.1)]
      rfl
    · have e : ∀ (a b c : List Call) (l : List HolderWork),
          allowanceCreated
              (a ++ b ++ c ++ l.flatMap (holderCalls t.Config (upperBoundBlock t w)))
            = allowanceCreated a ++ allowanceCreated b ++ allowanceCreated c
              ++ l.flatMap (fun hw =>
                  allowanceCreated (holderCalls t.Config (upperBoundBlock t w) hw)) := by
        intro a b c l
        simp only [allowanceCreated, List.filterMap_append, filterMap_flatMap_calls]
      rw [hc, e, hsup.2.2.2.2.2, funext (fun hw => (hhold hw).2.2.2.2.2)]
      rfl
  · rw [(execute_recording t order w).1, hok] at hs
    exact absurd hs (by simp)

/-- C16 on an example: the holders 0xA and 0xB, the outer loop walking the map
in reverse: the calls after the retrieval, with the four ordered pairs queried
and a balance and an allowance inserted for each block returned. -/
theorem execute_balances_and_allowances_witness :
    (Execute (sampleTransformer none) sampleOrder 0).1 = none ∧
    (callsOf (sampleTransformer none) sampleOrder 0).drop 9
      = [Call.RetrieveTokenHolderAddresses (Except.ok [{ hex := "0xA" }, { hex := "0xB" }]),
         Call.MissingBalanceBlocks 5 8 "0xToken" "0xB" (Except.ok [8]),
         Call.GetBalance "abi" "0xToken" 8 [{ hex := "0xB" }] (Except.ok 18),
         Call.CreateBalance
           { Value := "18", TokenAddress := "0xToken", BlockNumber := 8,
             TokenHolderAddress := "0xB" } none,
         Call.MissingAllowanceBlocks 5 8 "0xToken" "0xB" "0xA" (Except.ok [8]),
         Call.GetAllowance "abi" "0xToken" 8 [{ hex := "0xB" }, { hex := "0xA" }] (Except.ok 8),
         Call.CreateAllowance
           { Value := "8", TokenAddress := "0xToken", BlockNumber := 8,
             TokenHolderAddress := "0xB", TokenSpenderAddress := "0xA" } none,
         Call.MissingAllowanceBlocks 5 8 "0xToken" "0xB" "0xB" (Except.ok [8]),
         Call.GetAllowance "abi" "0xToken" 8 [{ hex := "0xB" }, { hex := "0xB" }] (Except.ok 8),
         Call.CreateAllowance
           { Value := "8", TokenAddress := "0xToken", BlockNumber := 8,
             TokenHolderAddress := "0xB", TokenSpenderAddress := "0xB" } none,
         Call.MissingBalanceBlocks 5 8 "0xToken" "0xA" (Except.ok [8]),
         Call.GetBalance "abi" "0xToken" 8 [{ hex := "0xA" }] (Except.ok 18),
         Call.CreateBalance
           { Value := "18", TokenAddress := "0xToken", BlockNumber := 8,
             TokenHolderAddress := "0xA" } none,
         Call.MissingAllowanceBlocks 5 8 "0xToken" "0xA" "0xA" (Except.ok [8]),
         Call.GetAllowance "abi" "0xToken" 8 [{ hex := "0xA" }, { hex := "0xA" }] (Except.ok 8),
         Call.CreateAllowance
           { Value := "8", TokenAddress := "0xToken", BlockNumber := 8,
             TokenHolderAddress := "0xA", TokenSpenderAddress := "0xA" } none,
         Call.MissingAllowanceBlocks 5 8 "0xToken" "0xA" "0xB" (Except.ok [8]),
         Call.GetAllowance "abi" "0xToken" 8 [{ hex := "0xA" }, { hex := "0xB" }] (Except.ok 8),
         Call.CreateAllowance
           { Value := "8", TokenAddress := "0xToken", BlockNumber := 8,
             TokenHolderAddress := "0xA", TokenSpenderAddress := "0xB" } none] ∧
    balanceQueried (callsOf (sampleTransformer none) sampleOrder 0) = ["0xB", "0xA"] ∧
    allowanceQueried (callsOf (sampleTransformer none) sampleOrder 0)
      = [("0xB", "0xA"), ("0xB", "0xB"), ("0xA", "0xA"), ("0xA", "0xB")] ∧
    balanceCreated (callsOf (sampleTransformer none) sampleOrder 0)
      = [{ Value := "18", TokenAddress := "0xToken", BlockNumber := 8,
           TokenHolderAddress := "0xB" },
         { Value := "18", TokenAddress := "0xToken", BlockNumber := 8,
           TokenHolderAddress := "0xA" }] ∧
    allowanceCreated (callsOf (sampleTransformer none) sampleOrder 0)
      = [{ Value := "8", TokenAddress := "0xToken", BlockNumber := 8,
           TokenHolderAddress := "0xB", TokenSpenderAddress := "0xA" },
         { Value := "8", TokenAddress := "0xToken", BlockNumber := 8,
           TokenHolderAddress := "0xB", TokenSpenderAddress := "0xB" },
         { Value := "8", TokenAddress := "0xToken", BlockNumber := 8,
           TokenHolderAddress := "0xA", TokenSpenderAddress := "0xA" },
         { Value := "8", TokenAddress := "0xToken", BlockNumber := 8,
           TokenHolderAddress := "0xA", TokenSpenderAddress := "0xB" }] ∧
    ∃ keys : List Address,
      (balanceQueried (callsOf (sampleTransformer none) sampleOrder 0)).Perm
        (keys.map Address.String) ∧
      (allowanceQueried (callsOf (sampleTransformer none) sampleOrder 0)).Perm
        ((keys ×ˢ keys).map (fun p => (p.1.String, p.2.String))) ∧
      (allowanceQueried (callsOf (sampleTransformer none) sampleOrder 0)).length
        = keys.length * keys.length := by
  refine ⟨by decide, by rfl, by decide, by decide, by decide, by decide, ?_⟩
  obtain ⟨_, _, keys, _, _, _, _, _, hb, ha, _, hl, _⟩ :=
    execute_balances_and_allowances (sampleTransformer none) sampleOrder 0 (by decide)
      (fun l => List.reverse_perm l) (fun _ l => List.Perm.refl l)
  exact ⟨keys, hb, ha, hl⟩

end EveryBlock

/-! ## The converter of vat init logs -/

namespace VatInit

/-- The leading elements a `dropWhile` on equality with `c` drops are copies
of `c`, and what is left does not start with `c`. -/
theorem dropWhile_eq_split (c : Nat) (s : List Nat) :
    ∃ n, s = List.replicate n c ++ s.dropWhile (fun b => [c].contains b) ∧
      (s.dropWhile (fun b => [c].contains b)).head? ≠ some c := by
  induction s with
  | nil => exact ⟨0, rfl, by simp⟩
  | cons a s ih =>
    by_cases ha : a = c
    · obtain ⟨n, h1, h2⟩ := ih
      refine ⟨n + 1, ?_, ?_⟩
      · subst ha
        simp only [List.dropWhile_cons, List.contains_cons, List.contains_nil, Bool.or_false,
          beq_self_eq_true, if_true, List.replicate_succ, List.cons_append]
        simp only [List.contains_cons, List.contains_nil, Bool.or_false] at h1
        rw [← h1]
      · subst ha
        simpa only [List.dropWhile_cons, List.contains_cons, List.contains_nil, Bool.or_false,
          beq_self_eq_true, if_true] using h2
    · refine ⟨0, ?_, ?_⟩
      · simp [List.dropWhile_cons, ha]
      · simp [List.dropWhile_cons, ha]

/-- What `bytes.Trim` with the cutset of the one byte `c` gives: the bytes
with the copies of `c` at the start and at the end cut off; the result neither
starts nor ends with `c`. -/
theorem bytesTrim_spec (c : Nat) (s : List Nat) :
    ∃ lead trail, s = List.replicate lead c ++ bytesTrim s [c] ++ List.replicate trail c ∧
      (bytesTrim s [c]).head? ≠ some c ∧ (bytesTrim s [c]).getLast? ≠ some c := by
  obtain ⟨trail, h1, h2⟩ := dropWhile_eq_split c s.reverse
  obtain ⟨lead, h3, h4⟩ := dropWhile_eq_split c
    (s.reverse.dropWhile (fun b => [c].contains b)).reverse
  have hs : s = (s.reverse.dropWhile (fun b => [c].contains b)).reverse
      ++ List.replicate trail c := by
    have := congrArg List.reverse h1
    simpa using this
  refine ⟨lead, trail, ?_, h4, ?_⟩
  · unfold bytesTrim
    rw [← h3]
    exact hs
  · unfold bytesTrim
    intro hlast
    have hlast2 : ((s.reverse.dropWhile (fun b => [c].contains b)).reverse).getLast?
        = some c := by
      rw [h3, List.getLast?_append, hlast]
      rfl
    rw [List.getLast?_reverse] at hlast2
    exact h2 hlast2

theorem verifyLog_none (log : Log) (h : verifyLog log = none) :
    ∃ topic, log.Topics.get? 1 = some topic := by
  unfold verifyLog at h
  split_ifs at h with hlen
  have hlt : 1 < log.Topics.length := by omega
  exact ⟨log.Topics.get ⟨1, hlt⟩, List.get?_eq_get hlt⟩

theorem verifyLog_eq (log : Log) :
    (log.Topics.length < 2 ∧ verifyLog log = some "log missing topics") ∨
    (2 ≤ log.Topics.length ∧ verifyLog log = none) := by
  unfold verifyLog
  by_cases h : log.Topics.length < 2
  · exact Or.inl ⟨h, by simp [h]⟩
  · exact Or.inr ⟨by omega, by simp [h]⟩

/-- The read of `Topics[1]` is never out of range: `ToModels` does not panic. -/
theorem toModelsLoop_no_panic (marshal : Log → Except String (List Nat)) (logs : List Log) :
    ∀ (acc : List VatInitModel) (message : String),
      toModelsLoop marshal logs acc ≠ Result.panic message := by
  induction logs with
  | nil => intro acc message; simp [toModelsLoop]
  | cons l logs ih =>
    intro acc message
    rcases verifyLog_eq l with ⟨_, hv⟩ | ⟨_, hv⟩
    · simp [toModelsLoop, hv]
    · obtain ⟨topic, ht⟩ := verifyLog_none l hv
      cases hm : marshal l with
      | error e =>
        simp only [toModelsLoop, hv, ht, hm]
        simp
      | ok raw =>
        simp only [toModelsLoop, hv, ht, hm]
        exact ih _ message

/-- What the loop of `ToModels` returns when the JSON encoding succeeds: the
error "log missing topics" and no model when a log has fewer than two topics;
otherwise the models made so far and one model for each log, in order. -/
theorem toModelsLoop_spec (marshal : Log → Except String (List Nat)) (logs : List Log) :
    ∀ acc : List VatInitModel, (∀ l ∈ logs, ∃ raw, marshal l = Except.ok raw) →
      ((∃ l ∈ logs, l.Topics.length < 2) ∧
        toModelsLoop marshal logs acc = Result.returned [] (some "log missing topics")) ∨
      ((∀ l ∈ logs, 2 ≤ l.Topics.length) ∧
        ∃ models, toModelsLoop marshal logs acc = Result.returned (acc ++ models) none ∧
          List.Forall₂ (fun l m =>
            m.TransactionIndex = l.TxIndex ∧ marshal l = Except.ok m.Raw ∧
            ∃ topic, l.Topics.get? 1 = some topic ∧ m.Ilk = bytesTrim topic.bytes [0])
            logs models) := by
  induction logs with
  | nil =>
    intro acc _
    exact Or.inr ⟨by simp, [], by simp [toModelsLoop], List.Forall₂.nil⟩
  | cons l logs ih =>
    intro acc hm
    rcases verifyLog_eq l with ⟨hlen, hv⟩ | ⟨hlen, hv⟩
    · left
      exact ⟨⟨l, List.mem_cons_self _ _, hlen⟩, by simp [toModelsLoop, hv]⟩
    · obtain ⟨topic, ht⟩ := verifyLog_none l hv
      obtain ⟨raw, hraw⟩ := hm l (List.mem_cons_self _ _)
      have hstep : toModelsLoop marshal (l :: logs) acc
          = toModelsLoop marshal logs
              (acc ++ [{ Ilk := bytesTrim topic.bytes [0], TransactionIndex := l.TxIndex,
                         Raw := raw }]) := by
        simp only [toModelsLoop, hv, ht, hraw, Hash.Bytes]
      rw [hstep]
      rcases ih _ (fun x hx => hm x (List.mem_cons_of_mem _ hx))
        with ⟨⟨x, hx, hxl⟩, hres⟩ | ⟨hall, models, hres, hrel⟩
      · left
        exact ⟨⟨x, List.mem_cons_of_mem _ hx, hxl⟩, hres⟩
      · right
        refine ⟨?_, VatInitModel.mk (bytesTrim topic.bytes [0]) l.TxIndex raw :: models, ?_,
          List.Forall₂.cons ⟨rfl, hraw, topic, ht, rfl⟩ hrel⟩
        · intro x hx
          rcases List.mem_cons.1 hx with rfl | hx
          · exact hlen
          · exact hall x hx
        · rw [hres]
          simp

/-- C17: when the JSON encoding of the logs succeeds, `ToModels` returns an
error exactly when a log of the list has fewer than two topics; the error is
then "log missing topics" and the models returned are nil, also when logs with
two topics come before the bad one; and `Topics[1]` is never read out of
range. -/
theorem toModels_error_iff_missing_topics (marshal : Log → Except String (List Nat))
    (logs : List Log) (hm : ∀ l ∈ logs, ∃ raw, marshal l = Except.ok raw) :
    ((∃ models e, ToModels marshal logs = Result.returned models (some e)) ↔
      ∃ l ∈ logs, l.Topics.length < 2) ∧
    (∀ models e, ToModels marshal logs = Result.returned models (some e) →
      e = "log missing topics" ∧ models = []) ∧
    (∀ message, ToModels marshal logs ≠ Result.panic message) := by
  unfold ToModels
  refine ⟨?_, ?_, toModelsLoop_no_panic marshal logs []⟩
  · rcases toModelsLoop_spec marshal logs [] hm with ⟨hex, hres⟩ | ⟨hall, models, hres, _⟩
    · exact ⟨fun _ => hex, fun _ => ⟨[], _, hres⟩⟩
    · constructor
      · rintro ⟨ms, e, h⟩
        rw [hres] at h
        simp at h
      · rintro ⟨l, hl, hlt⟩
        have := hall l hl
        omega
  · intro ms e h
    rcases toModelsLoop_spec marshal logs [] hm with ⟨_, hres⟩ | ⟨_, models, hres, _⟩
    · rw [hres] at h
      simp only [Result.returned.injEq, Option.some.injEq] at h
      exact ⟨h.2.symm, h.1.symm⟩
    · rw [hres] at h
      simp at h

/-- C17 on an example: a log with three topics followed by a log with one
topic: the error is "log missing topics" and no model is returned. -/
theorem toModels_error_iff_missing_topics_witness :
    ToModels sampleMarshal [EthBiteLog, shortLog]
      = Result.returned [] (some "log missing topics") ∧
    ((∃ models e, ToModels sampleMarshal [EthBiteLog, shortLog]
        = Result.returned models (some e)) ↔
      ∃ l ∈ [EthBiteLog, shortLog], l.Topics.length < 2) :=
  ⟨by decide,
    (toModels_error_iff_missing_topics sampleMarshal [EthBiteLog, shortLog]
      (fun l _ => ⟨[l.TxIndex], rfl⟩)).1⟩

/-- C18: for logs that each have two topics or more (the JSON encoding
succeeding) `ToModels` returns one model for each log, in the order of the
logs; its `TransactionIndex` is the `TxIndex` of the log, and its `Ilk` is what
is left of the bytes of `Topics[1]` when the zero bytes at the start and at the
end are cut off, the zero bytes inside being kept: it neither starts nor ends
with a zero byte. -/
theorem toModels_one_model_per_log (marshal : Log → Except String (List Nat))
    (logs : List Log) (hm : ∀ l ∈ logs, ∃ raw, marshal l = Except.ok raw)
    (htopics : ∀ l ∈ logs, 2 ≤ l.Topics.length) :
    ∃ models, ToModels marshal logs = Result.returned models none ∧
      models.length = logs.length ∧
      List.Forall₂ (fun l m =>
        m.TransactionIndex = l.TxIndex ∧ marshal l = Except.ok m.Raw ∧
        ∃ topic lead trail, l.Topics.get? 1 = some topic ∧
          topic.bytes = List.replicate lead 0 ++ m.Ilk ++ List.replicate trail 0 ∧
          m.Ilk.head? ≠ some 0 ∧ m.Ilk.getLast? ≠ some 0)
        logs models := by
  unfold ToModels
  rcases toModelsLoop_spec marshal logs [] hm with ⟨⟨l, hl, hlt⟩, _⟩ | ⟨_, models, hres, hrel⟩
  · have := htopics l hl
    omega
  · refine ⟨models, by simpa using hres, hrel.length_eq.symm, ?_⟩
    refine hrel.imp ?_
    rintro l m ⟨h1, h2, topic, h3, h4⟩
    obtain ⟨lead, trail, h5, h6, h7⟩ := bytesTrim_spec 0 topic.bytes
    rw [← h4] at h5 h6 h7
    exact ⟨h1, h2, topic, lead, trail, h3, h5, h6, h7⟩

/-- C18 on the log of the test data: the topic 0x66616b6520696c6b followed by
24 zero bytes gives the `Ilk` "fake ilk", with the `TxIndex` 111. -/
theorem toModels_one_model_per_log_witness :
    ToModels sampleMarshal [EthBiteLog]
      = Result.returned
          [{ Ilk := asciiBytes "fake ilk", TransactionIndex := 111, Raw := [111] }] none ∧
    ∃ models, ToModels sampleMarshal [EthBiteLog] = Result.returned models none ∧
      models.length = [EthBiteLog].length ∧
      List.Forall₂ (fun l m =>
        m.TransactionIndex = l.TxIndex ∧ sampleMarshal l = Except.ok m.Raw ∧
        ∃ topic lead trail, l.Topics.get? 1 = some topic ∧
          topic.bytes = List.replicate lead 0 ++ m.Ilk ++ List.replicate trail 0 ∧
          m.Ilk.head? ≠ some 0 ∧ m.Ilk.getLast? ≠ some 0)
        [EthBiteLog] models :=
  ⟨by decide,
    toModels_one_model_per_log sampleMarshal [EthBiteLog] (fun l _ => ⟨[l.TxIndex], rfl⟩)
      (by decide)⟩

end VatInit

/-! ## The event signatures of the example constants -/

namespace Constants

/-- C13, evaluated on the code: the canonical signatures of the Transfer and
Approval events of both ABIs end in `uint256`, and the texts given to
`GenerateSignature` end in `uint`: they are not the canonical signatures. -/
theorem event_signature_texts_not_canonical :
    (eventNamed DaiAbiEvents "Transfer").map canonicalSignature
      = some "Transfer(address,address,uint256)" ∧
    (eventNamed TusdAbiEvents "Transfer").map canonicalSignature
      = some "Transfer(address,address,uint256)" ∧
    (eventNamed DaiAbiEvents "Approval").map canonicalSignature
      = some "Approval(address,address,uint256)" ∧
    (eventNamed TusdAbiEvents "Approval").map canonicalSignature
      = some "Approval(address,address,uint256)" ∧
    (eventNamed DaiAbiEvents "Transfer").map canonicalSignature ≠ some transferSignatureText ∧
    (eventNamed TusdAbiEvents "Transfer").map canonicalSignature ≠ some transferSignatureText ∧
    (eventNamed DaiAbiEvents "Approval").map canonicalSignature ≠ some approvalSignatureText ∧
    (eventNamed TusdAbiEvents "Approval").map canonicalSignature ≠ some approvalSignatureText ∧
    (∀ GenerateSignature : String → String,
      TransferEventSignature GenerateSignature
        = GenerateSignature "Transfer(address,address,uint)" ∧
      ApprovalEventSignature GenerateSignature
        = GenerateSignature "Approval(address,address,uint)") := by
  refine ⟨by decide, by decide, by decide, by decide, by decide, by decide, by decide,
    by decide, fun _ => ⟨rfl, rfl⟩⟩

end Constants
